import Mathlib

set_option maxHeartbeats 2000000
set_option linter.unusedVariables false
set_option linter.unnecessarySeqFocus false

/-!
Verification development for the expression parser of the Leo compiler front
end (`src/parser/src/parser/expression.rs`).  The parser is shallowly embedded
as a family of fuel-indexed state functions over a token stream; the cursor
primitives, spans and the type-parsing collaborator, which live outside the
expression module, are modelled from the specification's external-interface
description.
-/

/-- Source-location range.  Modelled from the spec: a node's span is "computed
as the union of its children's spans plus any delimiting tokens"; we keep a
flat start/stop pair, and `Span.add` (the `+` used throughout the source) is
the union of the two ranges. -/
structure Span where
  start : Nat
  stop : Nat
deriving DecidableEq, Repr

/-- Union of two spans, the `impl Add for Span` used by the source. -/
def Span.add (a b : Span) : Span :=
  { start := min a.start b.start, stop := max a.stop b.stop }

/-- The lexical token kinds consumed by the expression parser, one constructor
per `Token` variant the source mentions. -/
inductive Token where
  | Int (value : String)
  | Ident (name : String)
  | AddressLit (value : String)
  | True
  | False
  | Address
  | I8 | I16 | I32 | I64 | I128
  | U8 | U16 | U32 | U64 | U128
  | Field
  | Group
  | Or | And
  | BitOr | BitXor | BitAnd
  | Eq | NotEq
  | Lt | LtEq | Gt | GtEq
  | Shl | Shr | ShrSigned
  | Add | Minus
  | Mul | Div | Mod
  | Exp
  | As
  | Not | BitNot
  | Question | Colon | Semicolon | Comma
  | Dot | DotDot | DotDotDot | DoubleColon
  | LeftParen | RightParen
  | LeftSquare | RightSquare
  | LeftCurly | RightCurly
  | BigSelf | LittleSelf | Input
deriving Repr

/-- Injection of tokens into a flat code (constructor index plus payload
text), used to give `Token` a shallow decidable equality (the equality the
cursor primitives' `==` tests perform). -/
def Token.encode : Token → Nat × String
  | Token.Int v => (0, v)
  | Token.Ident n => (1, n)
  | Token.AddressLit v => (2, v)
  | Token.True => (3, "")
  | Token.False => (4, "")
  | Token.Address => (5, "")
  | Token.I8 => (6, "")
  | Token.I16 => (7, "")
  | Token.I32 => (8, "")
  | Token.I64 => (9, "")
  | Token.I128 => (10, "")
  | Token.U8 => (11, "")
  | Token.U16 => (12, "")
  | Token.U32 => (13, "")
  | Token.U64 => (14, "")
  | Token.U128 => (15, "")
  | Token.Field => (16, "")
  | Token.Group => (17, "")
  | Token.Or => (18, "")
  | Token.And => (19, "")
  | Token.BitOr => (20, "")
  | Token.BitXor => (21, "")
  | Token.BitAnd => (22, "")
  | Token.Eq => (23, "")
  | Token.NotEq => (24, "")
  | Token.Lt => (25, "")
  | Token.LtEq => (26, "")
  | Token.Gt => (27, "")
  | Token.GtEq => (28, "")
  | Token.Shl => (29, "")
  | Token.Shr => (30, "")
  | Token.ShrSigned => (31, "")
  | Token.Add => (32, "")
  | Token.Minus => (33, "")
  | Token.Mul => (34, "")
  | Token.Div => (35, "")
  | Token.Mod => (36, "")
  | Token.Exp => (37, "")
  | Token.As => (38, "")
  | Token.Not => (39, "")
  | Token.BitNot => (40, "")
  | Token.Question => (41, "")
  | Token.Colon => (42, "")
  | Token.Semicolon => (43, "")
  | Token.Comma => (44, "")
  | Token.Dot => (45, "")
  | Token.DotDot => (46, "")
  | Token.DotDotDot => (47, "")
  | Token.DoubleColon => (48, "")
  | Token.LeftParen => (49, "")
  | Token.RightParen => (50, "")
  | Token.LeftSquare => (51, "")
  | Token.RightSquare => (52, "")
  | Token.LeftCurly => (53, "")
  | Token.RightCurly => (54, "")
  | Token.BigSelf => (55, "")
  | Token.LittleSelf => (56, "")
  | Token.Input => (57, "")

/-- Left inverse of `Token.encode`. -/
def Token.decode : Nat × String → Token
  | (0, v) => Token.Int v
  | (1, n) => Token.Ident n
  | (2, v) => Token.AddressLit v
  | (3, _) => Token.True
  | (4, _) => Token.False
  | (5, _) => Token.Address
  | (6, _) => Token.I8
  | (7, _) => Token.I16
  | (8, _) => Token.I32
  | (9, _) => Token.I64
  | (10, _) => Token.I128
  | (11, _) => Token.U8
  | (12, _) => Token.U16
  | (13, _) => Token.U32
  | (14, _) => Token.U64
  | (15, _) => Token.U128
  | (16, _) => Token.Field
  | (17, _) => Token.Group
  | (18, _) => Token.Or
  | (19, _) => Token.And
  | (20, _) => Token.BitOr
  | (21, _) => Token.BitXor
  | (22, _) => Token.BitAnd
  | (23, _) => Token.Eq
  | (24, _) => Token.NotEq
  | (25, _) => Token.Lt
  | (26, _) => Token.LtEq
  | (27, _) => Token.Gt
  | (28, _) => Token.GtEq
  | (29, _) => Token.Shl
  | (30, _) => Token.Shr
  | (31, _) => Token.ShrSigned
  | (32, _) => Token.Add
  | (33, _) => Token.Minus
  | (34, _) => Token.Mul
  | (35, _) => Token.Div
  | (36, _) => Token.Mod
  | (37, _) => Token.Exp
  | (38, _) => Token.As
  | (39, _) => Token.Not
  | (40, _) => Token.BitNot
  | (41, _) => Token.Question
  | (42, _) => Token.Colon
  | (43, _) => Token.Semicolon
  | (44, _) => Token.Comma
  | (45, _) => Token.Dot
  | (46, _) => Token.DotDot
  | (47, _) => Token.DotDotDot
  | (48, _) => Token.DoubleColon
  | (49, _) => Token.LeftParen
  | (50, _) => Token.RightParen
  | (51, _) => Token.LeftSquare
  | (52, _) => Token.RightSquare
  | (53, _) => Token.LeftCurly
  | (54, _) => Token.RightCurly
  | (55, _) => Token.BigSelf
  | (56, _) => Token.LittleSelf
  | _ => Token.Input

theorem Token.decode_encode : ∀ t : Token, Token.decode (Token.encode t) = t := by
  intro t
  cases t <;> rfl

instance : DecidableEq Token := fun a b =>
  if h : Token.encode a = Token.encode b then
    Decidable.isTrue (by rw [← Token.decode_encode a, ← Token.decode_encode b, h])
  else
    Decidable.isFalse (fun hab => h (by rw [hab]))

/-- A token together with its source span. -/
structure SpannedToken where
  token : Token
  span : Span
deriving DecidableEq, Repr

/-- An identifier AST node (name and span). -/
structure Identifier where
  name : String
  span : Span
deriving DecidableEq, Repr

/-- Integer bit-width/signedness types, the image of `token_to_int_type`. -/
inductive IntegerType where
  | I8 | I16 | I32 | I64 | I128
  | U8 | U16 | U32 | U64 | U128
deriving DecidableEq, Repr

/-- Cast-target types.  Modelled from the spec: the type-parsing collaborator
returns "the type and its span"; we enumerate the scalar type names the token
vocabulary can produce. -/
inductive Type' where
  | Integer (t : IntegerType)
  | Field
  | Group
  | Address
deriving DecidableEq, Repr

/-- Binary operators, the closed `BinaryOperation` enum of the AST. -/
inductive BinaryOperation where
  | Or | And
  | BitOr | BitXor | BitAnd
  | Eq | Ne | Lt | Le | Gt | Ge
  | Shl | Shr | ShrSigned
  | Add | Sub | Mul | Div | Mod
  | Pow
deriving DecidableEq, Repr

/-- Unary operators, the closed `UnaryOperation` enum of the AST. -/
inductive UnaryOperation where
  | Not | Negate | BitNot
deriving DecidableEq, Repr

/-- Group literal values: a single coordinate (`5group`) or a coordinate
pair; coordinates are kept as their literal text. -/
inductive GroupValue where
  | Single (value : String) (span : Span)
  | Tuple (span : Span) (x : String) (y : String)
deriving DecidableEq, Repr

/-- Scalar literal values, the `ValueExpression` enum of the AST. -/
inductive ValueExpression where
  | Boolean (value : String) (span : Span)
  | Integer (type_ : IntegerType) (value : String) (span : Span)
  | Implicit (value : String) (span : Span)
  | Field (value : String) (span : Span)
  | Group (value : GroupValue)
  | Address (value : String) (span : Span)
deriving DecidableEq, Repr

mutual

/-- The expression AST, one constructor per variant the source constructs. -/
inductive Expression where
  | Identifier (ident : Identifier)
  | Value (value : ValueExpression)
  | Binary (span : Span) (op : BinaryOperation) (left : Expression) (right : Expression)
  | Unary (span : Span) (op : UnaryOperation) (inner : Expression)
  | Ternary (span : Span) (condition : Expression) (if_true : Expression) (if_false : Expression)
  | Cast (span : Span) (inner : Expression) (target_type : Type')
  | ArrayInline (elements : List SpreadOrExpression) (span : Span)
  | ArrayInit (span : Span) (element : Expression) (dimensions : List String)
  | ArrayAccess (span : Span) (array : Expression) (index : Expression)
  | ArrayRangeAccess (span : Span) (array : Expression) (left : Option Expression) (right : Option Expression)
  | TupleInit (span : Span) (elements : List Expression)
  | TupleAccess (span : Span) (tuple : Expression) (index : String)
  | CircuitMemberAccess (span : Span) (circuit : Expression) (name : Identifier)
  | CircuitStaticFunctionAccess (span : Span) (circuit : Expression) (name : Identifier)
  | Call (span : Span) (function : Expression) (arguments : List Expression)
  | CircuitInit (span : Span) (name : Identifier) (members : List CircuitImpliedVariableDefinition)

/-- An array element: either a spread (`...e`) or a plain expression. -/
inductive SpreadOrExpression where
  | Spread (e : Expression)
  | Expression (e : Expression)

/-- One `name` or `name: expr` entry of a circuit initializer. -/
inductive CircuitImpliedVariableDefinition where
  | mk (identifier : Identifier) (expression : Option Expression)

end

/-- The span projection `Expression::span()`: every AST variant carries its
span; identifiers and scalar values expose the span stored in the payload. -/
def Expression.spanOf : Expression → Span
  | .Identifier i => i.span
  | .Value (.Boolean _ s) => s
  | .Value (.Integer _ _ s) => s
  | .Value (.Implicit _ s) => s
  | .Value (.Field _ s) => s
  | .Value (.Group (.Single _ s)) => s
  | .Value (.Group (.Tuple s _ _)) => s
  | .Value (.Address _ s) => s
  | .Binary s _ _ _ => s
  | .Unary s _ _ => s
  | .Ternary s _ _ _ => s
  | .Cast s _ _ => s
  | .ArrayInline _ s => s
  | .ArrayInit s _ _ => s
  | .ArrayAccess s _ _ => s
  | .ArrayRangeAccess s _ _ _ => s
  | .TupleInit s _ => s
  | .TupleAccess s _ _ => s
  | .CircuitMemberAccess s _ _ => s
  | .CircuitStaticFunctionAccess s _ _ => s
  | .Call s _ _ => s
  | .CircuitInit s _ _ => s

/-- Parse errors.  `unexpected_str` and `spread_in_array_init` mirror the
`SyntaxError` constructors the source raises; `expected` and `unexpected_eof`
model the failures of the consume-and-require cursor primitives; `out_of_fuel`
is the artefact of the fuel-indexed embedding; `unimplemented` models the
unreachable `unimplemented!()`/`expect` panics. -/
inductive SyntaxError where
  | unexpected_str (got : Token) (expected : String) (span : Span)
  | spread_in_array_init (span : Span)
  | expected (want : Token) (got : Token) (span : Span)
  | expected_ident (got : Token) (span : Span)
  | unexpected_eof
  | out_of_fuel
  | unimplemented
deriving DecidableEq, Repr

/-- The mutable parser state: the struct-literal mode flag
(`fuzzy_struct_state`) and the remaining token stream (cursor position). -/
structure PState where
  fuzzy_struct_state : Bool
  tokens : List SpannedToken
deriving DecidableEq, Repr

/-- A parsing computation: Rust's `&mut self` methods returning
`SyntaxResult<α>` become state passing that keeps the (possibly advanced)
state also on error, matching the source where a failed call leaves the
cursor at the point of failure. -/
def ParseM (α : Type) : Type :=
  PState → Except SyntaxError α × PState

/-- Return a value, leaving the state unchanged. -/
def ppure {α : Type} (a : α) : ParseM α := fun s => (Except.ok a, s)

/-- Sequencing with the `?` operator's early return on error. -/
def pbind {α β : Type} (m : ParseM α) (f : α → ParseM β) : ParseM β := fun s =>
  match m s with
  | (Except.ok a, s1) => f a s1
  | (Except.error e, s1) => (Except.error e, s1)

/-- Raise a parse error, leaving the state at the point of failure. -/
def pthrow {α : Type} (e : SyntaxError) : ParseM α := fun s => (Except.error e, s)

/-- Read the struct-literal mode flag (`self.fuzzy_struct_state`). -/
def get_fuzzy : ParseM Bool := fun s => (Except.ok s.fuzzy_struct_state, s)

/-- Modelled from the spec: cursor primitive "peek next token (fails if
stream exhausted)"; does not consume. -/
def peek : ParseM SpannedToken := fun s =>
  match s.tokens with
  | [] => (Except.error SyntaxError.unexpected_eof, s)
  | t :: _ => (Except.ok t, s)

/-- Modelled from the spec: cursor primitive "conditionally consume next
token if it matches a given kind"; returns the consumed token or `none`. -/
def eat (tk : Token) : ParseM (Option SpannedToken) := fun s =>
  match s.tokens with
  | t :: rest =>
      if t.token = tk then (Except.ok (some t), { s with tokens := rest })
      else (Except.ok none, s)
  | [] => (Except.ok none, s)

/-- Modelled from the spec: like `eat` but accepting any kind from a list
(the source's `eat_any`). -/
def eat_any (tks : List Token) : ParseM (Option SpannedToken) := fun s =>
  match s.tokens with
  | t :: rest =>
      if t.token ∈ tks then (Except.ok (some t), { s with tokens := rest })
      else (Except.ok none, s)
  | [] => (Except.ok none, s)

/-- Modelled from the spec: cursor primitive "consume-and-require next token
of a given kind (fails with a descriptive error otherwise)"; returns the
consumed token's span. -/
def expect (tk : Token) : ParseM Span := fun s =>
  match s.tokens with
  | t :: rest =>
      if t.token = tk then (Except.ok t.span, { s with tokens := rest })
      else (Except.error (SyntaxError.expected tk t.token t.span), s)
  | [] => (Except.error SyntaxError.unexpected_eof, s)

/-- Modelled from the spec: consume the next token unconditionally, failing
only on an exhausted stream (the source's `expect_any`). -/
def expect_any : ParseM SpannedToken := fun s =>
  match s.tokens with
  | t :: rest => (Except.ok t, { s with tokens := rest })
  | [] => (Except.error SyntaxError.unexpected_eof, s)

/-- Modelled from the spec: conditionally consume an identifier token,
returning the `Identifier` node (the source's `eat_identifier`). -/
def eat_identifier : ParseM (Option Identifier) := fun s =>
  match s.tokens with
  | { token := Token.Ident name, span := sp } :: rest =>
      (Except.ok (some { name := name, span := sp }), { s with tokens := rest })
  | _ => (Except.ok none, s)

/-- Modelled from the spec: cursor primitive "consume-and-require an
identifier token" (the source's `expect_ident`). -/
def expect_ident : ParseM Identifier := fun s =>
  match s.tokens with
  | { token := Token.Ident name, span := sp } :: rest =>
      (Except.ok { name := name, span := sp }, { s with tokens := rest })
  | t :: _ => (Except.error (SyntaxError.expected_ident t.token t.span), s)
  | [] => (Except.error SyntaxError.unexpected_eof, s)

/-- Modelled from the spec: conditionally consume an integer-literal token,
returning its text and span (the source's `eat_int`). -/
def eat_int : ParseM (Option (String × Span)) := fun s =>
  match s.tokens with
  | { token := Token.Int value, span := sp } :: rest =>
      (Except.ok (some (value, sp)), { s with tokens := rest })
  | _ => (Except.ok none, s)

/-- Modelled from the spec: the specialized "attempt to consume a group-tuple
prefix" lookahead (the source's group-coordinate-pair helper, called after the
opening parenthesis was consumed): it recognises the `x, y)group` shape,
consumes it wholly on success, and "must not consume input on failure". -/
def eat_group_tuple : ParseM (Option (String × String × Span)) := fun s =>
  match s.tokens with
  | { token := Token.Int x, span := s1 } :: { token := Token.Comma, span := _ }
      :: { token := Token.Int y, span := _ } :: { token := Token.RightParen, span := _ }
      :: { token := Token.Group, span := s5 } :: rest =>
      (Except.ok (some (x, y, Span.add s1 s5)), { s with tokens := rest })
  | _ => (Except.ok none, s)

/-- The `INT_TYPES` constant: the literal type-suffix tokens. -/
def INT_TYPES : List Token :=
  [Token.I8, Token.I16, Token.I32, Token.I64, Token.I128,
   Token.U8, Token.U16, Token.U32, Token.U64, Token.U128,
   Token.Field, Token.Group]

/-- The `token_to_int_type` mapping (defined outside the expression module):
integer-width/signedness suffix tokens to `IntegerType`. -/
def token_to_int_type : Token → Option IntegerType
  | Token.I8 => some IntegerType.I8
  | Token.I16 => some IntegerType.I16
  | Token.I32 => some IntegerType.I32
  | Token.I64 => some IntegerType.I64
  | Token.I128 => some IntegerType.I128
  | Token.U8 => some IntegerType.U8
  | Token.U16 => some IntegerType.U16
  | Token.U32 => some IntegerType.U32
  | Token.U64 => some IntegerType.U64
  | Token.U128 => some IntegerType.U128
  | _ => none

/-- Modelled from the spec: the type-parsing collaborator, "parse one type
annotation, returning the type and its span"; we let it recognise one scalar
type token. -/
def parse_type : ParseM (Type' × Span) := fun s =>
  match s.tokens with
  | { token := tk, span := sp } :: rest =>
      match tk with
      | Token.Field => (Except.ok (Type'.Field, sp), { s with tokens := rest })
      | Token.Group => (Except.ok (Type'.Group, sp), { s with tokens := rest })
      | Token.Address => (Except.ok (Type'.Address, sp), { s with tokens := rest })
      | _ =>
          match token_to_int_type tk with
          | some it => (Except.ok (Type'.Integer it, sp), { s with tokens := rest })
          | none => (Except.error (SyntaxError.unexpected_str tk "type" sp), s)
  | [] => (Except.error SyntaxError.unexpected_eof, s)

/-- Modelled from the spec: the collaborator's array-dimension parsing used by
repeat literals (`[1; 4]` has "one dimension 4"); we let it consume one
integer literal, returning the singleton dimension list. -/
def parse_array_dimensions : ParseM (List String) := fun s =>
  match s.tokens with
  | { token := Token.Int value, span := _ } :: rest =>
      (Except.ok [value], { s with tokens := rest })
  | t :: _ => (Except.error (SyntaxError.unexpected_str t.token "int" t.span), s)
  | [] => (Except.error SyntaxError.unexpected_eof, s)

/-- The right fold of `parse_exp_expression`: `expr` is the accumulated (right)
operand, the list holds the earlier operands from nearest to farthest; each
step wraps `sub :: rest` as `Pow(sub, expr)` with the span union, exactly the
source's `while !exprs.is_empty()` loop over `exprs.remove(exprs.len() - 1)`. -/
def fold_exp : Expression → List Expression → Expression
  | expr, [] => expr
  | expr, sub :: rest =>
      fold_exp
        (Expression.Binary (Span.add (Expression.spanOf expr) (Expression.spanOf sub))
          BinaryOperation.Pow sub expr) rest

/-- The unary-application loop of `parse_unary_expression`, already given the
collected operator tokens in reversed (innermost-first) order.  A `Negate`
whose operand is directly an integer-typed or implicit literal rewrites the
literal text and extends its span over the operator token instead of building
a `Unary` node (the source's "hack for const signed integer overflow"). -/
def apply_unary_ops : List SpannedToken → Expression → Expression
  | [], inner => inner
  | op :: rest, inner =>
      let operation : UnaryOperation :=
        match op.token with
        | Token.Not => UnaryOperation.Not
        | Token.Minus => UnaryOperation.Negate
        | Token.BitNot => UnaryOperation.BitNot
        | _ => UnaryOperation.Not
          -- unreachable: the collect loop only consumes `!`, `-`, `~`
          -- (the source writes `unimplemented!()` here)
      let inner' : Expression :=
        match operation, inner with
        | UnaryOperation.Negate, Expression.Value (ValueExpression.Integer ty value sp) =>
            Expression.Value (ValueExpression.Integer ty ("-" ++ value) (Span.add op.span sp))
        | UnaryOperation.Negate, Expression.Value (ValueExpression.Implicit value sp) =>
            Expression.Value (ValueExpression.Implicit ("-" ++ value) (Span.add op.span sp))
        | _, _ =>
            Expression.Unary (Span.add op.span (Expression.spanOf inner)) operation inner
      apply_unary_ops rest inner'

/-- The prefix-operator collection loop of `parse_unary_expression`:
`while let Some(token) = eat_any(&[Not, Minus, BitNot]) { ops.push(token) }`. -/
def collect_unary_ops : Nat → ParseM (List SpannedToken)
  | 0 => pthrow SyntaxError.out_of_fuel
  | fuel + 1 =>
      pbind (eat_any [Token.Not, Token.Minus, Token.BitNot]) (fun o =>
        match o with
        | some t => pbind (collect_unary_ops fuel) (fun ts => ppure (t :: ts))
        | none => ppure [])

mutual

/-- `parse_expression`: the public, unrestricted entry point.  Saves the
struct-literal mode flag, clears it (allowing circuit init expressions),
delegates to `parse_expression_fuzzy`, and restores the prior flag on both
success and error. -/
def parse_expression : Nat → ParseM Expression
  | 0 => pthrow SyntaxError.out_of_fuel
  | fuel + 1 => fun s =>
      match parse_expression_fuzzy fuel { s with fuzzy_struct_state := false } with
      | (result, s1) => (result, { s1 with fuzzy_struct_state := s.fuzzy_struct_state })

/-- `parse_expression_fuzzy`: parse an or-expression; if `?` follows, parse
the true branch via `parse_expression`, require `:`, parse the false branch
via `parse_expression_fuzzy`, and build a `Ternary` spanning from the
condition to the false branch. -/
def parse_expression_fuzzy : Nat → ParseM Expression
  | 0 => pthrow SyntaxError.out_of_fuel
  | fuel + 1 =>
      pbind (parse_or_expression fuel) (fun expr =>
      pbind (eat Token.Question) (fun q =>
        match q with
        | some _ =>
            pbind (parse_expression fuel) (fun if_true =>
            pbind (expect Token.Colon) (fun _ =>
            pbind (parse_expression_fuzzy fuel) (fun if_false =>
            ppure (Expression.Ternary
              (Span.add (Expression.spanOf expr) (Expression.spanOf if_false))
              expr if_true if_false))))
        | none => ppure expr))

/-- `parse_or_expression`: logical-or level. -/
def parse_or_expression : Nat → ParseM Expression
  | 0 => pthrow SyntaxError.out_of_fuel
  | fuel + 1 => pbind (parse_and_expression fuel) (fun e => parse_or_loop fuel e)

/-- The `while self.eat(Token::Or)` fold of `parse_or_expression`. -/
def parse_or_loop : Nat → Expression → ParseM Expression
  | 0, _ => pthrow SyntaxError.out_of_fuel
  | fuel + 1, expr =>
      pbind (eat Token.Or) (fun o =>
        match o with
        | some _ =>
            pbind (parse_and_expression fuel) (fun right =>
            parse_or_loop fuel
              (Expression.Binary (Span.add (Expression.spanOf expr) (Expression.spanOf right))
                BinaryOperation.Or expr right))
        | none => ppure expr)

/-- `parse_and_expression`: logical-and level. -/
def parse_and_expression : Nat → ParseM Expression
  | 0 => pthrow SyntaxError.out_of_fuel
  | fuel + 1 => pbind (parse_bit_or_expression fuel) (fun e => parse_and_loop fuel e)

/-- The `while self.eat(Token::And)` fold of `parse_and_expression`. -/
def parse_and_loop : Nat → Expression → ParseM Expression
  | 0, _ => pthrow SyntaxError.out_of_fuel
  | fuel + 1, expr =>
      pbind (eat Token.And) (fun o =>
        match o with
        | some _ =>
            pbind (parse_bit_or_expression fuel) (fun right =>
            parse_and_loop fuel
              (Expression.Binary (Span.add (Expression.spanOf expr) (Expression.spanOf right))
                BinaryOperation.And expr right))
        | none => ppure expr)

/-- `parse_bit_or_expression`: bitwise-or level. -/
def parse_bit_or_expression : Nat → ParseM Expression
  | 0 => pthrow SyntaxError.out_of_fuel
  | fuel + 1 => pbind (parse_bit_xor_expression fuel) (fun e => parse_bit_or_loop fuel e)

/-- The `while self.eat(Token::BitOr)` fold of `parse_bit_or_expression`. -/
def parse_bit_or_loop : Nat → Expression → ParseM Expression
  | 0, _ => pthrow SyntaxError.out_of_fuel
  | fuel + 1, expr =>
      pbind (eat Token.BitOr) (fun o =>
        match o with
        | some _ =>
            pbind (parse_bit_xor_expression fuel) (fun right =>
            parse_bit_or_loop fuel
              (Expression.Binary (Span.add (Expression.spanOf expr) (Expression.spanOf right))
                BinaryOperation.BitOr expr right))
        | none => ppure expr)

/-- `parse_bit_xor_expression`: bitwise-xor level. -/
def parse_bit_xor_expression : Nat → ParseM Expression
  | 0 => pthrow SyntaxError.out_of_fuel
  | fuel + 1 => pbind (parse_bit_and_expression fuel) (fun e => parse_bit_xor_loop fuel e)

/-- The `while self.eat(Token::BitXor)` fold of `parse_bit_xor_expression`. -/
def parse_bit_xor_loop : Nat → Expression → ParseM Expression
  | 0, _ => pthrow SyntaxError.out_of_fuel
  | fuel + 1, expr =>
      pbind (eat Token.BitXor) (fun o =>
        match o with
        | some _ =>
            pbind (parse_bit_and_expression fuel) (fun right =>
            parse_bit_xor_loop fuel
              (Expression.Binary (Span.add (Expression.spanOf expr) (Expression.spanOf right))
                BinaryOperation.BitXor expr right))
        | none => ppure expr)

/-- `parse_bit_and_expression`: bitwise-and level. -/
def parse_bit_and_expression : Nat → ParseM Expression
  | 0 => pthrow SyntaxError.out_of_fuel
  | fuel + 1 => pbind (parse_eq_expression fuel) (fun e => parse_bit_and_loop fuel e)

/-- The `while self.eat(Token::BitAnd)` fold of `parse_bit_and_expression`. -/
def parse_bit_and_loop : Nat → Expression → ParseM Expression
  | 0, _ => pthrow SyntaxError.out_of_fuel
  | fuel + 1, expr =>
      pbind (eat Token.BitAnd) (fun o =>
        match o with
        | some _ =>
            pbind (parse_eq_expression fuel) (fun right =>
            parse_bit_and_loop fuel
              (Expression.Binary (Span.add (Expression.spanOf expr) (Expression.spanOf right))
                BinaryOperation.BitAnd expr right))
        | none => ppure expr)

/-- `parse_eq_expression`: equality level (`==`, `!=`). -/
def parse_eq_expression : Nat → ParseM Expression
  | 0 => pthrow SyntaxError.out_of_fuel
  | fuel + 1 => pbind (parse_rel_expression fuel) (fun e => parse_eq_loop fuel e)

/-- The `while let Some(op) = eat_any(&[Eq, NotEq])` fold of
`parse_eq_expression`, mapping `==`→Eq and `!=`→Ne. -/
def parse_eq_loop : Nat → Expression → ParseM Expression
  | 0, _ => pthrow SyntaxError.out_of_fuel
  | fuel + 1, expr =>
      pbind (eat_any [Token.Eq, Token.NotEq]) (fun o =>
        match o with
        | some st =>
            pbind (parse_rel_expression fuel) (fun right =>
            parse_eq_loop fuel
              (Expression.Binary (Span.add (Expression.spanOf expr) (Expression.spanOf right))
                (match st.token with
                 | Token.Eq => BinaryOperation.Eq
                 | Token.NotEq => BinaryOperation.Ne
                 | _ => BinaryOperation.Eq)
                  -- unreachable arm: `eat_any` only returns listed tokens
                  -- (the source writes `unimplemented!()`)
                expr right))
        | none => ppure expr)

/-- `parse_rel_expression`: relational level (`<`, `<=`, `>`, `>=`). -/
def parse_rel_expression : Nat → ParseM Expression
  | 0 => pthrow SyntaxError.out_of_fuel
  | fuel + 1 => pbind (parse_shift_expression fuel) (fun e => parse_rel_loop fuel e)

/-- The fold of `parse_rel_expression`, mapping `<`→Lt, `<=`→Le, `>`→Gt,
`>=`→Ge. -/
def parse_rel_loop : Nat → Expression → ParseM Expression
  | 0, _ => pthrow SyntaxError.out_of_fuel
  | fuel + 1, expr =>
      pbind (eat_any [Token.Lt, Token.LtEq, Token.Gt, Token.GtEq]) (fun o =>
        match o with
        | some st =>
            pbind (parse_shift_expression fuel) (fun right =>
            parse_rel_loop fuel
              (Expression.Binary (Span.add (Expression.spanOf expr) (Expression.spanOf right))
                (match st.token with
                 | Token.Lt => BinaryOperation.Lt
                 | Token.LtEq => BinaryOperation.Le
                 | Token.Gt => BinaryOperation.Gt
                 | Token.GtEq => BinaryOperation.Ge
                 | _ => BinaryOperation.Lt)
                  -- unreachable arm (source: `unimplemented!()`)
                expr right))
        | none => ppure expr)

/-- `parse_shift_expression`: shift level (`<<`, `>>`, arithmetic `>>`). -/
def parse_shift_expression : Nat → ParseM Expression
  | 0 => pthrow SyntaxError.out_of_fuel
  | fuel + 1 => pbind (parse_add_sub_expression fuel) (fun e => parse_shift_loop fuel e)

/-- The fold of `parse_shift_expression`, mapping `<<`→Shl, `>>`→Shr, and the
arithmetic shift token→ShrSigned. -/
def parse_shift_loop : Nat → Expression → ParseM Expression
  | 0, _ => pthrow SyntaxError.out_of_fuel
  | fuel + 1, expr =>
      pbind (eat_any [Token.Shl, Token.Shr, Token.ShrSigned]) (fun o =>
        match o with
        | some st =>
            pbind (parse_add_sub_expression fuel) (fun right =>
            parse_shift_loop fuel
              (Expression.Binary (Span.add (Expression.spanOf expr) (Expression.spanOf right))
                (match st.token with
                 | Token.Shl => BinaryOperation.Shl
                 | Token.Shr => BinaryOperation.Shr
                 | Token.ShrSigned => BinaryOperation.ShrSigned
                 | _ => BinaryOperation.Shl)
                  -- unreachable arm (source: `unimplemented!()`)
                expr right))
        | none => ppure expr)

/-- `parse_add_sub_expression`: additive level (`+`, `-`). -/
def parse_add_sub_expression : Nat → ParseM Expression
  | 0 => pthrow SyntaxError.out_of_fuel
  | fuel + 1 => pbind (parse_mul_div_mod_expression fuel) (fun e => parse_add_sub_loop fuel e)

/-- The fold of `parse_add_sub_expression`, mapping `+`→Add and `-`→Sub. -/
def parse_add_sub_loop : Nat → Expression → ParseM Expression
  | 0, _ => pthrow SyntaxError.out_of_fuel
  | fuel + 1, expr =>
      pbind (eat_any [Token.Add, Token.Minus]) (fun o =>
        match o with
        | some st =>
            pbind (parse_mul_div_mod_expression fuel) (fun right =>
            parse_add_sub_loop fuel
              (Expression.Binary (Span.add (Expression.spanOf expr) (Expression.spanOf right))
                (match st.token with
                 | Token.Add => BinaryOperation.Add
                 | Token.Minus => BinaryOperation.Sub
                 | _ => BinaryOperation.Add)
                  -- unreachable arm (source: `unimplemented!()`)
                expr right))
        | none => ppure expr)

/-- `parse_mul_div_mod_expression`: multiplicative level (`*`, `/`, `%`). -/
def parse_mul_div_mod_expression : Nat → ParseM Expression
  | 0 => pthrow SyntaxError.out_of_fuel
  | fuel + 1 => pbind (parse_exp_expression fuel) (fun e => parse_mul_div_mod_loop fuel e)

/-- The fold of `parse_mul_div_mod_expression`, mapping `*`→Mul, `/`→Div,
`%`→Mod. -/
def parse_mul_div_mod_loop : Nat → Expression → ParseM Expression
  | 0, _ => pthrow SyntaxError.out_of_fuel
  | fuel + 1, expr =>
      pbind (eat_any [Token.Mul, Token.Div, Token.Mod]) (fun o =>
        match o with
        | some st =>
            pbind (parse_exp_expression fuel) (fun right =>
            parse_mul_div_mod_loop fuel
              (Expression.Binary (Span.add (Expression.spanOf expr) (Expression.spanOf right))
                (match st.token with
                 | Token.Mul => BinaryOperation.Mul
                 | Token.Div => BinaryOperation.Div
                 | Token.Mod => BinaryOperation.Mod
                 | _ => BinaryOperation.Mul)
                  -- unreachable arm (source: `unimplemented!()`)
                expr right))
        | none => ppure expr)

/-- `parse_exp_expression`: collects one or more cast-level operands separated
by the exponent token, then folds them from the right into `Pow` nodes. -/
def parse_exp_expression : Nat → ParseM Expression
  | 0 => pthrow SyntaxError.out_of_fuel
  | fuel + 1 =>
      pbind (parse_cast_expression fuel) (fun first =>
      pbind (parse_exp_loop fuel) (fun rest =>
        match (first :: rest).reverse with
        | [] => ppure first  -- unreachable: the reverse of a nonempty list is nonempty
        | last :: prev => ppure (fold_exp last prev)))

/-- The operand-collection loop of `parse_exp_expression`
(`while self.eat(Token::Exp) { exprs.push(parse_cast_expression) }`). -/
def parse_exp_loop : Nat → ParseM (List Expression)
  | 0 => pthrow SyntaxError.out_of_fuel
  | fuel + 1 =>
      pbind (eat Token.Exp) (fun o =>
        match o with
        | some _ =>
            pbind (parse_cast_expression fuel) (fun e =>
            pbind (parse_exp_loop fuel) (fun es => ppure (e :: es)))
        | none => ppure [])

/-- `parse_cast_expression`: a unary expression followed by zero or more
`as Type` casts, chaining left-to-right. -/
def parse_cast_expression : Nat → ParseM Expression
  | 0 => pthrow SyntaxError.out_of_fuel
  | fuel + 1 => pbind (parse_unary_expression fuel) (fun e => parse_cast_loop fuel e)

/-- The `while self.eat(Token::As)` fold of `parse_cast_expression`. -/
def parse_cast_loop : Nat → Expression → ParseM Expression
  | 0, _ => pthrow SyntaxError.out_of_fuel
  | fuel + 1, expr =>
      pbind (eat Token.As) (fun o =>
        match o with
        | some _ =>
            pbind parse_type (fun tt =>
            parse_cast_loop fuel
              (Expression.Cast (Span.add (Expression.spanOf expr) tt.2) expr tt.1))
        | none => ppure expr)

/-- `parse_unary_expression`: greedily consume a prefix run of `!`/`-`/`~`,
parse one access-expression, then apply the collected operators innermost
first, folding `Negate` into integer-typed and implicit literals. -/
def parse_unary_expression : Nat → ParseM Expression
  | 0 => pthrow SyntaxError.out_of_fuel
  | fuel + 1 =>
      pbind (collect_unary_ops fuel) (fun ops =>
      pbind (parse_access_expression fuel) (fun inner =>
      ppure (apply_unary_ops ops.reverse inner)))

/-- `parse_access_expression`: a primary expression followed by a postfix
chain of indexing/slicing, member access, calls and static access. -/
def parse_access_expression : Nat → ParseM Expression
  | 0 => pthrow SyntaxError.out_of_fuel
  | fuel + 1 => pbind (parse_primary_expression fuel) (fun e => parse_access_loop fuel e)

/-- The postfix chain loop of `parse_access_expression`: each iteration
consumes `[`, `.`, `(` or `::` and replaces the accumulated expression. -/
def parse_access_loop : Nat → Expression → ParseM Expression
  | 0, _ => pthrow SyntaxError.out_of_fuel
  | fuel + 1, expr =>
      pbind (eat_any [Token.LeftSquare, Token.Dot, Token.LeftParen, Token.DoubleColon]) (fun o =>
        match o with
        | none => ppure expr
        | some tk =>
            match tk.token with
            | Token.LeftSquare =>
                pbind (eat Token.DotDot) (fun dd =>
                  match dd with
                  | some _ =>
                      pbind (parse_range_right fuel) (fun right =>
                      pbind (expect Token.RightSquare) (fun end_span =>
                      parse_access_loop fuel
                        (Expression.ArrayRangeAccess
                          (Span.add (Expression.spanOf expr) end_span) expr none right)))
                  | none =>
                      pbind (parse_expression fuel) (fun left =>
                      pbind (eat Token.DotDot) (fun dd2 =>
                        match dd2 with
                        | some _ =>
                            pbind (parse_range_right fuel) (fun right =>
                            pbind (expect Token.RightSquare) (fun end_span =>
                            parse_access_loop fuel
                              (Expression.ArrayRangeAccess
                                (Span.add (Expression.spanOf expr) end_span) expr (some left) right)))
                        | none =>
                            pbind (expect Token.RightSquare) (fun end_span =>
                            parse_access_loop fuel
                              (Expression.ArrayAccess
                                (Span.add (Expression.spanOf expr) end_span) expr left)))))
            | Token.Dot =>
                pbind eat_identifier (fun id? =>
                  match id? with
                  | some ident =>
                      parse_access_loop fuel
                        (Expression.CircuitMemberAccess
                          (Span.add (Expression.spanOf expr) ident.span) expr ident)
                  | none =>
                      pbind eat_int (fun int? =>
                        match int? with
                        | some ns =>
                            parse_access_loop fuel
                              (Expression.TupleAccess
                                (Span.add (Expression.spanOf expr) ns.2) expr ns.1)
                        | none =>
                            pbind peek (fun next =>
                            pthrow (SyntaxError.unexpected_str next.token "int or ident" next.span))))
            | Token.LeftParen =>
                pbind (parse_paren_list fuel []) (fun ae =>
                parse_access_loop fuel
                  (Expression.Call (Span.add (Expression.spanOf expr) ae.2) expr ae.1))
            | Token.DoubleColon =>
                pbind expect_ident (fun ident =>
                parse_access_loop fuel
                  (Expression.CircuitStaticFunctionAccess
                    (Span.add (Expression.spanOf expr) ident.span) expr ident))
            | _ => pthrow SyntaxError.unimplemented)
              -- unreachable arm (source: `unimplemented!()`)

/-- The optional right bound of a range access: parse an expression unless
`]` immediately follows (`if self.peek()?.token != RightSquare`). -/
def parse_range_right : Nat → ParseM (Option Expression)
  | 0 => pthrow SyntaxError.out_of_fuel
  | fuel + 1 =>
      pbind peek (fun t =>
        if t.token = Token.RightSquare then ppure none
        else pbind (parse_expression fuel) (fun e => ppure (some e)))

/-- The comma-separated, trailing-comma-tolerant expression list terminated by
`)`, as used identically by call arguments and parenthesized expressions;
returns the elements and the closing parenthesis' span. -/
def parse_paren_list : Nat → List Expression → ParseM (List Expression × Span)
  | 0, _ => pthrow SyntaxError.out_of_fuel
  | fuel + 1, acc =>
      pbind (eat Token.RightParen) (fun rp =>
        match rp with
        | some e => ppure (acc, e.span)
        | none =>
            pbind (parse_expression fuel) (fun a =>
            pbind (eat Token.Comma) (fun c =>
              match c with
              | some _ => parse_paren_list fuel (acc ++ [a])
              | none =>
                  pbind (expect Token.RightParen) (fun es => ppure (acc ++ [a], es)))))

/-- `parse_spread_or_expression`: a `...`-prefixed spread of an expression, or
a plain expression. -/
def parse_spread_or_expression : Nat → ParseM SpreadOrExpression
  | 0 => pthrow SyntaxError.out_of_fuel
  | fuel + 1 =>
      pbind (eat Token.DotDotDot) (fun d =>
        match d with
        | some _ => pbind (parse_expression fuel) (fun e => ppure (SpreadOrExpression.Spread e))
        | none => pbind (parse_expression fuel) (fun e => ppure (SpreadOrExpression.Expression e)))

/-- `parse_circuit_init`: given the already-consumed identifier, consume `{`,
the member list, and `}`, building a `CircuitInit` spanning from the
identifier to the closing brace. -/
def parse_circuit_init : Nat → Identifier → ParseM Expression
  | 0, _ => pthrow SyntaxError.out_of_fuel
  | fuel + 1, identifier =>
      pbind (expect Token.LeftCurly) (fun _ =>
      pbind (parse_circuit_members fuel []) (fun me =>
      ppure (Expression.CircuitInit (Span.add identifier.span me.2) identifier me.1)))

/-- The member loop of `parse_circuit_init`: each entry is `name: expr` or a
bare `name`, separated by commas, terminated by `}`; returns the members and
the closing brace's span. -/
def parse_circuit_members : Nat → List CircuitImpliedVariableDefinition
    → ParseM (List CircuitImpliedVariableDefinition × Span)
  | 0, _ => pthrow SyntaxError.out_of_fuel
  | fuel + 1, acc =>
      pbind (eat Token.RightCurly) (fun rc =>
        match rc with
        | some e => ppure (acc, e.span)
        | none =>
            pbind expect_ident (fun name =>
            pbind (eat Token.Colon) (fun col =>
              match col with
              | some _ =>
                  pbind (parse_expression fuel) (fun e =>
                  pbind (eat Token.Comma) (fun c =>
                    match c with
                    | some _ =>
                        parse_circuit_members fuel
                          (acc ++ [CircuitImpliedVariableDefinition.mk name (some e)])
                    | none =>
                        pbind (expect Token.RightCurly) (fun es =>
                        ppure (acc ++ [CircuitImpliedVariableDefinition.mk name (some e)], es))))
              | none =>
                  pbind (eat Token.Comma) (fun c =>
                    match c with
                    | some _ =>
                        parse_circuit_members fuel
                          (acc ++ [CircuitImpliedVariableDefinition.mk name none])
                    | none =>
                        pbind (expect Token.RightCurly) (fun es =>
                        ppure (acc ++ [CircuitImpliedVariableDefinition.mk name none], es))))))

/-- The element loop of an inline array literal, entered with the elements
parsed so far: terminated by `]`, requiring a comma after a single leading
element, parsing further spread-or-expressions separated by commas; returns
the elements and the closing bracket's span. -/
def parse_array_inline_rest : Nat → List SpreadOrExpression
    → ParseM (List SpreadOrExpression × Span)
  | 0, _ => pthrow SyntaxError.out_of_fuel
  | fuel + 1, elements =>
      pbind (eat Token.RightSquare) (fun rs =>
        match rs with
        | some t => ppure (elements, t.span)
        | none =>
            pbind (if elements.length = 1
                   then pbind (expect Token.Comma) (fun _ => ppure ())
                   else ppure ()) (fun _ =>
            pbind (parse_spread_or_expression fuel) (fun e =>
            pbind (eat Token.Comma) (fun c =>
              match c with
              | some _ => parse_array_inline_rest fuel (elements ++ [e])
              | none =>
                  pbind (expect Token.RightSquare) (fun es =>
                  ppure (elements ++ [e], es))))))

/-- `parse_primary_expression`: dispatch on the next token — scalar literals,
address literals, parenthesized/tuple expressions, array literals, and
identifier/circuit-init expressions; any other token is an "expected
expression" error. -/
def parse_primary_expression : Nat → ParseM Expression
  | 0 => pthrow SyntaxError.out_of_fuel
  | fuel + 1 =>
      pbind expect_any (fun st =>
        match st.token, st.span with
        | Token.Int value, span =>
            pbind (eat_any INT_TYPES) (fun ty? =>
              match ty? with
              | some { token := Token.Field, span := type_span } =>
                  ppure (Expression.Value (ValueExpression.Field value (Span.add span type_span)))
              | some { token := Token.Group, span := type_span } =>
                  ppure (Expression.Value (ValueExpression.Group
                    (GroupValue.Single value (Span.add span type_span))))
              | some { token := tok, span := type_span } =>
                  (match token_to_int_type tok with
                   | some ity =>
                       ppure (Expression.Value
                         (ValueExpression.Integer ity value (Span.add span type_span)))
                   | none => pthrow SyntaxError.unimplemented)
                     -- unreachable: `eat_any INT_TYPES` only returns suffix tokens
                     -- (the source's `.expect("unknown int type token")` panic)
              | none => ppure (Expression.Value (ValueExpression.Implicit value span)))
        | Token.True, span => ppure (Expression.Value (ValueExpression.Boolean "true" span))
        | Token.False, span => ppure (Expression.Value (ValueExpression.Boolean "false" span))
        | Token.AddressLit value, span =>
            ppure (Expression.Value (ValueExpression.Address value span))
        | Token.Address, span =>
            pbind (expect Token.LeftParen) (fun _ =>
            pbind expect_any (fun vt =>
              match vt.token, vt.span with
              | Token.AddressLit value, _ =>
                  pbind (expect Token.RightParen) (fun end_span =>
                  ppure (Expression.Value (ValueExpression.Address value (Span.add span end_span))))
              | other, osp => pthrow (SyntaxError.unexpected_str other "address" osp)))
        | Token.LeftParen, span =>
            pbind eat_group_tuple (fun g =>
              match g with
              | some xys =>
                  ppure (Expression.Value (ValueExpression.Group
                    (GroupValue.Tuple xys.2.2 xys.1 xys.2.1)))
              | none =>
                  pbind (parse_paren_list fuel []) (fun ae =>
                    match ae.1 with
                    | [a] => ppure a
                    | args => ppure (Expression.TupleInit (Span.add span ae.2) args)))
        | Token.LeftSquare, span =>
            pbind (eat Token.RightSquare) (fun rs =>
              match rs with
              | some e => ppure (Expression.ArrayInline [] (Span.add span e.span))
              | none =>
                  pbind (parse_spread_or_expression fuel) (fun first =>
                  pbind (eat Token.Semicolon) (fun semi =>
                    match semi with
                    | some _ =>
                        pbind parse_array_dimensions (fun dimensions =>
                        pbind (expect Token.RightSquare) (fun end_span =>
                          match first with
                          | SpreadOrExpression.Spread fexp =>
                              pthrow (SyntaxError.spread_in_array_init
                                (Span.add span (Expression.spanOf fexp)))
                          | SpreadOrExpression.Expression x =>
                              ppure (Expression.ArrayInit (Span.add span end_span) x dimensions)))
                    | none =>
                        pbind (parse_array_inline_rest fuel [first]) (fun ee =>
                        ppure (Expression.ArrayInline ee.1 (Span.add span ee.2))))))
        | Token.Ident name, span =>
            pbind get_fuzzy (fun fuzzy =>
              if fuzzy then ppure (Expression.Identifier { name := name, span := span })
              else
                pbind peek (fun next =>
                  if next.token = Token.LeftCurly
                  then parse_circuit_init fuel { name := name, span := span }
                  else ppure (Expression.Identifier { name := name, span := span })))
        | Token.BigSelf, span =>
            pbind get_fuzzy (fun fuzzy =>
              if fuzzy then ppure (Expression.Identifier { name := "Self", span := span })
              else
                pbind peek (fun next =>
                  if next.token = Token.LeftCurly
                  then parse_circuit_init fuel { name := "Self", span := span }
                  else ppure (Expression.Identifier { name := "Self", span := span })))
        | Token.Input, span => ppure (Expression.Identifier { name := "input", span := span })
        | Token.LittleSelf, span => ppure (Expression.Identifier { name := "self", span := span })
        | other, span => pthrow (SyntaxError.unexpected_str other "expression" span))

end

/-- The per-level token-to-operator tables of the left-associative binary
levels, collected from the source's level functions and their `match op`
arms (`||`→Or, `&&`→And, `|`→BitOr, `^`→BitXor, `&`→BitAnd, `==`→Eq,
`!=`→Ne, `<`→Lt, `<=`→Le, `>`→Gt, `>=`→Ge, `<<`→Shl, `>>`→Shr,
arithmetic-`>>`→ShrSigned, `+`→Add, `-`→Sub, `*`→Mul, `/`→Div, `%`→Mod). -/
def token_binop : Token → Option BinaryOperation
  | Token.Or => some BinaryOperation.Or
  | Token.And => some BinaryOperation.And
  | Token.BitOr => some BinaryOperation.BitOr
  | Token.BitXor => some BinaryOperation.BitXor
  | Token.BitAnd => some BinaryOperation.BitAnd
  | Token.Eq => some BinaryOperation.Eq
  | Token.NotEq => some BinaryOperation.Ne
  | Token.Lt => some BinaryOperation.Lt
  | Token.LtEq => some BinaryOperation.Le
  | Token.Gt => some BinaryOperation.Gt
  | Token.GtEq => some BinaryOperation.Ge
  | Token.Shl => some BinaryOperation.Shl
  | Token.Shr => some BinaryOperation.Shr
  | Token.ShrSigned => some BinaryOperation.ShrSigned
  | Token.Add => some BinaryOperation.Add
  | Token.Minus => some BinaryOperation.Sub
  | Token.Mul => some BinaryOperation.Mul
  | Token.Div => some BinaryOperation.Div
  | Token.Mod => some BinaryOperation.Mod
  | _ => none

/-- State discipline of a parsing computation: it never changes the
struct-literal mode flag, and it only consumes tokens from the front of the
stream (the remaining stream is a suffix of the input stream), on success and
on error alike. -/
def StateOk {α : Type} (m : ParseM α) : Prop :=
  ∀ s : PState,
    ((m s).2).fuzzy_struct_state = s.fuzzy_struct_state ∧
    ((m s).2).tokens.IsSuffix s.tokens

/-- Well-formedness of a token stream's positions: spans are pairwise ordered
and each token's start does not exceed its stop. -/
def SpansOrdered (l : List SpannedToken) : Prop :=
  List.Pairwise (fun a b => a.span.stop ≤ b.span.start) l ∧
  ∀ t ∈ l, t.span.start ≤ t.span.stop

/-- A token stream containing no `(` token — the hypothesis under which the
parenthesization-transparency exception to the span round-trip cannot occur. -/
def NoParen (l : List SpannedToken) : Prop :=
  ∀ t ∈ l, t.token ≠ Token.LeftParen

/-- An expression's span runs from the first to the last token of a consumed
token list. -/
def Covers (e : Expression) (c : List SpannedToken) : Prop :=
  ∃ ta tb, c.head? = some ta ∧ c.getLast? = some tb ∧
    Expression.spanOf e = { start := ta.span.start, stop := tb.span.stop }

/-- Span round-trip property of an expression-returning parser: a successful
parse on a parenthesis-free, span-ordered stream consumes a nonempty prefix
and the returned node's span covers it first-to-last. -/
def RoundTrips (m : ParseM Expression) : Prop :=
  ∀ s e s1, m s = (Except.ok e, s1) → NoParen s.tokens → SpansOrdered s.tokens →
    ∃ c, c ≠ [] ∧ s.tokens = c ++ s1.tokens ∧ Covers e c

/-- Span round-trip property of a left-associative operator loop carrying the
accumulated expression: if the accumulated span is well-formed and precedes
the remaining stream, the loop either consumes nothing and returns the
accumulator, or consumes a nonempty prefix and returns a node spanning from
the accumulator's start to the last consumed token's end. -/
def LoopRoundTrips (loop : Expression → ParseM Expression) : Prop :=
  ∀ expr s e s1, loop expr s = (Except.ok e, s1) →
    NoParen s.tokens → SpansOrdered s.tokens →
    (Expression.spanOf expr).start ≤ (Expression.spanOf expr).stop →
    (∀ t ∈ s.tokens, (Expression.spanOf expr).stop ≤ t.span.start) →
    (e = expr ∧ s1 = s) ∨
    ∃ c, c ≠ [] ∧ s.tokens = c ++ s1.tokens ∧
      ∃ tb, c.getLast? = some tb ∧
        Expression.spanOf e
          = { start := (Expression.spanOf expr).start, stop := tb.span.stop }

/-- Span properties of the exponent-operand collection loop: the collected
operands have well-formed, pairwise ordered spans dominating any lower bound
on the remaining stream, and the last operand ends at the last consumed
token. -/
def ExpLoopRoundTrips (m : ParseM (List Expression)) : Prop :=
  ∀ s es s1, m s = (Except.ok es, s1) → NoParen s.tokens → SpansOrdered s.tokens →
    (es = [] ∧ s1 = s) ∨
    ∃ c, c ≠ [] ∧ s.tokens = c ++ s1.tokens ∧ es ≠ [] ∧
      (∀ x ∈ es, (Expression.spanOf x).start ≤ (Expression.spanOf x).stop) ∧
      List.Pairwise (fun a b => (Expression.spanOf a).stop ≤ (Expression.spanOf b).start) es ∧
      (∀ B : Nat, (∀ t ∈ s.tokens, B ≤ t.span.start) →
        ∀ x ∈ es, B ≤ (Expression.spanOf x).start) ∧
      ∃ tb xl, c.getLast? = some tb ∧ es.getLast? = some xl ∧
        (Expression.spanOf xl).stop = tb.span.stop

/-! ## Theorems -/

/-- C3: Exponentiation is right-associative: `parse_exp_expression` parses the
cast-level operands separated by `**` and folds them from the right into Pow
nodes, so `1 ** 2 ** 3` parses with the outer node `Pow(1, Pow(2, 3))`. -/
theorem exponentiation_right_assoc :
    parse_exp_expression 60 { fuzzy_struct_state := false, tokens :=
      [⟨Token.Int "1", ⟨0,1⟩⟩, ⟨Token.Exp, ⟨2,4⟩⟩, ⟨Token.Int "2", ⟨5,6⟩⟩,
       ⟨Token.Exp, ⟨7,9⟩⟩, ⟨Token.Int "3", ⟨10,11⟩⟩, ⟨Token.Semicolon, ⟨11,12⟩⟩] }
    = (Except.ok (Expression.Binary ⟨0,11⟩ BinaryOperation.Pow
        (Expression.Value (ValueExpression.Implicit "1" ⟨0,1⟩))
        (Expression.Binary ⟨5,11⟩ BinaryOperation.Pow
          (Expression.Value (ValueExpression.Implicit "2" ⟨5,6⟩))
          (Expression.Value (ValueExpression.Implicit "3" ⟨10,11⟩)))),
       { fuzzy_struct_state := false, tokens := [⟨Token.Semicolon, ⟨11,12⟩⟩] }) := rfl

/-- C4: Ternary expressions nest to the right: `parse_expression_fuzzy` parses
the condition, the true branch via `parse_expression`, requires `:`, parses
the false branch via `parse_expression_fuzzy`, and spans from the condition to
the false branch; `1 ? 2 : 3 ? 4 : 5` parses as `1 ? 2 : (3 ? 4 : 5)`,
whatever the incoming mode flag. -/
theorem ternary_nests_right : ∀ b : Bool,
    parse_expression_fuzzy 60 { fuzzy_struct_state := b, tokens :=
      [⟨Token.Int "1", ⟨0,1⟩⟩, ⟨Token.Question, ⟨2,3⟩⟩, ⟨Token.Int "2", ⟨4,5⟩⟩,
       ⟨Token.Colon, ⟨6,7⟩⟩, ⟨Token.Int "3", ⟨8,9⟩⟩, ⟨Token.Question, ⟨10,11⟩⟩,
       ⟨Token.Int "4", ⟨12,13⟩⟩, ⟨Token.Colon, ⟨14,15⟩⟩, ⟨Token.Int "5", ⟨16,17⟩⟩] }
    = (Except.ok (Expression.Ternary ⟨0,17⟩
        (Expression.Value (ValueExpression.Implicit "1" ⟨0,1⟩))
        (Expression.Value (ValueExpression.Implicit "2" ⟨4,5⟩))
        (Expression.Ternary ⟨8,17⟩
          (Expression.Value (ValueExpression.Implicit "3" ⟨8,9⟩))
          (Expression.Value (ValueExpression.Implicit "4" ⟨12,13⟩))
          (Expression.Value (ValueExpression.Implicit "5" ⟨16,17⟩)))),
       { fuzzy_struct_state := b, tokens := [] }) := fun _ => rfl

/-- C9: Index versus slice disambiguation in the postfix access chain:
`a[1..2]`, `a[..2]`, `a[1..]` and `a[..]` parse as `ArrayRangeAccess` nodes
with exactly the bounds present in the source, while `a[1]` parses as a plain
`ArrayAccess` with index `1` and no range node. -/
theorem index_slice_disambiguation :
    (parse_expression 60 { fuzzy_struct_state := false, tokens :=
      [⟨Token.Ident "a", ⟨0,1⟩⟩, ⟨Token.LeftSquare, ⟨1,2⟩⟩, ⟨Token.Int "1", ⟨2,3⟩⟩,
       ⟨Token.DotDot, ⟨3,5⟩⟩, ⟨Token.Int "2", ⟨5,6⟩⟩, ⟨Token.RightSquare, ⟨6,7⟩⟩] }
     = (Except.ok (Expression.ArrayRangeAccess ⟨0,7⟩
          (Expression.Identifier ⟨"a", ⟨0,1⟩⟩)
          (some (Expression.Value (ValueExpression.Implicit "1" ⟨2,3⟩)))
          (some (Expression.Value (ValueExpression.Implicit "2" ⟨5,6⟩)))),
        { fuzzy_struct_state := false, tokens := [] })) ∧
    (parse_expression 60 { fuzzy_struct_state := false, tokens :=
      [⟨Token.Ident "a", ⟨0,1⟩⟩, ⟨Token.LeftSquare, ⟨1,2⟩⟩, ⟨Token.DotDot, ⟨2,4⟩⟩,
       ⟨Token.Int "2", ⟨4,5⟩⟩, ⟨Token.RightSquare, ⟨5,6⟩⟩] }
     = (Except.ok (Expression.ArrayRangeAccess ⟨0,6⟩
          (Expression.Identifier ⟨"a", ⟨0,1⟩⟩) none
          (some (Expression.Value (ValueExpression.Implicit "2" ⟨4,5⟩)))),
        { fuzzy_struct_state := false, tokens := [] })) ∧
    (parse_expression 60 { fuzzy_struct_state := false, tokens :=
      [⟨Token.Ident "a", ⟨0,1⟩⟩, ⟨Token.LeftSquare, ⟨1,2⟩⟩, ⟨Token.Int "1", ⟨2,3⟩⟩,
       ⟨Token.DotDot, ⟨3,5⟩⟩, ⟨Token.RightSquare, ⟨5,6⟩⟩] }
     = (Except.ok (Expression.ArrayRangeAccess ⟨0,6⟩
          (Expression.Identifier ⟨"a", ⟨0,1⟩⟩)
          (some (Expression.Value (ValueExpression.Implicit "1" ⟨2,3⟩))) none),
        { fuzzy_struct_state := false, tokens := [] })) ∧
    (parse_expression 60 { fuzzy_struct_state := false, tokens :=
      [⟨Token.Ident "a", ⟨0,1⟩⟩, ⟨Token.LeftSquare, ⟨1,2⟩⟩, ⟨Token.DotDot, ⟨2,4⟩⟩,
       ⟨Token.RightSquare, ⟨4,5⟩⟩] }
     = (Except.ok (Expression.ArrayRangeAccess ⟨0,5⟩
          (Expression.Identifier ⟨"a", ⟨0,1⟩⟩) none none),
        { fuzzy_struct_state := false, tokens := [] })) ∧
    (parse_expression 60 { fuzzy_struct_state := false, tokens :=
      [⟨Token.Ident "a", ⟨0,1⟩⟩, ⟨Token.LeftSquare, ⟨1,2⟩⟩, ⟨Token.Int "1", ⟨2,3⟩⟩,
       ⟨Token.RightSquare, ⟨3,4⟩⟩] }
     = (Except.ok (Expression.ArrayAccess ⟨0,4⟩
          (Expression.Identifier ⟨"a", ⟨0,1⟩⟩)
          (Expression.Value (ValueExpression.Implicit "1" ⟨2,3⟩))),
        { fuzzy_struct_state := false, tokens := [] })) :=
  ⟨rfl, rfl, rfl, rfl, rfl⟩

/-- C10: The input `(` `)` parses as a `TupleInit` node with an empty element
list (the empty tuple), not a parse error. -/
theorem empty_tuple_init :
    parse_primary_expression 60 { fuzzy_struct_state := false, tokens :=
      [⟨Token.LeftParen, ⟨0,1⟩⟩, ⟨Token.RightParen, ⟨1,2⟩⟩] }
    = (Except.ok (Expression.TupleInit ⟨0,2⟩ []),
       { fuzzy_struct_state := false, tokens := [] }) := rfl

/-- C2: For every left-associative binary level, parsing `1 OP 2 OP 3` (where
OP is any operator token of a level, per the collected `token_binop` table)
produces a binary node whose left child is the binary node for `1 OP 2` and
whose right child is `3`, with the operator being the direct mapping of the
consumed token and each node's span the union of its operands' spans. -/
theorem binary_levels_left_assoc : ∀ (tok : Token) (op : BinaryOperation),
    token_binop tok = some op →
    ∀ (b : Bool),
    parse_expression 60 { fuzzy_struct_state := b, tokens :=
      [⟨Token.Int "1", ⟨0,1⟩⟩, ⟨tok, ⟨2,3⟩⟩, ⟨Token.Int "2", ⟨4,5⟩⟩,
       ⟨tok, ⟨6,7⟩⟩, ⟨Token.Int "3", ⟨8,9⟩⟩] }
    = (Except.ok (Expression.Binary ⟨0,9⟩ op
        (Expression.Binary ⟨0,5⟩ op
          (Expression.Value (ValueExpression.Implicit "1" ⟨0,1⟩))
          (Expression.Value (ValueExpression.Implicit "2" ⟨4,5⟩)))
        (Expression.Value (ValueExpression.Implicit "3" ⟨8,9⟩))),
       { fuzzy_struct_state := b, tokens := [] }) := by
  intro tok op h b
  cases tok <;>
    first
      | exact Option.noConfusion h
      | (injection h with h2; subst h2; rfl)

/-- Witness for C2 at the `||` token. -/
theorem binary_levels_left_assoc_witness :
    token_binop Token.Or = some BinaryOperation.Or ∧
    parse_expression 60 { fuzzy_struct_state := false, tokens :=
      [⟨Token.Int "1", ⟨0,1⟩⟩, ⟨Token.Or, ⟨2,3⟩⟩, ⟨Token.Int "2", ⟨4,5⟩⟩,
       ⟨Token.Or, ⟨6,7⟩⟩, ⟨Token.Int "3", ⟨8,9⟩⟩] }
    = (Except.ok (Expression.Binary ⟨0,9⟩ BinaryOperation.Or
        (Expression.Binary ⟨0,5⟩ BinaryOperation.Or
          (Expression.Value (ValueExpression.Implicit "1" ⟨0,1⟩))
          (Expression.Value (ValueExpression.Implicit "2" ⟨4,5⟩)))
        (Expression.Value (ValueExpression.Implicit "3" ⟨8,9⟩))),
       { fuzzy_struct_state := false, tokens := [] }) :=
  ⟨rfl, binary_levels_left_assoc Token.Or BinaryOperation.Or rfl false⟩

/-- C1: Negation folding in `parse_unary_expression`.  For `-` followed by an
integer literal with no suffix, the result is a single `Implicit` literal
whose text is the literal text prepended with `-` and whose span is extended
leftward over the `-` token; for an integer-type suffix (per
`token_to_int_type`) it is likewise a single typed `Integer` literal; for `-`
followed by an identifier it is a `Unary(Negate)` node wrapping an
`Identifier`. -/
theorem negation_folding :
    (∀ (v : String) (s1 s2 s3 : Span) (tail : List SpannedToken),
      parse_unary_expression 60 { fuzzy_struct_state := false, tokens :=
        ⟨Token.Minus, s1⟩ :: ⟨Token.Int v, s2⟩ :: ⟨Token.Semicolon, s3⟩ :: tail }
      = (Except.ok (Expression.Value (ValueExpression.Implicit ("-" ++ v) (Span.add s1 s2))),
         { fuzzy_struct_state := false, tokens := ⟨Token.Semicolon, s3⟩ :: tail })) ∧
    (∀ (tk : Token) (ty : IntegerType), token_to_int_type tk = some ty →
      ∀ (v : String) (s1 s2 s3 s4 : Span) (tail : List SpannedToken),
      parse_unary_expression 60 { fuzzy_struct_state := false, tokens :=
        ⟨Token.Minus, s1⟩ :: ⟨Token.Int v, s2⟩ :: ⟨tk, s3⟩ :: ⟨Token.Semicolon, s4⟩ :: tail }
      = (Except.ok (Expression.Value
           (ValueExpression.Integer ty ("-" ++ v) (Span.add s1 (Span.add s2 s3)))),
         { fuzzy_struct_state := false, tokens := ⟨Token.Semicolon, s4⟩ :: tail })) ∧
    (∀ (x : String) (s1 s2 s3 : Span) (tail : List SpannedToken),
      parse_unary_expression 60 { fuzzy_struct_state := false, tokens :=
        ⟨Token.Minus, s1⟩ :: ⟨Token.Ident x, s2⟩ :: ⟨Token.Semicolon, s3⟩ :: tail }
      = (Except.ok (Expression.Unary (Span.add s1 s2) UnaryOperation.Negate
           (Expression.Identifier ⟨x, s2⟩)),
         { fuzzy_struct_state := false, tokens := ⟨Token.Semicolon, s3⟩ :: tail })) := by
  refine ⟨fun v s1 s2 s3 tail => rfl, ?_, fun x s1 s2 s3 tail => rfl⟩
  intro tk ty h
  cases tk <;>
    first
      | exact Option.noConfusion h
      | (injection h with h2; subst h2; intro v s1 s2 s3 s4 tail; rfl)

/-- Witness for C1 at the `u8` suffix. -/
theorem negation_folding_witness :
    token_to_int_type Token.U8 = some IntegerType.U8 ∧
    parse_unary_expression 60 { fuzzy_struct_state := false, tokens :=
      [⟨Token.Minus, ⟨0,1⟩⟩, ⟨Token.Int "5", ⟨1,2⟩⟩, ⟨Token.U8, ⟨2,4⟩⟩, ⟨Token.Semicolon, ⟨4,5⟩⟩] }
    = (Except.ok (Expression.Value
         (ValueExpression.Integer IntegerType.U8 ("-" ++ "5")
           (Span.add ⟨0,1⟩ (Span.add ⟨1,2⟩ ⟨2,4⟩)))),
       { fuzzy_struct_state := false, tokens := [⟨Token.Semicolon, ⟨4,5⟩⟩] }) :=
  ⟨rfl, negation_folding.2.1 Token.U8 IntegerType.U8 rfl "5" ⟨0,1⟩ ⟨1,2⟩ ⟨2,4⟩ ⟨4,5⟩ []⟩

/-- C8: In an array-repeat literal a spread element before the `;` is a hard
parse error: `[ ... x ; d ]` fails with the invalid-spread-position error and
returns no AST node, while `[ x ; d ]` succeeds and produces an
`ArrayInit` (repeat) node with element `x` and the parsed dimensions. -/
theorem spread_before_semicolon_rejected :
    (∀ (b : Bool) (x d : String) (s1 s2 s3 s4 s5 s6 : Span) (tail : List SpannedToken),
      parse_primary_expression 80 { fuzzy_struct_state := b, tokens :=
        ⟨Token.LeftSquare, s1⟩ :: ⟨Token.DotDotDot, s2⟩ :: ⟨Token.Ident x, s3⟩ ::
        ⟨Token.Semicolon, s4⟩ :: ⟨Token.Int d, s5⟩ :: ⟨Token.RightSquare, s6⟩ :: tail }
      = (Except.error (SyntaxError.spread_in_array_init (Span.add s1 s3)),
         { fuzzy_struct_state := b, tokens := tail })) ∧
    (∀ (b : Bool) (x d : String) (s1 s2 s3 s4 s5 : Span) (tail : List SpannedToken),
      parse_primary_expression 80 { fuzzy_struct_state := b, tokens :=
        ⟨Token.LeftSquare, s1⟩ :: ⟨Token.Ident x, s2⟩ :: ⟨Token.Semicolon, s3⟩ ::
        ⟨Token.Int d, s4⟩ :: ⟨Token.RightSquare, s5⟩ :: tail }
      = (Except.ok (Expression.ArrayInit (Span.add s1 s5)
           (Expression.Identifier ⟨x, s2⟩) [d]),
         { fuzzy_struct_state := b, tokens := tail })) :=
  ⟨fun b x d s1 s2 s3 s4 s5 s6 tail => rfl, fun b x d s1 s2 s3 s4 s5 tail => rfl⟩

/-- C6 counterexample: with struct literals permitted (mode flag clear) and
the next token `{`, the caller's-input-bundle identifier `input` does NOT
parse as a circuit initializer — `parse_primary_expression` returns a plain
`Identifier` and leaves the `{` unconsumed, contradicting the claim that all
three special identifiers take the initializer branch. -/
theorem input_no_circuit_init_ce :
    parse_primary_expression 30 { fuzzy_struct_state := false, tokens :=
      [⟨Token.Input, ⟨0,5⟩⟩, ⟨Token.LeftCurly, ⟨6,7⟩⟩, ⟨Token.RightCurly, ⟨8,9⟩⟩] }
    = (Except.ok (Expression.Identifier ⟨"input", ⟨0,5⟩⟩),
       { fuzzy_struct_state := false, tokens :=
         [⟨Token.LeftCurly, ⟨6,7⟩⟩, ⟨Token.RightCurly, ⟨8,9⟩⟩] }) ∧
    (match (parse_primary_expression 30 { fuzzy_struct_state := false, tokens :=
        [⟨Token.Input, ⟨0,5⟩⟩, ⟨Token.LeftCurly, ⟨6,7⟩⟩, ⟨Token.RightCurly, ⟨8,9⟩⟩] }).1 with
     | Except.ok (Expression.CircuitInit _ _ _) => False
     | _ => True) :=
  ⟨rfl, trivial⟩

/-- C6 as amended: for identifier tokens and the enclosing-type identifier
`Self`, a set mode flag (struct literals allowed, `fuzzy_struct_state =
false`) with `{` next parses a `CircuitInit`, and otherwise (flag cleared, or
next token not `{`) a plain `Identifier` is returned with the `{` (or other
token) left unconsumed; the caller's-input-bundle (`input`) and
receiver-value (`self`) identifiers always yield a plain `Identifier`,
leaving even a following `{` unconsumed. -/
theorem struct_literal_lookahead_amended :
    (∀ (name : String) (s1 s2 s3 : Span) (rest : List SpannedToken),
      parse_primary_expression 20 { fuzzy_struct_state := false, tokens :=
        ⟨Token.Ident name, s1⟩ :: ⟨Token.LeftCurly, s2⟩ :: ⟨Token.RightCurly, s3⟩ :: rest }
      = (Except.ok (Expression.CircuitInit (Span.add s1 s3) ⟨name, s1⟩ []),
         { fuzzy_struct_state := false, tokens := rest })) ∧
    (∀ (name : String) (s1 s2 : Span) (rest : List SpannedToken),
      parse_primary_expression 20 { fuzzy_struct_state := true, tokens :=
        ⟨Token.Ident name, s1⟩ :: ⟨Token.LeftCurly, s2⟩ :: rest }
      = (Except.ok (Expression.Identifier ⟨name, s1⟩),
         { fuzzy_struct_state := true, tokens := ⟨Token.LeftCurly, s2⟩ :: rest })) ∧
    (∀ (name : String) (s1 : Span) (t : SpannedToken) (rest : List SpannedToken),
      t.token ≠ Token.LeftCurly →
      parse_primary_expression 20 { fuzzy_struct_state := false, tokens :=
        ⟨Token.Ident name, s1⟩ :: t :: rest }
      = (Except.ok (Expression.Identifier ⟨name, s1⟩),
         { fuzzy_struct_state := false, tokens := t :: rest })) ∧
    (∀ (s1 s2 s3 : Span) (rest : List SpannedToken),
      parse_primary_expression 20 { fuzzy_struct_state := false, tokens :=
        ⟨Token.BigSelf, s1⟩ :: ⟨Token.LeftCurly, s2⟩ :: ⟨Token.RightCurly, s3⟩ :: rest }
      = (Except.ok (Expression.CircuitInit (Span.add s1 s3) ⟨"Self", s1⟩ []),
         { fuzzy_struct_state := false, tokens := rest })) ∧
    (∀ (s1 s2 : Span) (rest : List SpannedToken),
      parse_primary_expression 20 { fuzzy_struct_state := true, tokens :=
        ⟨Token.BigSelf, s1⟩ :: ⟨Token.LeftCurly, s2⟩ :: rest }
      = (Except.ok (Expression.Identifier ⟨"Self", s1⟩),
         { fuzzy_struct_state := true, tokens := ⟨Token.LeftCurly, s2⟩ :: rest })) ∧
    (∀ (b : Bool) (s1 s2 : Span) (rest : List SpannedToken),
      parse_primary_expression 20 { fuzzy_struct_state := b, tokens :=
        ⟨Token.Input, s1⟩ :: ⟨Token.LeftCurly, s2⟩ :: rest }
      = (Except.ok (Expression.Identifier ⟨"input", s1⟩),
         { fuzzy_struct_state := b, tokens := ⟨Token.LeftCurly, s2⟩ :: rest })) ∧
    (∀ (b : Bool) (s1 s2 : Span) (rest : List SpannedToken),
      parse_primary_expression 20 { fuzzy_struct_state := b, tokens :=
        ⟨Token.LittleSelf, s1⟩ :: ⟨Token.LeftCurly, s2⟩ :: rest }
      = (Except.ok (Expression.Identifier ⟨"self", s1⟩),
         { fuzzy_struct_state := b, tokens := ⟨Token.LeftCurly, s2⟩ :: rest })) := by
  refine ⟨fun name s1 s2 s3 rest => rfl, fun name s1 s2 rest => rfl, ?_,
    fun s1 s2 s3 rest => rfl, fun s1 s2 rest => rfl,
    fun b s1 s2 rest => rfl, fun b s1 s2 rest => rfl⟩
  intro name s1 t rest h
  simp only [parse_primary_expression, pbind, expect_any, get_fuzzy, peek, ppure,
    Bool.false_eq_true]
  rw [if_neg not_false]
  simp only [pbind, peek, if_neg h, ppure]

/-- Witness for the amended C6 at a non-`{` following token. -/
theorem struct_literal_lookahead_amended_witness :
    (SpannedToken.mk Token.Semicolon ⟨1,2⟩).token ≠ Token.LeftCurly ∧
    parse_primary_expression 20 { fuzzy_struct_state := false, tokens :=
      [⟨Token.Ident "Foo", ⟨0,1⟩⟩, ⟨Token.Semicolon, ⟨1,2⟩⟩] }
    = (Except.ok (Expression.Identifier ⟨"Foo", ⟨0,1⟩⟩),
       { fuzzy_struct_state := false, tokens := [⟨Token.Semicolon, ⟨1,2⟩⟩] }) :=
  ⟨by decide, struct_literal_lookahead_amended.2.2.1 "Foo" ⟨0,1⟩ ⟨Token.Semicolon, ⟨1,2⟩⟩ []
    (by decide)⟩

/-- C7 counterexample: parsing `( x )` succeeds, consuming all three tokens,
but the returned node is the unwrapped inner identifier whose span `⟨1,2⟩`
does not reach from the first consumed token's start (0) to the last consumed
token's end (3) — the parenthesis delimiters are not covered. -/
theorem span_round_trip_paren_ce :
    parse_primary_expression 30 { fuzzy_struct_state := false, tokens :=
      [⟨Token.LeftParen, ⟨0,1⟩⟩, ⟨Token.Ident "x", ⟨1,2⟩⟩, ⟨Token.RightParen, ⟨2,3⟩⟩] }
    = (Except.ok (Expression.Identifier ⟨"x", ⟨1,2⟩⟩),
       { fuzzy_struct_state := false, tokens := [] }) ∧
    Expression.spanOf (Expression.Identifier ⟨"x", ⟨1,2⟩⟩) ≠ ⟨0,3⟩ :=
  ⟨rfl, by decide⟩

theorem stateok_ppure {α : Type} (a : α) : StateOk (ppure a) :=
  fun s => ⟨rfl, List.suffix_refl _⟩

theorem stateok_pthrow {α : Type} (e : SyntaxError) : StateOk (pthrow e : ParseM α) :=
  fun s => ⟨rfl, List.suffix_refl _⟩

theorem stateok_pbind {α β : Type} {m : ParseM α} {f : α → ParseM β}
    (hm : StateOk m) (hf : ∀ a, StateOk (f a)) : StateOk (pbind m f) := by
  intro s
  unfold pbind
  cases h : m s with
  | mk r s1 =>
    have hs1 := hm s
    rw [h] at hs1
    cases r with
    | ok a =>
      have hs2 := hf a s1
      exact ⟨hs2.1.trans hs1.1, hs2.2.trans hs1.2⟩
    | error e => exact hs1

theorem stateok_get_fuzzy : StateOk get_fuzzy :=
  fun s => ⟨rfl, List.suffix_refl _⟩

theorem stateok_peek : StateOk peek := by
  intro s
  rcases s with ⟨fz, tks⟩
  rcases tks with _ | ⟨t, rest⟩
  · exact ⟨rfl, List.suffix_refl _⟩
  · exact ⟨rfl, List.suffix_refl _⟩

theorem stateok_eat (tk : Token) : StateOk (eat tk) := by
  intro s
  rcases s with ⟨fz, tks⟩
  rcases tks with _ | ⟨t, rest⟩
  · exact ⟨rfl, List.suffix_refl _⟩
  · by_cases hc : t.token = tk
    · have h1 : eat tk ⟨fz, t :: rest⟩ = (Except.ok (some t), ⟨fz, rest⟩) := by
        simp [eat, hc]
      rw [h1]
      exact ⟨rfl, List.suffix_cons t rest⟩
    · have h1 : eat tk ⟨fz, t :: rest⟩ = (Except.ok none, ⟨fz, t :: rest⟩) := by
        simp [eat, hc]
      rw [h1]
      exact ⟨rfl, List.suffix_refl _⟩

theorem stateok_eat_any (tks : List Token) : StateOk (eat_any tks) := by
  intro s
  rcases s with ⟨fz, l⟩
  rcases l with _ | ⟨t, rest⟩
  · exact ⟨rfl, List.suffix_refl _⟩
  · by_cases hc : t.token ∈ tks
    · have h1 : eat_any tks ⟨fz, t :: rest⟩ = (Except.ok (some t), ⟨fz, rest⟩) := by
        simp [eat_any, hc]
      rw [h1]
      exact ⟨rfl, List.suffix_cons t rest⟩
    · have h1 : eat_any tks ⟨fz, t :: rest⟩ = (Except.ok none, ⟨fz, t :: rest⟩) := by
        simp [eat_any, hc]
      rw [h1]
      exact ⟨rfl, List.suffix_refl _⟩

theorem stateok_expect (tk : Token) : StateOk (expect tk) := by
  intro s
  rcases s with ⟨fz, tks⟩
  rcases tks with _ | ⟨t, rest⟩
  · exact ⟨rfl, List.suffix_refl _⟩
  · by_cases hc : t.token = tk
    · have h1 : expect tk ⟨fz, t :: rest⟩ = (Except.ok t.span, ⟨fz, rest⟩) := by
        simp [expect, hc]
      rw [h1]
      exact ⟨rfl, List.suffix_cons t rest⟩
    · have h1 : expect tk ⟨fz, t :: rest⟩
          = (Except.error (SyntaxError.expected tk t.token t.span), ⟨fz, t :: rest⟩) := by
        simp [expect, hc]
      rw [h1]
      exact ⟨rfl, List.suffix_refl _⟩

theorem stateok_expect_any : StateOk expect_any := by
  intro s
  rcases s with ⟨fz, tks⟩
  rcases tks with _ | ⟨t, rest⟩
  · exact ⟨rfl, List.suffix_refl _⟩
  · exact ⟨rfl, List.suffix_cons t rest⟩

theorem stateok_eat_identifier : StateOk eat_identifier := by
  intro s
  rcases s with ⟨fz, tks⟩
  rcases tks with _ | ⟨⟨tok, sp⟩, rest⟩
  · exact ⟨rfl, List.suffix_refl _⟩
  · cases tok <;>
      first
        | exact ⟨rfl, List.suffix_cons _ rest⟩
        | exact ⟨rfl, List.suffix_refl _⟩

theorem stateok_expect_ident : StateOk expect_ident := by
  intro s
  rcases s with ⟨fz, tks⟩
  rcases tks with _ | ⟨⟨tok, sp⟩, rest⟩
  · exact ⟨rfl, List.suffix_refl _⟩
  · cases tok <;>
      first
        | exact ⟨rfl, List.suffix_cons _ rest⟩
        | exact ⟨rfl, List.suffix_refl _⟩

theorem stateok_eat_int : StateOk eat_int := by
  intro s
  rcases s with ⟨fz, tks⟩
  rcases tks with _ | ⟨⟨tok, sp⟩, rest⟩
  · exact ⟨rfl, List.suffix_refl _⟩
  · cases tok <;>
      first
        | exact ⟨rfl, List.suffix_cons _ rest⟩
        | exact ⟨rfl, List.suffix_refl _⟩

theorem stateok_eat_group_tuple : StateOk eat_group_tuple := by
  intro s
  rcases s with ⟨fz, tks⟩
  rcases tks with _ | ⟨⟨tok1, sp1⟩, tks⟩
  · exact ⟨rfl, List.suffix_refl _⟩
  cases tok1 <;> try exact ⟨rfl, List.suffix_refl _⟩
  rcases tks with _ | ⟨⟨tok2, sp2⟩, tks⟩
  · exact ⟨rfl, List.suffix_refl _⟩
  cases tok2 <;> try exact ⟨rfl, List.suffix_refl _⟩
  rcases tks with _ | ⟨⟨tok3, sp3⟩, tks⟩
  · exact ⟨rfl, List.suffix_refl _⟩
  cases tok3 <;> try exact ⟨rfl, List.suffix_refl _⟩
  rcases tks with _ | ⟨⟨tok4, sp4⟩, tks⟩
  · exact ⟨rfl, List.suffix_refl _⟩
  cases tok4 <;> try exact ⟨rfl, List.suffix_refl _⟩
  rcases tks with _ | ⟨⟨tok5, sp5⟩, rest⟩
  · exact ⟨rfl, List.suffix_refl _⟩
  cases tok5 <;> try exact ⟨rfl, List.suffix_refl _⟩
  exact ⟨rfl, ⟨[_, _, _, _, _], rfl⟩⟩

theorem stateok_parse_type : StateOk parse_type := by
  intro s
  rcases s with ⟨fz, tks⟩
  rcases tks with _ | ⟨⟨tok, sp⟩, rest⟩
  · exact ⟨rfl, List.suffix_refl _⟩
  · cases tok <;>
      first
        | exact ⟨rfl, List.suffix_cons _ rest⟩
        | exact ⟨rfl, List.suffix_refl _⟩

theorem stateok_parse_array_dimensions : StateOk parse_array_dimensions := by
  intro s
  rcases s with ⟨fz, tks⟩
  rcases tks with _ | ⟨⟨tok, sp⟩, rest⟩
  · exact ⟨rfl, List.suffix_refl _⟩
  · cases tok <;>
      first
        | exact ⟨rfl, List.suffix_cons _ rest⟩
        | exact ⟨rfl, List.suffix_refl _⟩

theorem stateok_collect_unary_ops : ∀ fuel, StateOk (collect_unary_ops fuel) := by
  intro fuel
  induction fuel with
  | zero => exact stateok_pthrow _
  | succ n ih =>
    refine stateok_pbind (stateok_eat_any _) ?_
    intro o
    cases o with
    | some t => exact stateok_pbind ih (fun ts => stateok_ppure _)
    | none => exact stateok_ppure _

/-- Every parser function preserves the struct-literal mode flag and only
consumes tokens from the front of the stream, for every fuel, state and
outcome — the save/restore discipline of `parse_expression` composes
re-entrantly through the whole mutually recursive family. -/
theorem stateok_parsers : ∀ fuel : Nat,
    StateOk (parse_expression fuel) ∧
    StateOk (parse_expression_fuzzy fuel) ∧
    StateOk (parse_or_expression fuel) ∧
    (∀ e, StateOk (parse_or_loop fuel e)) ∧
    StateOk (parse_and_expression fuel) ∧
    (∀ e, StateOk (parse_and_loop fuel e)) ∧
    StateOk (parse_bit_or_expression fuel) ∧
    (∀ e, StateOk (parse_bit_or_loop fuel e)) ∧
    StateOk (parse_bit_xor_expression fuel) ∧
    (∀ e, StateOk (parse_bit_xor_loop fuel e)) ∧
    StateOk (parse_bit_and_expression fuel) ∧
    (∀ e, StateOk (parse_bit_and_loop fuel e)) ∧
    StateOk (parse_eq_expression fuel) ∧
    (∀ e, StateOk (parse_eq_loop fuel e)) ∧
    StateOk (parse_rel_expression fuel) ∧
    (∀ e, StateOk (parse_rel_loop fuel e)) ∧
    StateOk (parse_shift_expression fuel) ∧
    (∀ e, StateOk (parse_shift_loop fuel e)) ∧
    StateOk (parse_add_sub_expression fuel) ∧
    (∀ e, StateOk (parse_add_sub_loop fuel e)) ∧
    StateOk (parse_mul_div_mod_expression fuel) ∧
    (∀ e, StateOk (parse_mul_div_mod_loop fuel e)) ∧
    StateOk (parse_exp_expression fuel) ∧
    StateOk (parse_exp_loop fuel) ∧
    StateOk (parse_cast_expression fuel) ∧
    (∀ e, StateOk (parse_cast_loop fuel e)) ∧
    StateOk (parse_unary_expression fuel) ∧
    StateOk (parse_access_expression fuel) ∧
    (∀ e, StateOk (parse_access_loop fuel e)) ∧
    StateOk (parse_range_right fuel) ∧
    (∀ acc, StateOk (parse_paren_list fuel acc)) ∧
    StateOk (parse_spread_or_expression fuel) ∧
    (∀ ident, StateOk (parse_circuit_init fuel ident)) ∧
    (∀ acc, StateOk (parse_circuit_members fuel acc)) ∧
    (∀ els, StateOk (parse_array_inline_rest fuel els)) ∧
    StateOk (parse_primary_expression fuel) := by
  intro fuel
  induction fuel with
  | zero =>
    exact ⟨stateok_pthrow _, stateok_pthrow _, stateok_pthrow _, fun _ => stateok_pthrow _,
      stateok_pthrow _, fun _ => stateok_pthrow _, stateok_pthrow _, fun _ => stateok_pthrow _,
      stateok_pthrow _, fun _ => stateok_pthrow _, stateok_pthrow _, fun _ => stateok_pthrow _,
      stateok_pthrow _, fun _ => stateok_pthrow _, stateok_pthrow _, fun _ => stateok_pthrow _,
      stateok_pthrow _, fun _ => stateok_pthrow _, stateok_pthrow _, fun _ => stateok_pthrow _,
      stateok_pthrow _, fun _ => stateok_pthrow _, stateok_pthrow _, stateok_pthrow _,
      stateok_pthrow _, fun _ => stateok_pthrow _, stateok_pthrow _, stateok_pthrow _,
      fun _ => stateok_pthrow _, stateok_pthrow _, fun _ => stateok_pthrow _,
      stateok_pthrow _, fun _ => stateok_pthrow _, fun _ => stateok_pthrow _,
      fun _ => stateok_pthrow _, stateok_pthrow _⟩
  | succ n ih =>
    obtain ⟨ihE, ihF, ihOr, ihOrL, ihAnd, ihAndL, ihBo, ihBoL, ihBx, ihBxL, ihBa, ihBaL,
      ihEq, ihEqL, ihRel, ihRelL, ihSh, ihShL, ihAs, ihAsL, ihMd, ihMdL, ihExp, ihExpL,
      ihCast, ihCastL, ihUn, ihAcc, ihAccL, ihRr, ihPl, ihSp, ihCi, ihCm, ihAir, ihPr⟩ := ih
    refine ⟨?_, ?_, ?_, ?_, ?_, ?_, ?_, ?_, ?_, ?_, ?_, ?_, ?_, ?_, ?_, ?_, ?_, ?_, ?_, ?_,
      ?_, ?_, ?_, ?_, ?_, ?_, ?_, ?_, ?_, ?_, ?_, ?_, ?_, ?_, ?_, ?_⟩
    -- parse_expression
    · intro s
      cases h : parse_expression_fuzzy n { s with fuzzy_struct_state := false } with
      | mk r s1 =>
        have hh := ihF { s with fuzzy_struct_state := false }
        rw [h] at hh
        simp only [parse_expression, h]
        exact ⟨by first | rfl | trivial, hh.2⟩
    -- parse_expression_fuzzy
    · simp only [parse_expression_fuzzy]
      refine stateok_pbind ihOr ?_
      intro expr
      refine stateok_pbind (stateok_eat _) ?_
      intro q
      cases q with
      | some t =>
        refine stateok_pbind ihE ?_
        intro it
        refine stateok_pbind (stateok_expect _) ?_
        intro c
        refine stateok_pbind ihF ?_
        intro ifl
        exact stateok_ppure _
      | none => exact stateok_ppure _
    -- parse_or_expression
    · simp only [parse_or_expression]
      exact stateok_pbind ihAnd (fun e => ihOrL e)
    -- parse_or_loop
    · intro e
      simp only [parse_or_loop]
      refine stateok_pbind (stateok_eat _) ?_
      intro o
      cases o with
      | some t => exact stateok_pbind ihAnd (fun right => ihOrL _)
      | none => exact stateok_ppure _
    -- parse_and_expression
    · simp only [parse_and_expression]
      exact stateok_pbind ihBo (fun e => ihAndL e)
    -- parse_and_loop
    · intro e
      simp only [parse_and_loop]
      refine stateok_pbind (stateok_eat _) ?_
      intro o
      cases o with
      | some t => exact stateok_pbind ihBo (fun right => ihAndL _)
      | none => exact stateok_ppure _
    -- parse_bit_or_expression
    · simp only [parse_bit_or_expression]
      exact stateok_pbind ihBx (fun e => ihBoL e)
    -- parse_bit_or_loop
    · intro e
      simp only [parse_bit_or_loop]
      refine stateok_pbind (stateok_eat _) ?_
      intro o
      cases o with
      | some t => exact stateok_pbind ihBx (fun right => ihBoL _)
      | none => exact stateok_ppure _
    -- parse_bit_xor_expression
    · simp only [parse_bit_xor_expression]
      exact stateok_pbind ihBa (fun e => ihBxL e)
    -- parse_bit_xor_loop
    · intro e
      simp only [parse_bit_xor_loop]
      refine stateok_pbind (stateok_eat _) ?_
      intro o
      cases o with
      | some t => exact stateok_pbind ihBa (fun right => ihBxL _)
      | none => exact stateok_ppure _
    -- parse_bit_and_expression
    · simp only [parse_bit_and_expression]
      exact stateok_pbind ihEq (fun e => ihBaL e)
    -- parse_bit_and_loop
    · intro e
      simp only [parse_bit_and_loop]
      refine stateok_pbind (stateok_eat _) ?_
      intro o
      cases o with
      | some t => exact stateok_pbind ihEq (fun right => ihBaL _)
      | none => exact stateok_ppure _
    -- parse_eq_expression
    · simp only [parse_eq_expression]
      exact stateok_pbind ihRel (fun e => ihEqL e)
    -- parse_eq_loop
    · intro e
      simp only [parse_eq_loop]
      refine stateok_pbind (stateok_eat_any _) ?_
      intro o
      cases o with
      | some t => exact stateok_pbind ihRel (fun right => ihEqL _)
      | none => exact stateok_ppure _
    -- parse_rel_expression
    · simp only [parse_rel_expression]
      exact stateok_pbind ihSh (fun e => ihRelL e)
    -- parse_rel_loop
    · intro e
      simp only [parse_rel_loop]
      refine stateok_pbind (stateok_eat_any _) ?_
      intro o
      cases o with
      | some t => exact stateok_pbind ihSh (fun right => ihRelL _)
      | none => exact stateok_ppure _
    -- parse_shift_expression
    · simp only [parse_shift_expression]
      exact stateok_pbind ihAs (fun e => ihShL e)
    -- parse_shift_loop
    · intro e
      simp only [parse_shift_loop]
      refine stateok_pbind (stateok_eat_any _) ?_
      intro o
      cases o with
      | some t => exact stateok_pbind ihAs (fun right => ihShL _)
      | none => exact stateok_ppure _
    -- parse_add_sub_expression
    · simp only [parse_add_sub_expression]
      exact stateok_pbind ihMd (fun e => ihAsL e)
    -- parse_add_sub_loop
    · intro e
      simp only [parse_add_sub_loop]
      refine stateok_pbind (stateok_eat_any _) ?_
      intro o
      cases o with
      | some t => exact stateok_pbind ihMd (fun right => ihAsL _)
      | none => exact stateok_ppure _
    -- parse_mul_div_mod_expression
    · simp only [parse_mul_div_mod_expression]
      exact stateok_pbind ihExp (fun e => ihMdL e)
    -- parse_mul_div_mod_loop
    · intro e
      simp only [parse_mul_div_mod_loop]
      refine stateok_pbind (stateok_eat_any _) ?_
      intro o
      cases o with
      | some t => exact stateok_pbind ihExp (fun right => ihMdL _)
      | none => exact stateok_ppure _
    -- parse_exp_expression
    · simp only [parse_exp_expression]
      refine stateok_pbind ihCast ?_
      intro first
      refine stateok_pbind ihExpL ?_
      intro rest
      cases (first :: rest).reverse with
      | nil => exact stateok_ppure _
      | cons last prev => exact stateok_ppure _
    -- parse_exp_loop
    · simp only [parse_exp_loop]
      refine stateok_pbind (stateok_eat _) ?_
      intro o
      cases o with
      | some t =>
        refine stateok_pbind ihCast ?_
        intro e
        exact stateok_pbind ihExpL (fun es => stateok_ppure _)
      | none => exact stateok_ppure _
    -- parse_cast_expression
    · simp only [parse_cast_expression]
      exact stateok_pbind ihUn (fun e => ihCastL e)
    -- parse_cast_loop
    · intro e
      simp only [parse_cast_loop]
      refine stateok_pbind (stateok_eat _) ?_
      intro o
      cases o with
      | some t => exact stateok_pbind stateok_parse_type (fun tt => ihCastL _)
      | none => exact stateok_ppure _
    -- parse_unary_expression
    · simp only [parse_unary_expression]
      refine stateok_pbind (stateok_collect_unary_ops n) ?_
      intro ops
      exact stateok_pbind ihAcc (fun inner => stateok_ppure _)
    -- parse_access_expression
    · simp only [parse_access_expression]
      exact stateok_pbind ihPr (fun e => ihAccL e)
    -- parse_access_loop
    · intro e
      simp only [parse_access_loop]
      refine stateok_pbind (stateok_eat_any _) ?_
      intro o
      cases o with
      | none => exact stateok_ppure _
      | some tk =>
        rcases tk with ⟨tok, sp⟩
        cases tok <;> try exact stateok_pthrow _
        -- Dot
        · refine stateok_pbind stateok_eat_identifier ?_
          intro id?
          cases id? with
          | some ident => exact ihAccL _
          | none =>
            refine stateok_pbind stateok_eat_int ?_
            intro int?
            cases int? with
            | some ns => exact ihAccL _
            | none =>
              refine stateok_pbind stateok_peek ?_
              intro next
              exact stateok_pthrow _
        -- DoubleColon
        · refine stateok_pbind stateok_expect_ident ?_
          intro ident
          exact ihAccL _
        -- LeftParen
        · refine stateok_pbind (ihPl []) ?_
          intro ae
          exact ihAccL _
        -- LeftSquare
        · refine stateok_pbind (stateok_eat _) ?_
          intro dd
          cases dd with
          | some t =>
            refine stateok_pbind ihRr ?_
            intro right
            refine stateok_pbind (stateok_expect _) ?_
            intro es
            exact ihAccL _
          | none =>
            refine stateok_pbind ihE ?_
            intro left
            refine stateok_pbind (stateok_eat _) ?_
            intro dd2
            cases dd2 with
            | some t =>
              refine stateok_pbind ihRr ?_
              intro right
              refine stateok_pbind (stateok_expect _) ?_
              intro es
              exact ihAccL _
            | none =>
              refine stateok_pbind (stateok_expect _) ?_
              intro es
              exact ihAccL _
    -- parse_range_right
    · simp only [parse_range_right]
      refine stateok_pbind stateok_peek ?_
      intro t
      by_cases h : t.token = Token.RightSquare
      · rw [if_pos h]
        exact stateok_ppure _
      · rw [if_neg h]
        exact stateok_pbind ihE (fun e => stateok_ppure _)
    -- parse_paren_list
    · intro acc
      simp only [parse_paren_list]
      refine stateok_pbind (stateok_eat _) ?_
      intro rp
      cases rp with
      | some e => exact stateok_ppure _
      | none =>
        refine stateok_pbind ihE ?_
        intro a
        refine stateok_pbind (stateok_eat _) ?_
        intro c
        cases c with
        | some t => exact ihPl _
        | none => exact stateok_pbind (stateok_expect _) (fun es => stateok_ppure _)
    -- parse_spread_or_expression
    · simp only [parse_spread_or_expression]
      refine stateok_pbind (stateok_eat _) ?_
      intro d
      cases d with
      | some t => exact stateok_pbind ihE (fun e => stateok_ppure _)
      | none => exact stateok_pbind ihE (fun e => stateok_ppure _)
    -- parse_circuit_init
    · intro ident
      simp only [parse_circuit_init]
      refine stateok_pbind (stateok_expect _) ?_
      intro u
      exact stateok_pbind (ihCm []) (fun me => stateok_ppure _)
    -- parse_circuit_members
    · intro acc
      simp only [parse_circuit_members]
      refine stateok_pbind (stateok_eat _) ?_
      intro rc
      cases rc with
      | some e => exact stateok_ppure _
      | none =>
        refine stateok_pbind stateok_expect_ident ?_
        intro name
        refine stateok_pbind (stateok_eat _) ?_
        intro col
        cases col with
        | some t =>
          refine stateok_pbind ihE ?_
          intro e
          refine stateok_pbind (stateok_eat _) ?_
          intro c
          cases c with
          | some t2 => exact ihCm _
          | none => exact stateok_pbind (stateok_expect _) (fun es => stateok_ppure _)
        | none =>
          refine stateok_pbind (stateok_eat _) ?_
          intro c
          cases c with
          | some t2 => exact ihCm _
          | none => exact stateok_pbind (stateok_expect _) (fun es => stateok_ppure _)
    -- parse_array_inline_rest
    · intro els
      simp only [parse_array_inline_rest]
      refine stateok_pbind (stateok_eat _) ?_
      intro rs
      cases rs with
      | some t => exact stateok_ppure _
      | none =>
        refine stateok_pbind ?_ ?_
        · by_cases hl : els.length = 1
          · rw [if_pos hl]
            exact stateok_pbind (stateok_expect _) (fun u => stateok_ppure _)
          · rw [if_neg hl]
            exact stateok_ppure _
        · intro u
          refine stateok_pbind ihSp ?_
          intro e
          refine stateok_pbind (stateok_eat _) ?_
          intro c
          cases c with
          | some t => exact ihAir _
          | none => exact stateok_pbind (stateok_expect _) (fun es => stateok_ppure _)
    -- parse_primary_expression
    · simp only [parse_primary_expression]
      refine stateok_pbind stateok_expect_any ?_
      intro st
      rcases st with ⟨tok, span⟩
      cases tok <;> try exact stateok_pthrow _
      all_goals try exact stateok_ppure _
      -- Int
      · refine stateok_pbind (stateok_eat_any _) ?_
        intro ty?
        cases ty? with
        | none => exact stateok_ppure _
        | some t =>
          rcases t with ⟨tok2, sp2⟩
          cases tok2 <;>
            first
              | exact stateok_ppure _
              | exact stateok_pthrow _
      -- Ident
      · refine stateok_pbind stateok_get_fuzzy ?_
        intro fz
        cases fz with
        | false =>
          refine stateok_pbind stateok_peek ?_
          intro next
          by_cases h : next.token = Token.LeftCurly
          · rw [if_pos h]
            exact ihCi _
          · rw [if_neg h]
            exact stateok_ppure _
        | true => exact stateok_ppure _
      -- Address
      · refine stateok_pbind (stateok_expect _) ?_
        intro u
        refine stateok_pbind stateok_expect_any ?_
        intro vt
        rcases vt with ⟨tok2, sp2⟩
        cases tok2 <;> try exact stateok_pthrow _
        refine stateok_pbind (stateok_expect _) ?_
        intro es
        exact stateok_ppure _
      -- LeftParen
      · refine stateok_pbind stateok_eat_group_tuple ?_
        intro g
        cases g with
        | some xys => exact stateok_ppure _
        | none =>
          refine stateok_pbind (ihPl []) ?_
          intro ae
          rcases ae with ⟨args, es⟩
          rcases args with _ | ⟨a, _ | ⟨b, args3⟩⟩ <;> exact stateok_ppure _
      -- LeftSquare
      · refine stateok_pbind (stateok_eat _) ?_
        intro rs
        cases rs with
        | some e => exact stateok_ppure _
        | none =>
          refine stateok_pbind ihSp ?_
          intro first
          refine stateok_pbind (stateok_eat _) ?_
          intro semi
          cases semi with
          | some t =>
            refine stateok_pbind stateok_parse_array_dimensions ?_
            intro dims
            refine stateok_pbind (stateok_expect _) ?_
            intro es
            cases first with
            | Spread fexp => exact stateok_pthrow _
            | Expression x => exact stateok_ppure _
          | none =>
            refine stateok_pbind (ihAir _) ?_
            intro ee
            exact stateok_ppure _
      -- BigSelf
      · refine stateok_pbind stateok_get_fuzzy ?_
        intro fz
        cases fz with
        | false =>
          refine stateok_pbind stateok_peek ?_
          intro next
          by_cases h : next.token = Token.LeftCurly
          · rw [if_pos h]
            exact ihCi _
          · rw [if_neg h]
            exact stateok_ppure _
        | true => exact stateok_ppure _

/-- C5: The struct-literal mode flag is saved and restored re-entrantly by the
unrestricted entry point: `parse_expression` delegates to the fuzzy entry
point with the flag set to `false` (the value permitting struct/record
initializer parsing) and restores the prior flag on the returned state whether
the delegated parse succeeded or failed; and after any call to
`parse_expression` or to `parse_expression_fuzzy` (which contains all nested
save/restore pairs) the flag equals its value before the call. -/
theorem fuzzy_flag_save_restore :
    (∀ (fuel : Nat) (s : PState),
      parse_expression (fuel + 1) s
        = ((parse_expression_fuzzy fuel { s with fuzzy_struct_state := false }).1,
           { (parse_expression_fuzzy fuel { s with fuzzy_struct_state := false }).2 with
               fuzzy_struct_state := s.fuzzy_struct_state })) ∧
    (∀ (fuel : Nat) (s : PState),
      ((parse_expression fuel s).2).fuzzy_struct_state = s.fuzzy_struct_state) ∧
    (∀ (fuel : Nat) (s : PState),
      ((parse_expression_fuzzy fuel s).2).fuzzy_struct_state = s.fuzzy_struct_state) := by
  refine ⟨?_, ?_, ?_⟩
  · intro fuel s
    cases h : parse_expression_fuzzy fuel { s with fuzzy_struct_state := false } with
    | mk r s1 => simp only [parse_expression, h]
  · intro fuel s
    exact ((stateok_parsers fuel).1 s).1
  · intro fuel s
    exact ((stateok_parsers fuel).2.1 s).1

theorem pbind_ok_elim {α β : Type} {m : ParseM α} {f : α → ParseM β} {s s2 : PState}
    {b : β} (h : pbind m f s = (Except.ok b, s2)) :
    ∃ a s1, m s = (Except.ok a, s1) ∧ f a s1 = (Except.ok b, s2) := by
  unfold pbind at h
  cases hm : m s with
  | mk r s1 =>
    rw [hm] at h
    cases r with
    | ok a => exact ⟨a, s1, rfl, h⟩
    | error e => exact absurd h (by simp)

theorem ppure_ok_elim {α : Type} {a : α} {s s1 : PState} {b : α}
    (h : ppure a s = (Except.ok b, s1)) : b = a ∧ s1 = s := by
  unfold ppure at h
  simp only [Prod.mk.injEq, Except.ok.injEq] at h
  exact ⟨h.1.symm, h.2.symm⟩

theorem pthrow_not_ok {α : Type} {e : SyntaxError} {s s1 : PState} {b : α}
    (h : pthrow e s = (Except.ok b, s1)) : False := by
  unfold pthrow at h
  simp at h

theorem eat_ok_some {tk : Token} {s s1 : PState} {t : SpannedToken}
    (h : eat tk s = (Except.ok (some t), s1)) :
    s.tokens = t :: s1.tokens ∧ t.token = tk ∧
      s1.fuzzy_struct_state = s.fuzzy_struct_state := by
  rcases s with ⟨fz, tks⟩
  rcases tks with _ | ⟨hd, rest⟩
  · exact absurd h (by simp [eat])
  · by_cases hc : hd.token = tk
    · simp only [eat, if_pos hc, Prod.mk.injEq, Except.ok.injEq, Option.some.injEq] at h
      obtain ⟨ht, hs⟩ := h
      subst ht
      rw [← hs]
      exact ⟨rfl, hc, rfl⟩
    · exact absurd h (by simp [eat, if_neg hc])

theorem eat_ok_none {tk : Token} {s s1 : PState}
    (h : eat tk s = (Except.ok none, s1)) : s1 = s := by
  rcases s with ⟨fz, tks⟩
  rcases tks with _ | ⟨hd, rest⟩
  · simp only [eat, Prod.mk.injEq] at h
    exact h.2.symm
  · by_cases hc : hd.token = tk
    · exact absurd h (by simp [eat, if_pos hc])
    · simp only [eat, if_neg hc, Prod.mk.injEq] at h
      exact h.2.symm

theorem eat_any_ok_some {tks : List Token} {s s1 : PState} {t : SpannedToken}
    (h : eat_any tks s = (Except.ok (some t), s1)) :
    s.tokens = t :: s1.tokens ∧ t.token ∈ tks ∧
      s1.fuzzy_struct_state = s.fuzzy_struct_state := by
  rcases s with ⟨fz, l⟩
  rcases l with _ | ⟨hd, rest⟩
  · exact absurd h (by simp [eat_any])
  · by_cases hc : hd.token ∈ tks
    · simp only [eat_any, if_pos hc, Prod.mk.injEq, Except.ok.injEq, Option.some.injEq] at h
      obtain ⟨ht, hs⟩ := h
      subst ht
      rw [← hs]
      exact ⟨rfl, hc, rfl⟩
    · exact absurd h (by simp [eat_any, if_neg hc])

theorem eat_any_ok_none {tks : List Token} {s s1 : PState}
    (h : eat_any tks s = (Except.ok none, s1)) : s1 = s := by
  rcases s with ⟨fz, l⟩
  rcases l with _ | ⟨hd, rest⟩
  · simp only [eat_any, Prod.mk.injEq] at h
    exact h.2.symm
  · by_cases hc : hd.token ∈ tks
    · exact absurd h (by simp [eat_any, if_pos hc])
    · simp only [eat_any, if_neg hc, Prod.mk.injEq] at h
      exact h.2.symm

theorem expect_ok_elim {tk : Token} {s s1 : PState} {sp : Span}
    (h : expect tk s = (Except.ok sp, s1)) :
    s.tokens = { token := tk, span := sp } :: s1.tokens ∧
      s1.fuzzy_struct_state = s.fuzzy_struct_state := by
  rcases s with ⟨fz, tks⟩
  rcases tks with _ | ⟨hd, rest⟩
  · exact absurd h (by simp [expect])
  · by_cases hc : hd.token = tk
    · simp only [expect, if_pos hc, Prod.mk.injEq, Except.ok.injEq] at h
      obtain ⟨ht, hs⟩ := h
      rw [← hs, ← ht, ← hc]
      exact ⟨rfl, rfl⟩
    · exact absurd h (by simp [expect, if_neg hc])

theorem expect_any_ok_elim {s s1 : PState} {t : SpannedToken}
    (h : expect_any s = (Except.ok t, s1)) :
    s.tokens = t :: s1.tokens ∧ s1.fuzzy_struct_state = s.fuzzy_struct_state := by
  rcases s with ⟨fz, tks⟩
  rcases tks with _ | ⟨hd, rest⟩
  · exact absurd h (by simp [expect_any])
  · simp only [expect_any, Prod.mk.injEq, Except.ok.injEq] at h
    obtain ⟨ht, hs⟩ := h
    rw [← hs, ← ht]
    exact ⟨rfl, rfl⟩

theorem peek_ok_elim {s s1 : PState} {t : SpannedToken}
    (h : peek s = (Except.ok t, s1)) :
    s1 = s ∧ s.tokens.head? = some t := by
  rcases s with ⟨fz, tks⟩
  rcases tks with _ | ⟨hd, rest⟩
  · exact absurd h (by simp [peek])
  · simp only [peek, Prod.mk.injEq, Except.ok.injEq] at h
    obtain ⟨ht, hs⟩ := h
    rw [← hs, ← ht]
    exact ⟨rfl, rfl⟩

theorem expect_ident_ok_elim {s s1 : PState} {ident : Identifier}
    (h : expect_ident s = (Except.ok ident, s1)) :
    s.tokens = { token := Token.Ident ident.name, span := ident.span } :: s1.tokens ∧
      s1.fuzzy_struct_state = s.fuzzy_struct_state := by
  rcases s with ⟨fz, tks⟩
  rcases tks with _ | ⟨⟨tok, sp⟩, rest⟩
  · exact absurd h (by simp [expect_ident])
  · cases tok
    case Ident name =>
      simp only [expect_ident, Prod.mk.injEq, Except.ok.injEq] at h
      obtain ⟨ht, hs⟩ := h
      rw [← hs, ← ht]
      exact ⟨rfl, rfl⟩
    all_goals exact absurd h (by simp [expect_ident])

theorem parse_array_dimensions_ok_elim {s s1 : PState} {ds : List String}
    (h : parse_array_dimensions s = (Except.ok ds, s1)) :
    ∃ v sp, s.tokens = { token := Token.Int v, span := sp } :: s1.tokens ∧ ds = [v] ∧
      s1.fuzzy_struct_state = s.fuzzy_struct_state := by
  rcases s with ⟨fz, tks⟩
  rcases tks with _ | ⟨⟨tok, sp⟩, rest⟩
  · exact absurd h (by simp [parse_array_dimensions])
  · cases tok
    case Int v =>
      simp only [parse_array_dimensions, Prod.mk.injEq, Except.ok.injEq] at h
      obtain ⟨ht, hs⟩ := h
      rw [← hs, ← ht]
      exact ⟨v, sp, rfl, rfl, rfl⟩
    all_goals exact absurd h (by simp [parse_array_dimensions])

theorem span_add_eq {a b : Span} (h1 : a.start ≤ a.stop) (h2 : a.stop ≤ b.start)
    (h3 : b.start ≤ b.stop) : Span.add a b = ⟨a.start, b.stop⟩ := by
  simp only [Span.add, Span.mk.injEq]
  exact ⟨Nat.min_eq_left (h1.trans h2), Nat.max_eq_right (h2.trans h3)⟩

theorem spansordered_suffix {l1 l2 : List SpannedToken} (h : SpansOrdered l1)
    (hs : l2.IsSuffix l1) : SpansOrdered l2 :=
  ⟨h.1.sublist hs.sublist, fun t ht => h.2 t (hs.subset ht)⟩

/-- Conclusion builder for single-token parses: the consumed list is the head
token alone and the node's span is that token's span. -/
theorem roundtrip_single (t0 : SpannedToken) (rest : List SpannedToken) (e : Expression)
    (hsp : Expression.spanOf e = t0.span) :
    ∃ c : List SpannedToken, c ≠ [] ∧ t0 :: rest = c ++ rest ∧
      ∃ ta tb, c.head? = some ta ∧ c.getLast? = some tb ∧
        Expression.spanOf e = ⟨ta.span.start, tb.span.stop⟩ :=
  ⟨[t0], by simp, by simp, t0, t0, rfl, rfl, by rw [hsp]⟩

/-- Conclusion builder for multi-token parses whose node span is the union of
the first and last consumed tokens' spans. -/
theorem roundtrip_multi (t0 : SpannedToken) (mid : List SpannedToken) (t1 : SpannedToken)
    (rest : List SpannedToken) (e : Expression)
    (hord : SpansOrdered (t0 :: (mid ++ t1 :: rest)))
    (hsp : Expression.spanOf e = Span.add t0.span t1.span) :
    ∃ c : List SpannedToken, c ≠ [] ∧ t0 :: (mid ++ t1 :: rest) = c ++ rest ∧
      ∃ ta tb, c.head? = some ta ∧ c.getLast? = some tb ∧
        Expression.spanOf e = ⟨ta.span.start, tb.span.stop⟩ := by
  refine ⟨t0 :: (mid ++ [t1]), by simp, by simp, t0, t1, rfl, ?_, ?_⟩
  · show (t0 :: (mid ++ [t1])).getLast? = some t1
    rw [show t0 :: (mid ++ [t1]) = (t0 :: mid) ++ [t1] by simp]
    exact List.getLast?_concat _
  · have hmem0 : t0 ∈ t0 :: (mid ++ t1 :: rest) := List.mem_cons_self _ _
    have hmem1 : t1 ∈ mid ++ t1 :: rest := by simp
    have h1 : t0.span.start ≤ t0.span.stop := hord.2 t0 hmem0
    have h3 : t1.span.start ≤ t1.span.stop :=
      hord.2 t1 (List.mem_cons_of_mem _ hmem1)
    have h2 : t0.span.stop ≤ t1.span.start :=
      (List.pairwise_cons.mp hord.1).1 t1 hmem1
    rw [hsp, span_add_eq h1 h2 h3]

/-- A successful inline-array element loop consumes up to and including a
closing `]`, whose span it returns. -/
theorem inline_rest_decomp : ∀ (fuel : Nat) (els : List SpreadOrExpression)
    (res : List SpreadOrExpression × Span) (s s1 : PState),
    parse_array_inline_rest fuel els s = (Except.ok res, s1) →
    ∃ mid sp, s.tokens = mid ++ { token := Token.RightSquare, span := sp } :: s1.tokens ∧
      res.2 = sp := by
  intro fuel
  induction fuel with
  | zero =>
    intro els res s s1 h
    exact absurd h (by simp [parse_array_inline_rest, pthrow])
  | succ n ih =>
    intro els res s s1 h
    have kSp := (stateok_parsers n).2.2.2.2.2.2.2.2.2.2.2.2.2.2.2.2.2.2.2.2.2.2.2.2.2.2.2.2.2.2.2.1
    simp only [parse_array_inline_rest] at h
    obtain ⟨rs, s2, h1, h2⟩ := pbind_ok_elim h
    cases rs with
    | some t =>
      rcases t with ⟨tok, sp⟩
      obtain ⟨hd1, htk, _⟩ := eat_ok_some h1
      obtain ⟨hres, hs⟩ := ppure_ok_elim h2
      subst htk
      refine ⟨[], sp, ?_, by rw [hres]⟩
      rw [hd1, hs]
      simp
    | none =>
      have hs2 := eat_ok_none h1
      rw [hs2] at h2
      obtain ⟨u, s3, h3, h4⟩ := pbind_ok_elim h2
      have hpre0 : ∃ pre0, s.tokens = pre0 ++ s3.tokens := by
        by_cases hl : els.length = 1
        · rw [if_pos hl] at h3
          obtain ⟨sp0, s3', hE, hP⟩ := pbind_ok_elim h3
          obtain ⟨hd0, _⟩ := expect_ok_elim hE
          obtain ⟨_, hs0⟩ := ppure_ok_elim hP
          exact ⟨[{ token := Token.Comma, span := sp0 }], by rw [hd0, hs0]; simp⟩
        · rw [if_neg hl] at h3
          obtain ⟨_, hs3⟩ := ppure_ok_elim h3
          exact ⟨[], by rw [hs3]; simp⟩
      obtain ⟨pre0, hpre0⟩ := hpre0
      obtain ⟨el, s4, h5, h6⟩ := pbind_ok_elim h4
      have hsuf := (kSp s3).2
      rw [h5] at hsuf
      obtain ⟨pre1, hpre1⟩ := hsuf
      obtain ⟨c?, s5, h7, h8⟩ := pbind_ok_elim h6
      cases c? with
      | some tc =>
        rcases tc with ⟨tokc, spc⟩
        obtain ⟨hdc, htkc, _⟩ := eat_ok_some h7
        subst htkc
        obtain ⟨mid', sp', hd', hres'⟩ := ih _ _ _ _ h8
        refine ⟨pre0 ++ pre1 ++ { token := Token.Comma, span := spc } :: mid', sp', ?_, hres'⟩
        rw [hpre0, ← hpre1, hdc, hd']
        simp
      | none =>
        have hs5 := eat_ok_none h7
        rw [hs5] at h8
        obtain ⟨spe, s6, h9, h10⟩ := pbind_ok_elim h8
        obtain ⟨hd9, _⟩ := expect_ok_elim h9
        obtain ⟨hres, hs10⟩ := ppure_ok_elim h10
        refine ⟨pre0 ++ pre1, spe, ?_, by rw [hres]⟩
        rw [hpre0, ← hpre1, hd9, hs10]
        simp

/-- A successful circuit-member loop consumes up to and including a closing
`}`, whose span it returns. -/
theorem circuit_members_decomp : ∀ (fuel : Nat) (acc : List CircuitImpliedVariableDefinition)
    (res : List CircuitImpliedVariableDefinition × Span) (s s1 : PState),
    parse_circuit_members fuel acc s = (Except.ok res, s1) →
    ∃ mid sp, s.tokens = mid ++ { token := Token.RightCurly, span := sp } :: s1.tokens ∧
      res.2 = sp := by
  intro fuel
  induction fuel with
  | zero =>
    intro acc res s s1 h
    exact absurd h (by simp [parse_circuit_members, pthrow])
  | succ n ih =>
    intro acc res s s1 h
    have kE := (stateok_parsers n).1
    simp only [parse_circuit_members] at h
    obtain ⟨rc, s2, h1, h2⟩ := pbind_ok_elim h
    cases rc with
    | some t =>
      rcases t with ⟨tok, sp⟩
      obtain ⟨hd1, htk, _⟩ := eat_ok_some h1
      obtain ⟨hres, hs⟩ := ppure_ok_elim h2
      subst htk
      refine ⟨[], sp, ?_, by rw [hres]⟩
      rw [hd1, hs]
      simp
    | none =>
      have hs2 := eat_ok_none h1
      rw [hs2] at h2
      obtain ⟨name, s3, h3, h4⟩ := pbind_ok_elim h2
      obtain ⟨hd3, _⟩ := expect_ident_ok_elim h3
      obtain ⟨col, s4, h5, h6⟩ := pbind_ok_elim h4
      cases col with
      | some tcol =>
        rcases tcol with ⟨tokcol, spcol⟩
        obtain ⟨hdcol, htkcol, _⟩ := eat_ok_some h5
        subst htkcol
        obtain ⟨e, s5, h7, h8⟩ := pbind_ok_elim h6
        have hsuf := (kE s4).2
        rw [h7] at hsuf
        obtain ⟨pre1, hpre1⟩ := hsuf
        obtain ⟨c?, s6, h9, h10⟩ := pbind_ok_elim h8
        cases c? with
        | some tc =>
          rcases tc with ⟨tokc, spc⟩
          obtain ⟨hdc, htkc, _⟩ := eat_ok_some h9
          subst htkc
          obtain ⟨mid', sp', hd', hres'⟩ := ih _ _ _ _ h10
          refine ⟨{ token := Token.Ident name.name, span := name.span } ::
            { token := Token.Colon, span := spcol } :: pre1 ++
            { token := Token.Comma, span := spc } :: mid', sp', ?_, hres'⟩
          rw [hd3, hdcol, ← hpre1, hdc, hd']
          simp
        | none =>
          have hs6 := eat_ok_none h9
          rw [hs6] at h10
          obtain ⟨spe, s7, h11, h12⟩ := pbind_ok_elim h10
          obtain ⟨hd11, _⟩ := expect_ok_elim h11
          obtain ⟨hres, hs12⟩ := ppure_ok_elim h12
          refine ⟨{ token := Token.Ident name.name, span := name.span } ::
            { token := Token.Colon, span := spcol } :: pre1, spe, ?_, by rw [hres]⟩
          rw [hd3, hdcol, ← hpre1, hd11, hs12]
          simp
      | none =>
        have hs4 := eat_ok_none h5
        rw [hs4] at h6
        obtain ⟨c?, s6, h9, h10⟩ := pbind_ok_elim h6
        cases c? with
        | some tc =>
          rcases tc with ⟨tokc, spc⟩
          obtain ⟨hdc, htkc, _⟩ := eat_ok_some h9
          subst htkc
          obtain ⟨mid', sp', hd', hres'⟩ := ih _ _ _ _ h10
          refine ⟨{ token := Token.Ident name.name, span := name.span } ::
            { token := Token.Comma, span := spc } :: mid', sp', ?_, hres'⟩
          rw [hd3, hdc, hd']
          simp
        | none =>
          have hs6 := eat_ok_none h9
          rw [hs6] at h10
          obtain ⟨spe, s7, h11, h12⟩ := pbind_ok_elim h10
          obtain ⟨hd11, _⟩ := expect_ok_elim h11
          obtain ⟨hres, hs12⟩ := ppure_ok_elim h12
          refine ⟨[{ token := Token.Ident name.name, span := name.span }], spe,
            ?_, by rw [hres]⟩
          rw [hd3, hd11, hs12]
          simp

/-- A successful circuit initializer (given its already-consumed identifier)
consumes `{` through `}` and spans from the identifier to the `}`. -/
theorem circuit_init_decomp : ∀ (fuel : Nat) (ident : Identifier) (e : Expression)
    (s s1 : PState),
    parse_circuit_init fuel ident s = (Except.ok e, s1) →
    ∃ sp0 mid spr, s.tokens
        = { token := Token.LeftCurly, span := sp0 } ::
          (mid ++ { token := Token.RightCurly, span := spr } :: s1.tokens) ∧
      Expression.spanOf e = Span.add ident.span spr := by
  intro fuel ident e s s1 h
  cases fuel with
  | zero => exact absurd h (by simp [parse_circuit_init, pthrow])
  | succ n =>
    simp only [parse_circuit_init] at h
    obtain ⟨sp0, s2, h1, h2⟩ := pbind_ok_elim h
    obtain ⟨hd1, _⟩ := expect_ok_elim h1
    obtain ⟨me, s3, h3, h4⟩ := pbind_ok_elim h2
    obtain ⟨mid, spr, hd3, hres3⟩ := circuit_members_decomp _ _ _ _ _ h3
    obtain ⟨hres, hs4⟩ := ppure_ok_elim h4
    refine ⟨sp0, mid, spr, ?_, ?_⟩
    · rw [hd1, hd3, hs4]
    · rw [hres]
      simp [Expression.spanOf, hres3]

theorem get_fuzzy_ok_elim {s s1 : PState} {b : Bool}
    (h : get_fuzzy s = (Except.ok b, s1)) : b = s.fuzzy_struct_state ∧ s1 = s := by
  unfold get_fuzzy at h
  simp only [Prod.mk.injEq, Except.ok.injEq] at h
  exact ⟨h.1.symm, h.2.symm⟩

/-- Span round-trip at the primary layer: on a stream with ordered,
non-overlapping token spans whose first token is not `(`, a successful
`parse_primary_expression` returns a node spanning exactly from the first
consumed token's span start to the last consumed token's span end. -/
theorem primary_span_round_trip :
    ∀ (fuel : Nat) (s : PState) (e : Expression) (s1 : PState),
    parse_primary_expression fuel s = (Except.ok e, s1) →
    (∀ t0, s.tokens.head? = some t0 → t0.token ≠ Token.LeftParen) →
    SpansOrdered s.tokens →
    ∃ c : List SpannedToken, c ≠ [] ∧ s.tokens = c ++ s1.tokens ∧
      ∃ ta tb, c.head? = some ta ∧ c.getLast? = some tb ∧
        Expression.spanOf e = ⟨ta.span.start, tb.span.stop⟩ := by
  intro fuel s e s1 h hnp hord
  cases fuel with
  | zero => exact absurd h (by simp [parse_primary_expression, pthrow])
  | succ n =>
    have kSp := (stateok_parsers n).2.2.2.2.2.2.2.2.2.2.2.2.2.2.2.2.2.2.2.2.2.2.2.2.2.2.2.2.2.2.2.1
    simp only [parse_primary_expression] at h
    obtain ⟨st, s2, h1, h2⟩ := pbind_ok_elim h
    obtain ⟨hd1, _⟩ := expect_any_ok_elim h1
    rcases st with ⟨tok, span⟩
    have hnp0 : tok ≠ Token.LeftParen := by
      intro hcontra
      exact hnp ⟨tok, span⟩ (by rw [hd1]; rfl) hcontra
    cases tok
    case Int value =>
      obtain ⟨ty?, s3, h3, h4⟩ := pbind_ok_elim h2
      cases ty? with
      | none =>
        have hs3 := eat_any_ok_none h3
        rw [hs3] at h4
        obtain ⟨hres, hs⟩ := ppure_ok_elim h4
        rw [hd1, hs]
        exact roundtrip_single _ _ _ (by rw [hres] <;> rfl)
      | some t =>
        rcases t with ⟨tok2, sp2⟩
        obtain ⟨hd3, hmem, _⟩ := eat_any_ok_some h3
        cases tok2 <;>
          first
            | exact (pthrow_not_ok h4).elim
            | (obtain ⟨hres, hs⟩ := ppure_ok_elim h4
               rw [hd1, hd3] at hord
               rw [hd1, hd3, hs]
               exact roundtrip_multi _ [] _ _ _ hord (by rw [hres] <;> rfl))
    case True =>
      obtain ⟨hres, hs⟩ := ppure_ok_elim h2
      rw [hd1, hs]
      exact roundtrip_single _ _ _ (by rw [hres] <;> rfl)
    case False =>
      obtain ⟨hres, hs⟩ := ppure_ok_elim h2
      rw [hd1, hs]
      exact roundtrip_single _ _ _ (by rw [hres] <;> rfl)
    case AddressLit value =>
      obtain ⟨hres, hs⟩ := ppure_ok_elim h2
      rw [hd1, hs]
      exact roundtrip_single _ _ _ (by rw [hres] <;> rfl)
    case Input =>
      obtain ⟨hres, hs⟩ := ppure_ok_elim h2
      rw [hd1, hs]
      exact roundtrip_single _ _ _ (by rw [hres] <;> rfl)
    case LittleSelf =>
      obtain ⟨hres, hs⟩ := ppure_ok_elim h2
      rw [hd1, hs]
      exact roundtrip_single _ _ _ (by rw [hres] <;> rfl)
    case LeftParen => exact absurd rfl hnp0
    case Address =>
      obtain ⟨splp, s3, h3, h4⟩ := pbind_ok_elim h2
      obtain ⟨hd3, _⟩ := expect_ok_elim h3
      obtain ⟨vt, s4, h5, h6⟩ := pbind_ok_elim h4
      obtain ⟨hd5, _⟩ := expect_any_ok_elim h5
      rcases vt with ⟨tokv, spv⟩
      cases tokv <;> try exact (pthrow_not_ok h6).elim
      case AddressLit value2 =>
        obtain ⟨spe, s5, h7, h8⟩ := pbind_ok_elim h6
        obtain ⟨hd7, _⟩ := expect_ok_elim h7
        obtain ⟨hres, hs⟩ := ppure_ok_elim h8
        rw [hd1, hd3, hd5, hd7] at hord
        rw [hd1, hd3, hd5, hd7, hs]
        exact roundtrip_multi _
          [{ token := Token.LeftParen, span := splp },
           { token := Token.AddressLit value2, span := spv }] _ _ _ hord (by rw [hres] <;> rfl)
    case LeftSquare =>
      obtain ⟨rs, s3, h3, h4⟩ := pbind_ok_elim h2
      cases rs with
      | some t =>
        rcases t with ⟨tokr, spr⟩
        obtain ⟨hd3, htk, _⟩ := eat_ok_some h3
        subst htk
        obtain ⟨hres, hs⟩ := ppure_ok_elim h4
        rw [hd1, hd3] at hord
        rw [hd1, hd3, hs]
        exact roundtrip_multi _ [] _ _ _ hord (by rw [hres] <;> rfl)
      | none =>
        have hs3 := eat_ok_none h3
        rw [hs3] at h4
        obtain ⟨first, s4, h5, h6⟩ := pbind_ok_elim h4
        have hsuf := (kSp s2).2
        rw [h5] at hsuf
        obtain ⟨pre1, hpre1⟩ := hsuf
        obtain ⟨semi, s5, h7, h8⟩ := pbind_ok_elim h6
        cases semi with
        | some tsemi =>
          rcases tsemi with ⟨toksemi, spsemi⟩
          obtain ⟨hd7, htksemi, _⟩ := eat_ok_some h7
          subst htksemi
          obtain ⟨dims, s6, h9, h10⟩ := pbind_ok_elim h8
          obtain ⟨v, spv, hd9, hdims, _⟩ := parse_array_dimensions_ok_elim h9
          obtain ⟨spe, s7, h11, h12⟩ := pbind_ok_elim h10
          obtain ⟨hd11, _⟩ := expect_ok_elim h11
          cases first with
          | Spread fexp => exact (pthrow_not_ok h12).elim
          | Expression x =>
            obtain ⟨hres, hs⟩ := ppure_ok_elim h12
            rw [hd1, ← hpre1, hd7, hd9, hd11] at hord
            rw [hd1, ← hpre1, hd7, hd9, hd11, hs]
            have hordX : SpansOrdered ({ token := Token.LeftSquare, span := span } ::
                ((pre1 ++ [{ token := Token.Semicolon, span := spsemi },
                  { token := Token.Int v, span := spv }]) ++
                 { token := Token.RightSquare, span := spe } :: s7.tokens)) := by
              simpa [List.append_assoc] using hord
            have hmain := roundtrip_multi { token := Token.LeftSquare, span := span }
              (pre1 ++ [{ token := Token.Semicolon, span := spsemi },
                { token := Token.Int v, span := spv }])
              { token := Token.RightSquare, span := spe } s7.tokens e hordX (by rw [hres] <;> rfl)
            simpa [List.append_assoc] using hmain
        | none =>
          have hs5 := eat_ok_none h7
          rw [hs5] at h8
          obtain ⟨ee, s6, h9, h10⟩ := pbind_ok_elim h8
          obtain ⟨mid', sp', hd', hres'⟩ := inline_rest_decomp _ _ _ _ _ h9
          obtain ⟨hres, hs⟩ := ppure_ok_elim h10
          rw [hd1, ← hpre1, hd'] at hord
          rw [hd1, ← hpre1, hd', hs]
          have hordX : SpansOrdered ({ token := Token.LeftSquare, span := span } ::
              ((pre1 ++ mid') ++
               { token := Token.RightSquare, span := sp' } :: s6.tokens)) := by
            simpa [List.append_assoc] using hord
          have hmain := roundtrip_multi { token := Token.LeftSquare, span := span }
            (pre1 ++ mid') { token := Token.RightSquare, span := sp' } s6.tokens e hordX
            (by rw [hres]; simp [Expression.spanOf, hres'])
          simpa [List.append_assoc] using hmain
    case Ident name =>
      obtain ⟨fz, s3, h3, h4⟩ := pbind_ok_elim h2
      obtain ⟨hfz, hs3⟩ := get_fuzzy_ok_elim h3
      rw [hs3] at h4
      cases fz with
      | true =>
        obtain ⟨hres, hs⟩ := ppure_ok_elim h4
        rw [hd1, hs]
        exact roundtrip_single _ _ _ (by rw [hres] <;> rfl)
      | false =>
        obtain ⟨next, s4, h5, h6⟩ := pbind_ok_elim h4
        obtain ⟨hs4, hhead⟩ := peek_ok_elim h5
        rw [hs4] at h6
        by_cases hcur : next.token = Token.LeftCurly
        · rw [if_pos hcur] at h6
          obtain ⟨sp0, mid, spr, hd6, hsp6⟩ := circuit_init_decomp _ _ _ _ _ h6
          rw [hd1, hd6] at hord
          rw [hd1, hd6]
          exact roundtrip_multi _ ({ token := Token.LeftCurly, span := sp0 } :: mid)
            _ _ _ hord hsp6
        · rw [if_neg hcur] at h6
          obtain ⟨hres, hs⟩ := ppure_ok_elim h6
          rw [hd1, hs]
          exact roundtrip_single _ _ _ (by rw [hres] <;> rfl)
    case BigSelf =>
      obtain ⟨fz, s3, h3, h4⟩ := pbind_ok_elim h2
      obtain ⟨hfz, hs3⟩ := get_fuzzy_ok_elim h3
      rw [hs3] at h4
      cases fz with
      | true =>
        obtain ⟨hres, hs⟩ := ppure_ok_elim h4
        rw [hd1, hs]
        exact roundtrip_single _ _ _ (by rw [hres] <;> rfl)
      | false =>
        obtain ⟨next, s4, h5, h6⟩ := pbind_ok_elim h4
        obtain ⟨hs4, hhead⟩ := peek_ok_elim h5
        rw [hs4] at h6
        by_cases hcur : next.token = Token.LeftCurly
        · rw [if_pos hcur] at h6
          obtain ⟨sp0, mid, spr, hd6, hsp6⟩ := circuit_init_decomp _ _ _ _ _ h6
          rw [hd1, hd6] at hord
          rw [hd1, hd6]
          exact roundtrip_multi _ ({ token := Token.LeftCurly, span := sp0 } :: mid)
            _ _ _ hord hsp6
        · rw [if_neg hcur] at h6
          obtain ⟨hres, hs⟩ := ppure_ok_elim h6
          rw [hd1, hs]
          exact roundtrip_single _ _ _ (by rw [hres] <;> rfl)
    all_goals exact (pthrow_not_ok h2).elim

/-- Check of `primary_span_round_trip` at the one-token stream `5`. -/
theorem primary_span_round_trip_check :
    ∃ c : List SpannedToken, c ≠ [] ∧
      [({ token := Token.Int "5", span := ⟨0,1⟩ } : SpannedToken)] = c ++ ([] : List SpannedToken) ∧
      ∃ ta tb, c.head? = some ta ∧ c.getLast? = some tb ∧
        Expression.spanOf (Expression.Value (ValueExpression.Implicit "5" ⟨0,1⟩))
          = ⟨ta.span.start, tb.span.stop⟩ :=
  primary_span_round_trip 10 ⟨false, [⟨Token.Int "5", ⟨0,1⟩⟩]⟩
    (Expression.Value (ValueExpression.Implicit "5" ⟨0,1⟩)) ⟨false, []⟩ rfl
    (by intro t0 ht; simp only [List.head?_cons, Option.some.injEq] at ht; rw [← ht]; decide)
    (by
      refine ⟨?_, ?_⟩
      · simp
      · intro t ht
        simp only [List.mem_singleton] at ht
        subst ht
        decide)

theorem getLast?_mem {α : Type} {l : List α} {a : α} (h : l.getLast? = some a) : a ∈ l := by
  obtain ⟨hne, heq⟩ := List.mem_getLast?_eq_getLast (l := l) (x := a) h
  rw [heq]
  exact List.getLast_mem hne

theorem head?_mem {α : Type} {l : List α} {a : α} (h : l.head? = some a) : a ∈ l := by
  cases l with
  | nil => cases h
  | cons x xs =>
    simp only [List.head?_cons, Option.some.injEq] at h
    rw [← h]
    exact List.mem_cons_self _ _

theorem noparen_decomp_right {c r : List SpannedToken} (h : NoParen (c ++ r)) : NoParen r :=
  fun t ht => h t (List.mem_append_right c ht)

theorem noparen_cons {t0 : SpannedToken} {r : List SpannedToken} (h : NoParen (t0 :: r)) :
    NoParen r :=
  fun t ht => h t (List.mem_cons_of_mem t0 ht)

theorem spansordered_decomp_right {c r : List SpannedToken} (h : SpansOrdered (c ++ r)) :
    SpansOrdered r :=
  ⟨h.1.sublist (List.sublist_append_right c r), fun t ht => h.2 t (List.mem_append_right c ht)⟩

theorem spansordered_decomp_left {c r : List SpannedToken} (h : SpansOrdered (c ++ r)) :
    SpansOrdered c :=
  ⟨h.1.sublist (List.sublist_append_left c r), fun t ht => h.2 t (List.mem_append_left r ht)⟩

theorem spansordered_cross {c r : List SpannedToken} (h : SpansOrdered (c ++ r)) :
    ∀ x ∈ c, ∀ t ∈ r, x.span.stop ≤ t.span.start :=
  fun x hx t ht => (List.pairwise_append.mp h.1).2.2 x hx t ht

theorem covers_start_le_stop {c : List SpannedToken} {ta tb : SpannedToken}
    (h : SpansOrdered c) (hh : c.head? = some ta) (hl : c.getLast? = some tb) :
    ta.span.start ≤ tb.span.stop := by
  cases c with
  | nil => cases hh
  | cons x xs =>
    simp only [List.head?_cons, Option.some.injEq] at hh
    cases xs with
    | nil =>
      simp only [List.getLast?_singleton, Option.some.injEq] at hl
      rw [← hh, ← hl]
      exact h.2 x (List.mem_cons_self _ _)
    | cons y ys =>
      have hmem : tb ∈ y :: ys := by
        rw [List.getLast?_cons_cons] at hl
        exact getLast?_mem hl
      have h1 : x.span.start ≤ x.span.stop := h.2 x (List.mem_cons_self _ _)
      have h2 : x.span.stop ≤ tb.span.start := (List.pairwise_cons.mp h.1).1 tb hmem
      have h3 : tb.span.start ≤ tb.span.stop :=
        h.2 tb (List.mem_cons_of_mem x hmem)
      rw [← hh]
      exact (h1.trans h2).trans h3

theorem covers_se {c : List SpannedToken} {e : Expression}
    (hord : SpansOrdered c) (hcov : Covers e c) :
    (Expression.spanOf e).start ≤ (Expression.spanOf e).stop := by
  obtain ⟨ta, tb, hh, hl, hsp⟩ := hcov
  rw [hsp]
  exact covers_start_le_stop hord hh hl

theorem bound_transfer {c r : List SpannedToken} {tb : SpannedToken}
    (hord : SpansOrdered (c ++ r)) (htb : c.getLast? = some tb) :
    ∀ t ∈ r, tb.span.stop ≤ t.span.start :=
  fun t ht => spansordered_cross hord tb (getLast?_mem htb) t ht

theorem eat_eq_eat_any_single (tk : Token) (s : PState) : eat tk s = eat_any [tk] s := by
  rcases s with ⟨fz, tks⟩
  rcases tks with _ | ⟨t, rest⟩
  · rfl
  · by_cases hc : t.token = tk
    · simp [eat, eat_any, hc]
    · simp [eat, eat_any, hc]

theorem pbind_congr_left {α β : Type} {m m' : ParseM α} (f : α → ParseM β)
    (h : ∀ s, m s = m' s) (s : PState) : pbind m f s = pbind m' f s := by
  unfold pbind
  rw [h s]

theorem parse_type_ok_elim {s s1 : PState} {res : Type' × Span}
    (h : parse_type s = (Except.ok res, s1)) :
    ∃ t : SpannedToken, s.tokens = t :: s1.tokens ∧ t.span = res.2 := by
  rcases s with ⟨fz, tks⟩
  rcases tks with _ | ⟨⟨tok, sp⟩, rest⟩
  · exact absurd h (by simp [parse_type])
  · cases tok <;>
      first
        | (simp only [parse_type, token_to_int_type, Prod.mk.injEq, Except.ok.injEq] at h
           obtain ⟨ht, hs⟩ := h
           exact ⟨⟨_, sp⟩, by rw [← hs], by rw [← ht]⟩)
        | exact absurd h (by simp [parse_type, token_to_int_type])

theorem collect_unary_ops_elim : ∀ {fuel : Nat} {s s1 : PState} {ops : List SpannedToken},
    collect_unary_ops fuel s = (Except.ok ops, s1) →
    s.tokens = ops ++ s1.tokens ∧
      ∀ o ∈ ops, o.token ∈ [Token.Not, Token.Minus, Token.BitNot] := by
  intro fuel
  induction fuel with
  | zero =>
    intro s s1 ops h
    exact absurd h (by simp [collect_unary_ops, pthrow])
  | succ n ih =>
    intro s s1 ops h
    simp only [collect_unary_ops] at h
    obtain ⟨o, s2, h1, h2⟩ := pbind_ok_elim h
    cases o with
    | some t =>
      obtain ⟨hd1, hmem, _⟩ := eat_any_ok_some h1
      obtain ⟨ts, s3, h3, h4⟩ := pbind_ok_elim h2
      obtain ⟨hres, hs⟩ := ppure_ok_elim h4
      obtain ⟨hd3, hmem3⟩ := ih h3
      refine ⟨?_, ?_⟩
      · rw [hd1, hd3, hs, hres]
        simp
      · intro x hx
        rw [hres] at hx
        rcases List.mem_cons.mp hx with hx | hx
        · rw [hx]; exact hmem
        · exact hmem3 x hx
    | none =>
      have hs2 := eat_any_ok_none h1
      obtain ⟨hres, hs⟩ := ppure_ok_elim h2
      refine ⟨by rw [hs, hs2, hres]; simp, ?_⟩
      intro x hx
      rw [hres] at hx
      cases hx

/-- Merging one loop iteration's consumed tokens with the recursive tail call's
result: the combined consumed list stays nonempty, ends at the tail's last
token (or this iteration's when the tail consumed nothing), and the final
span keeps the accumulated start. -/
theorem loop_tail_merge {loopn : Expression → ParseM Expression}
    (hloop : LoopRoundTrips loopn) {expr' e : Expression} {s2 s1 : PState}
    (hrun : loopn expr' s2 = (Except.ok e, s1))
    (hnp : NoParen s2.tokens) (hord : SpansOrdered s2.tokens)
    {clist : List SpannedToken} {tb0 : SpannedToken} {A : Nat}
    (hclist : clist ≠ []) (hlast0 : clist.getLast? = some tb0)
    (hspan' : Expression.spanOf expr' = { start := A, stop := tb0.span.stop })
    (hbound : ∀ t ∈ s2.tokens, tb0.span.stop ≤ t.span.start)
    (hse : A ≤ tb0.span.stop) :
    ∃ c, c ≠ [] ∧ clist ++ s2.tokens = c ++ s1.tokens ∧
      ∃ tb, c.getLast? = some tb ∧
        Expression.spanOf e = { start := A, stop := tb.span.stop } := by
  have hse' : (Expression.spanOf expr').start ≤ (Expression.spanOf expr').stop := by
    rw [hspan']; exact hse
  have hbound' : ∀ t ∈ s2.tokens, (Expression.spanOf expr').stop ≤ t.span.start := by
    rw [hspan']; exact hbound
  rcases hloop expr' s2 e s1 hrun hnp hord hse' hbound' with ⟨he, hs⟩ | ⟨c', hne', hdec', tb', hlast', hspan''⟩
  · refine ⟨clist, hclist, by rw [hs], tb0, hlast0, ?_⟩
    rw [he, hspan']
  · refine ⟨clist ++ c', by simp [hclist], ?_, tb', ?_, ?_⟩
    · rw [hdec']; simp
    · rw [List.getLast?_append_of_ne_nil clist hne']
      exact hlast'
    · rw [hspan'', hspan']

/-- The uniform left-associative level algorithm round-trips: one operand via
the tighter level, then the operator fold loop. -/
theorem level_body_rt {next : ParseM Expression} (hnext : RoundTrips next)
    {loopf : Expression → ParseM Expression} (hloop : LoopRoundTrips loopf) :
    RoundTrips (pbind next (fun e => loopf e)) := by
  intro s e s1 h hnp hord
  obtain ⟨e0, s2, h1, h2⟩ := pbind_ok_elim h
  obtain ⟨c0, hc0ne, hdec0, hcov0⟩ := hnext s e0 s2 h1 hnp hord
  obtain ⟨ta, tb, hh, hl, hsp⟩ := hcov0
  have hordfull : SpansOrdered (c0 ++ s2.tokens) := by rw [← hdec0]; exact hord
  have hnpfull : NoParen (c0 ++ s2.tokens) := by rw [← hdec0]; exact hnp
  have hse : (Expression.spanOf e0).start ≤ (Expression.spanOf e0).stop :=
    covers_se (spansordered_decomp_left hordfull) ⟨ta, tb, hh, hl, hsp⟩
  have hbound : ∀ t ∈ s2.tokens, (Expression.spanOf e0).stop ≤ t.span.start := by
    rw [hsp]
    exact bound_transfer hordfull hl
  rcases hloop e0 s2 e s1 h2 (noparen_decomp_right hnpfull)
      (spansordered_decomp_right hordfull) hse hbound with
    ⟨he, hs⟩ | ⟨c', hne', hdec', tb', hlast', hspan'⟩
  · refine ⟨c0, hc0ne, by rw [hs]; exact hdec0, ?_⟩
    rw [he]
    exact ⟨ta, tb, hh, hl, hsp⟩
  · refine ⟨c0 ++ c', by simp [hc0ne], ?_, ta, tb', ?_, ?_, ?_⟩
    · rw [hdec0, hdec']; simp
    · rw [List.head?_append_of_ne_nil c0 hc0ne]; exact hh
    · rw [List.getLast?_append_of_ne_nil c0 hne']; exact hlast'
    · rw [hspan', hsp]

/-- The uniform left-associative operator fold loop round-trips: each
iteration consumes one operator token and one right operand and the new
binary node spans from the accumulated start to the operand's end. -/
theorem binary_loop_body_rt {next : ParseM Expression} (hnext : RoundTrips next)
    {loopn : Expression → ParseM Expression} (hloopn : LoopRoundTrips loopn)
    (toks : List Token) (mkop : Token → BinaryOperation) :
    LoopRoundTrips (fun expr =>
      pbind (eat_any toks) (fun o =>
        match o with
        | some st =>
            pbind next (fun right =>
              loopn (Expression.Binary
                (Span.add (Expression.spanOf expr) (Expression.spanOf right))
                (mkop st.token) expr right))
        | none => ppure expr)) := by
  intro expr s e s1 h hnp hord hse hbound
  obtain ⟨o, s2, h1, h2⟩ := pbind_ok_elim h
  cases o with
  | none =>
    have hs2 := eat_any_ok_none h1
    obtain ⟨hres, hs⟩ := ppure_ok_elim h2
    exact Or.inl ⟨hres, by rw [hs, hs2]⟩
  | some st =>
    obtain ⟨hd1, hmem, _⟩ := eat_any_ok_some h1
    obtain ⟨right, s3, h3, h4⟩ := pbind_ok_elim h2
    rw [hd1] at hnp hord hbound
    have hnps2 : NoParen s2.tokens := noparen_cons hnp
    have hords2 : SpansOrdered s2.tokens :=
      spansordered_decomp_right (c := [st]) hord
    obtain ⟨cr, hcrne, hdecr, hcov⟩ := hnext s2 right s3 h3 hnps2 hords2
    obtain ⟨ta, tb, hh, hl, hsp⟩ := hcov
    have hordcr : SpansOrdered (cr ++ s3.tokens) := by rw [← hdecr]; exact hords2
    have hnpcr : NoParen (cr ++ s3.tokens) := by rw [← hdecr]; exact hnps2
    have hrise : (Expression.spanOf right).start ≤ (Expression.spanOf right).stop :=
      covers_se (spansordered_decomp_left hordcr) ⟨ta, tb, hh, hl, hsp⟩
    have hta_in_s : ta ∈ st :: s2.tokens := by
      rw [hdecr]
      exact List.mem_cons_of_mem _ (List.mem_append_left _ (head?_mem hh))
    have h_e_le : (Expression.spanOf expr).stop ≤ (Expression.spanOf right).start := by
      rw [hsp]
      exact hbound ta hta_in_s
    have hspan' : Expression.spanOf (Expression.Binary
        (Span.add (Expression.spanOf expr) (Expression.spanOf right))
        (mkop st.token) expr right)
        = { start := (Expression.spanOf expr).start, stop := tb.span.stop } := by
      show Span.add (Expression.spanOf expr) (Expression.spanOf right) = _
      rw [span_add_eq hse h_e_le hrise, hsp]
    have hbound3 : ∀ t ∈ s3.tokens, tb.span.stop ≤ t.span.start :=
      bound_transfer hordcr hl
    have hseA : (Expression.spanOf expr).start ≤ tb.span.stop := by
      have h1 : (Expression.spanOf right).stop = tb.span.stop := by rw [hsp]
      rw [← h1]
      exact (hse.trans h_e_le).trans hrise
    have hlast0 : (st :: cr).getLast? = some tb := by
      rw [show st :: cr = [st] ++ cr by rfl, List.getLast?_append_of_ne_nil [st] hcrne]
      exact hl
    obtain ⟨c, hcne, hdec, tb', hlast', hspan''⟩ :=
      loop_tail_merge hloopn h4 (noparen_decomp_right hnpcr)
        (spansordered_decomp_right hordcr)
        (List.cons_ne_nil st cr) hlast0 hspan' hbound3 hseA
    refine Or.inr ⟨c, hcne, ?_, tb', hlast', hspan''⟩
    rw [hd1, hdecr]
    rw [show st :: (cr ++ s3.tokens) = (st :: cr) ++ s3.tokens by simp]
    exact hdec

theorem span_add_eq_rev {a b : Span} (h1 : b.start ≤ b.stop) (h2 : b.stop ≤ a.start)
    (h3 : a.start ≤ a.stop) : Span.add a b = ⟨b.start, a.stop⟩ := by
  simp only [Span.add, Span.mk.injEq]
  exact ⟨Nat.min_eq_right (h1.trans h2), Nat.max_eq_left (h2.trans h3)⟩

theorem apply_unary_step_span (op : SpannedToken) (inner : Expression) :
    Expression.spanOf (apply_unary_ops [op] inner)
      = Span.add op.span (Expression.spanOf inner) := by
  rcases op with ⟨tok, sp⟩
  cases tok <;> cases inner <;> try rfl
  all_goals (rename_i v; cases v <;> rfl)

theorem apply_unary_ops_span : ∀ (l : List SpannedToken) (inner : Expression),
    (∀ o ∈ l, o.span.start ≤ o.span.stop) →
    List.Pairwise (fun a b => b.span.stop ≤ a.span.start) l →
    (∀ o ∈ l, o.span.stop ≤ (Expression.spanOf inner).start) →
    (Expression.spanOf inner).start ≤ (Expression.spanOf inner).stop →
    (l = [] ∧ apply_unary_ops l inner = inner) ∨
    ∃ tl, l.getLast? = some tl ∧
      Expression.spanOf (apply_unary_ops l inner)
        = { start := tl.span.start, stop := (Expression.spanOf inner).stop } := by
  intro l
  induction l with
  | nil =>
    intro inner _ _ _ _
    exact Or.inl ⟨rfl, rfl⟩
  | cons o rest ih =>
    intro inner hse hpw hlt hin
    right
    have hostep : Expression.spanOf (apply_unary_ops [o] inner)
        = { start := o.span.start, stop := (Expression.spanOf inner).stop } := by
      rw [apply_unary_step_span]
      exact span_add_eq (hse o (List.mem_cons_self _ _))
        (hlt o (List.mem_cons_self _ _)) hin
    have hstep : apply_unary_ops (o :: rest) inner
        = apply_unary_ops rest (apply_unary_ops [o] inner) := rfl
    rcases ih (apply_unary_ops [o] inner)
        (fun x hx => hse x (List.mem_cons_of_mem _ hx))
        (List.pairwise_cons.mp hpw).2
        (fun x hx => by rw [hostep]; exact (List.pairwise_cons.mp hpw).1 x hx)
        (by
          rw [hostep]
          exact ((hse o (List.mem_cons_self _ _)).trans
            (hlt o (List.mem_cons_self _ _))).trans hin) with
      hleft | ⟨tl, htl, hsp⟩
    · obtain ⟨hrestnil, _⟩ := hleft
      subst hrestnil
      exact ⟨o, rfl, hostep⟩
    · refine ⟨tl, ?_, ?_⟩
      · have hrne : rest ≠ [] := by
          intro hc
          rw [hc] at htl
          cases htl
        rw [show o :: rest = [o] ++ rest from rfl, List.getLast?_append_of_ne_nil [o] hrne]
        exact htl
      · rw [hstep, hsp, hostep]

theorem fold_exp_span : ∀ (prev : List Expression) (acc : Expression),
    (∀ x ∈ acc :: prev, (Expression.spanOf x).start ≤ (Expression.spanOf x).stop) →
    List.Pairwise (fun a b =>
      (Expression.spanOf b).stop ≤ (Expression.spanOf a).start) (acc :: prev) →
    ∃ xl, (acc :: prev).getLast? = some xl ∧
      Expression.spanOf (fold_exp acc prev)
        = { start := (Expression.spanOf xl).start, stop := (Expression.spanOf acc).stop } := by
  intro prev
  induction prev with
  | nil =>
    intro acc hse hpw
    exact ⟨acc, rfl, rfl⟩
  | cons sub rest ih =>
    intro acc hse hpw
    have hsub_lt : (Expression.spanOf sub).stop ≤ (Expression.spanOf acc).start :=
      (List.pairwise_cons.mp hpw).1 sub (List.mem_cons_self _ _)
    have hsub_se : (Expression.spanOf sub).start ≤ (Expression.spanOf sub).stop :=
      hse sub (List.mem_cons_of_mem _ (List.mem_cons_self _ _))
    have hacc_se : (Expression.spanOf acc).start ≤ (Expression.spanOf acc).stop :=
      hse acc (List.mem_cons_self _ _)
    have hacc' : Expression.spanOf (Expression.Binary
        (Span.add (Expression.spanOf acc) (Expression.spanOf sub))
        BinaryOperation.Pow sub acc)
        = { start := (Expression.spanOf sub).start, stop := (Expression.spanOf acc).stop } := by
      show Span.add _ _ = _
      exact span_add_eq_rev hsub_se hsub_lt hacc_se
    have hse' : ∀ x ∈ (Expression.Binary
        (Span.add (Expression.spanOf acc) (Expression.spanOf sub))
        BinaryOperation.Pow sub acc) :: rest,
        (Expression.spanOf x).start ≤ (Expression.spanOf x).stop := by
      intro x hx
      rcases List.mem_cons.mp hx with hx | hx
      · rw [hx, hacc']
        exact (hsub_se.trans hsub_lt).trans hacc_se
      · exact hse x (List.mem_cons_of_mem _ (List.mem_cons_of_mem _ hx))
    have hpw' : List.Pairwise (fun a b =>
        (Expression.spanOf b).stop ≤ (Expression.spanOf a).start)
        ((Expression.Binary
          (Span.add (Expression.spanOf acc) (Expression.spanOf sub))
          BinaryOperation.Pow sub acc) :: rest) := by
      refine List.pairwise_cons.mpr ⟨?_, ?_⟩
      · intro x hx
        rw [hacc']
        exact (List.pairwise_cons.mp (List.pairwise_cons.mp hpw).2).1 x hx
      · exact (List.pairwise_cons.mp (List.pairwise_cons.mp hpw).2).2
    obtain ⟨xl, hxl, hsp⟩ := ih _ hse' hpw'
    cases rest with
    | nil =>
      simp only [List.getLast?_singleton, Option.some.injEq] at hxl
      refine ⟨sub, rfl, ?_⟩
      show Expression.spanOf (fold_exp (Expression.Binary
        (Span.add (Expression.spanOf acc) (Expression.spanOf sub))
        BinaryOperation.Pow sub acc) []) = _
      rw [hsp, ← hxl, hacc']
    | cons r2 rest2 =>
      refine ⟨xl, ?_, ?_⟩
      · rw [List.getLast?_cons_cons, List.getLast?_cons_cons]
        rw [List.getLast?_cons_cons] at hxl
        exact hxl
      · show Expression.spanOf (fold_exp (Expression.Binary
          (Span.add (Expression.spanOf acc) (Expression.spanOf sub))
          BinaryOperation.Pow sub acc) (r2 :: rest2)) = _
        rw [hsp, hacc']

theorem eat_identifier_ok_some {s s1 : PState} {ident : Identifier}
    (h : eat_identifier s = (Except.ok (some ident), s1)) :
    s.tokens = { token := Token.Ident ident.name, span := ident.span } :: s1.tokens := by
  rcases s with ⟨fz, tks⟩
  rcases tks with _ | ⟨⟨tok, sp⟩, rest⟩
  · exact absurd h (by simp [eat_identifier])
  · cases tok
    case Ident name =>
      simp only [eat_identifier, Prod.mk.injEq, Except.ok.injEq, Option.some.injEq] at h
      obtain ⟨ht, hs⟩ := h
      rw [← hs, ← ht]
    all_goals exact absurd h (by simp [eat_identifier])

theorem eat_identifier_ok_none {s s1 : PState}
    (h : eat_identifier s = (Except.ok none, s1)) : s1 = s := by
  rcases s with ⟨fz, tks⟩
  rcases tks with _ | ⟨⟨tok, sp⟩, rest⟩
  · simp only [eat_identifier, Prod.mk.injEq] at h
    exact h.2.symm
  · cases tok
    case Ident name => exact absurd h (by simp [eat_identifier])
    all_goals
      simp only [eat_identifier, Prod.mk.injEq] at h
      exact h.2.symm

theorem eat_int_ok_some {s s1 : PState} {vs : String × Span}
    (h : eat_int s = (Except.ok (some vs), s1)) :
    s.tokens = { token := Token.Int vs.1, span := vs.2 } :: s1.tokens := by
  rcases s with ⟨fz, tks⟩
  rcases tks with _ | ⟨⟨tok, sp⟩, rest⟩
  · exact absurd h (by simp [eat_int])
  · cases tok
    case Int v =>
      simp only [eat_int, Prod.mk.injEq, Except.ok.injEq, Option.some.injEq] at h
      obtain ⟨ht, hs⟩ := h
      rw [← hs, ← ht]
    all_goals exact absurd h (by simp [eat_int])

theorem eat_int_ok_none {s s1 : PState}
    (h : eat_int s = (Except.ok none, s1)) : s1 = s := by
  rcases s with ⟨fz, tks⟩
  rcases tks with _ | ⟨⟨tok, sp⟩, rest⟩
  · simp only [eat_int, Prod.mk.injEq] at h
    exact h.2.symm
  · cases tok
    case Int v => exact absurd h (by simp [eat_int])
    all_goals
      simp only [eat_int, Prod.mk.injEq] at h
      exact h.2.symm

/-- One iteration of a left-associative operator loop after the operator token
has been consumed: the right operand and the recursive tail together consume a
nonempty list ending at the returned node's stop position. -/
theorem loop_step_rt {next : ParseM Expression} (hnext : RoundTrips next)
    {loopn : Expression → ParseM Expression} (hloopn : LoopRoundTrips loopn)
    {expr e : Expression} {op : BinaryOperation} {st : SpannedToken} {s2 s1 : PState}
    (h2 : pbind next (fun right =>
        loopn (Expression.Binary
          (Span.add (Expression.spanOf expr) (Expression.spanOf right)) op expr right)) s2
      = (Except.ok e, s1))
    (hnp : NoParen (st :: s2.tokens)) (hord : SpansOrdered (st :: s2.tokens))
    (hse : (Expression.spanOf expr).start ≤ (Expression.spanOf expr).stop)
    (hbound : ∀ t ∈ st :: s2.tokens, (Expression.spanOf expr).stop ≤ t.span.start) :
    ∃ c, c ≠ [] ∧ st :: s2.tokens = c ++ s1.tokens ∧
      ∃ tb, c.getLast? = some tb ∧
        Expression.spanOf e
          = { start := (Expression.spanOf expr).start, stop := tb.span.stop } := by
  obtain ⟨right, s3, h3, h4⟩ := pbind_ok_elim h2
  have hnps2 : NoParen s2.tokens := noparen_cons hnp
  have hords2 : SpansOrdered s2.tokens := spansordered_decomp_right (c := [st]) hord
  obtain ⟨cr, hcrne, hdecr, hcov⟩ := hnext s2 right s3 h3 hnps2 hords2
  obtain ⟨ta, tb, hh, hl, hsp⟩ := hcov
  have hordcr : SpansOrdered (cr ++ s3.tokens) := by rw [← hdecr]; exact hords2
  have hnpcr : NoParen (cr ++ s3.tokens) := by rw [← hdecr]; exact hnps2
  have hrise : (Expression.spanOf right).start ≤ (Expression.spanOf right).stop :=
    covers_se (spansordered_decomp_left hordcr) ⟨ta, tb, hh, hl, hsp⟩
  have hta_in_s : ta ∈ st :: s2.tokens := by
    rw [hdecr]
    exact List.mem_cons_of_mem _ (List.mem_append_left _ (head?_mem hh))
  have h_e_le : (Expression.spanOf expr).stop ≤ (Expression.spanOf right).start := by
    rw [hsp]
    exact hbound ta hta_in_s
  have hspan' : Expression.spanOf (Expression.Binary
      (Span.add (Expression.spanOf expr) (Expression.spanOf right)) op expr right)
      = { start := (Expression.spanOf expr).start, stop := tb.span.stop } := by
    show Span.add (Expression.spanOf expr) (Expression.spanOf right) = _
    rw [span_add_eq hse h_e_le hrise, hsp]
  have hbound3 : ∀ t ∈ s3.tokens, tb.span.stop ≤ t.span.start :=
    bound_transfer hordcr hl
  have hseA : (Expression.spanOf expr).start ≤ tb.span.stop := by
    have h1 : (Expression.spanOf right).stop = tb.span.stop := by rw [hsp]
    rw [← h1]
    exact (hse.trans h_e_le).trans hrise
  have hlast0 : (st :: cr).getLast? = some tb := by
    rw [show st :: cr = [st] ++ cr by rfl, List.getLast?_append_of_ne_nil [st] hcrne]
    exact hl
  obtain ⟨c, hcne, hdec, tb', hlast', hspan''⟩ :=
    loop_tail_merge hloopn h4 (noparen_decomp_right hnpcr)
      (spansordered_decomp_right hordcr)
      (List.cons_ne_nil st cr) hlast0 hspan' hbound3 hseA
  refine ⟨c, hcne, ?_, tb', hlast', hspan''⟩
  rw [hdecr]
  rw [show st :: (cr ++ s3.tokens) = (st :: cr) ++ s3.tokens by simp]
  exact hdec

/-- One iteration of the postfix access loop whose consumed tokens are exactly
two tokens (`.` + identifier, `.` + integer, `::` + identifier): merging with
the recursive tail. -/
theorem access_two_token_step {loopn : Expression → ParseM Expression}
    (hloop : LoopRoundTrips loopn) {expr' e : Expression} {s2 s1 : PState}
    {t1 t2 : SpannedToken} {expr : Expression}
    (hrun : loopn expr' s2 = (Except.ok e, s1))
    (hnp : NoParen (t1 :: t2 :: s2.tokens)) (hord : SpansOrdered (t1 :: t2 :: s2.tokens))
    (hse : (Expression.spanOf expr).start ≤ (Expression.spanOf expr).stop)
    (hbound : ∀ t ∈ t1 :: t2 :: s2.tokens, (Expression.spanOf expr).stop ≤ t.span.start)
    (hspan' : Expression.spanOf expr'
      = { start := (Expression.spanOf expr).start, stop := t2.span.stop }) :
    ∃ c, c ≠ [] ∧ t1 :: t2 :: s2.tokens = c ++ s1.tokens ∧
      ∃ tb, c.getLast? = some tb ∧
        Expression.spanOf e
          = { start := (Expression.spanOf expr).start, stop := tb.span.stop } := by
  have ht2_se : t2.span.start ≤ t2.span.stop :=
    hord.2 t2 (List.mem_cons_of_mem _ (List.mem_cons_self _ _))
  have hexpr_le : (Expression.spanOf expr).stop ≤ t2.span.start :=
    hbound t2 (List.mem_cons_of_mem _ (List.mem_cons_self _ _))
  have hlast0 : ([t1, t2] : List SpannedToken).getLast? = some t2 := rfl
  have hbound2 : ∀ t ∈ s2.tokens, t2.span.stop ≤ t.span.start :=
    bound_transfer (c := [t1, t2]) hord hlast0
  have hseA : (Expression.spanOf expr).start ≤ t2.span.stop :=
    (hse.trans hexpr_le).trans ht2_se
  obtain ⟨c, hcne, hdec, tb', hlast', hspan''⟩ :=
    loop_tail_merge hloop hrun (noparen_decomp_right (c := [t1, t2]) hnp)
      (spansordered_decomp_right (c := [t1, t2]) hord)
      (List.cons_ne_nil _ _) hlast0 hspan' hbound2 hseA
  exact ⟨c, hcne, hdec, tb', hlast', hspan''⟩

/-- Mutual span round-trip induction over the whole expression-parser family:
every expression-returning parser consumes a nonempty prefix covered
first-to-last by the returned node's span, every operator fold loop extends
the accumulated span to the last consumed token, and the exponent-operand
loop collects span-ordered operands, on any parenthesis-free stream with
ordered token spans. -/
theorem roundtrip_parsers : ∀ fuel : Nat,
    RoundTrips (parse_expression fuel) ∧
    RoundTrips (parse_expression_fuzzy fuel) ∧
    RoundTrips (parse_or_expression fuel) ∧
    LoopRoundTrips (parse_or_loop fuel) ∧
    RoundTrips (parse_and_expression fuel) ∧
    LoopRoundTrips (parse_and_loop fuel) ∧
    RoundTrips (parse_bit_or_expression fuel) ∧
    LoopRoundTrips (parse_bit_or_loop fuel) ∧
    RoundTrips (parse_bit_xor_expression fuel) ∧
    LoopRoundTrips (parse_bit_xor_loop fuel) ∧
    RoundTrips (parse_bit_and_expression fuel) ∧
    LoopRoundTrips (parse_bit_and_loop fuel) ∧
    RoundTrips (parse_eq_expression fuel) ∧
    LoopRoundTrips (parse_eq_loop fuel) ∧
    RoundTrips (parse_rel_expression fuel) ∧
    LoopRoundTrips (parse_rel_loop fuel) ∧
    RoundTrips (parse_shift_expression fuel) ∧
    LoopRoundTrips (parse_shift_loop fuel) ∧
    RoundTrips (parse_add_sub_expression fuel) ∧
    LoopRoundTrips (parse_add_sub_loop fuel) ∧
    RoundTrips (parse_mul_div_mod_expression fuel) ∧
    LoopRoundTrips (parse_mul_div_mod_loop fuel) ∧
    RoundTrips (parse_exp_expression fuel) ∧
    ExpLoopRoundTrips (parse_exp_loop fuel) ∧
    RoundTrips (parse_cast_expression fuel) ∧
    LoopRoundTrips (parse_cast_loop fuel) ∧
    RoundTrips (parse_unary_expression fuel) ∧
    RoundTrips (parse_access_expression fuel) ∧
    LoopRoundTrips (parse_access_loop fuel) := by
  intro fuel
  induction fuel with
  | zero =>
    refine ⟨?_, ?_, ?_, ?_, ?_, ?_, ?_, ?_, ?_, ?_, ?_, ?_, ?_, ?_, ?_, ?_, ?_, ?_, ?_, ?_,
      ?_, ?_, ?_, ?_, ?_, ?_, ?_, ?_, ?_⟩
    all_goals
      first
        | exact fun s e s1 h _ _ => (pthrow_not_ok h).elim
        | exact fun expr s e s1 h _ _ _ _ => (pthrow_not_ok h).elim
  | succ n ih =>
    obtain ⟨ihE, ihF, ihOr, ihOrL, ihAnd, ihAndL, ihBo, ihBoL, ihBx, ihBxL, ihBa, ihBaL,
      ihEq, ihEqL, ihRel, ihRelL, ihSh, ihShL, ihAs, ihAsL, ihMd, ihMdL, ihExp, ihExpL,
      ihCast, ihCastL, ihUn, ihAcc, ihAccL⟩ := ih
    obtain ⟨kE, -, -, -, -, -, -, -, -, -, -, -, -, -, -, -, -, -, -, -, -, -, -, -, -, -,
      -, -, -, kRr, -, -, -, -, -, -⟩ := stateok_parsers n
    have ihPrRT : RoundTrips (parse_primary_expression n) := by
      intro s e s1 hh hnp hord
      exact primary_span_round_trip n s e s1 hh (fun t0 ht0 => hnp t0 (head?_mem ht0)) hord
    refine ⟨?_, ?_, ?_, ?_, ?_, ?_, ?_, ?_, ?_, ?_, ?_, ?_, ?_, ?_, ?_, ?_, ?_, ?_, ?_, ?_,
      ?_, ?_, ?_, ?_, ?_, ?_, ?_, ?_, ?_⟩
    -- parse_expression
    · intro s e s1 h hnp hord
      cases hrun : parse_expression_fuzzy n { s with fuzzy_struct_state := false } with
      | mk r s' =>
        simp only [parse_expression, hrun, Prod.mk.injEq] at h
        obtain ⟨hr, hs1⟩ := h
        rw [hr] at hrun
        obtain ⟨c, hcne, hdec, hcov⟩ :=
          ihF { s with fuzzy_struct_state := false } e s' hrun hnp hord
        refine ⟨c, hcne, ?_, hcov⟩
        rw [← hs1]
        exact hdec
    -- parse_expression_fuzzy
    · intro s e s1 h hnp hord
      simp only [parse_expression_fuzzy] at h
      obtain ⟨e0, s2, h1, h2⟩ := pbind_ok_elim h
      obtain ⟨c0, hc0ne, hdec0, hcov0⟩ := ihOr s e0 s2 h1 hnp hord
      obtain ⟨ta0, tb0, hh0, hl0, hsp0⟩ := hcov0
      obtain ⟨q, s3, h3, h4⟩ := pbind_ok_elim h2
      cases q with
      | none =>
        have hs3 := eat_ok_none h3
        obtain ⟨hres, hs⟩ := ppure_ok_elim h4
        refine ⟨c0, hc0ne, by rw [hs, hs3]; exact hdec0, ta0, tb0, hh0, hl0, ?_⟩
        rw [hres]
        exact hsp0
      | some tq =>
        obtain ⟨hd2, -, -⟩ := eat_ok_some h3
        obtain ⟨it, s4, h5, h6⟩ := pbind_ok_elim h4
        have hkE := kE s3
        rw [h5] at hkE
        obtain ⟨pre_it, hd4⟩ := hkE.2
        have hd4' : pre_it ++ s4.tokens = s3.tokens := hd4
        obtain ⟨spc, s5, h7, h8⟩ := pbind_ok_elim h6
        obtain ⟨hd5, -⟩ := expect_ok_elim h7
        obtain ⟨fe, s6, h9, h10⟩ := pbind_ok_elim h8
        obtain ⟨hres, hs⟩ := ppure_ok_elim h10
        have hdecfull : s.tokens
            = c0 ++ (tq :: (pre_it ++ ({ token := Token.Colon, span := spc } :: s5.tokens))) := by
          rw [hdec0, hd2, ← hd4', hd5]
        rw [hdecfull] at hnp hord
        have hnp5 : NoParen s5.tokens := fun t ht => hnp t
          (List.mem_append_right _ (List.mem_cons_of_mem _
            (List.mem_append_right _ (List.mem_cons_of_mem _ ht))))
        have hordX := spansordered_decomp_right hord
        have hordY := spansordered_decomp_right (c := [tq]) hordX
        have hordZ := spansordered_decomp_right hordY
        have hord5 := spansordered_decomp_right
          (c := [{ token := Token.Colon, span := spc }]) hordZ
        obtain ⟨cf, hcfne, hdecf, hcovf⟩ := ihF s5 fe s6 h9 hnp5 hord5
        obtain ⟨taf, tbf, hhf, hlf, hspf⟩ := hcovf
        have hse0 : (Expression.spanOf e0).start ≤ (Expression.spanOf e0).stop :=
          covers_se (spansordered_decomp_left hord) ⟨ta0, tb0, hh0, hl0, hsp0⟩
        have htaf5 : taf ∈ s5.tokens := by
          rw [hdecf]
          exact List.mem_append_left _ (head?_mem hhf)
        have hcross : tb0.span.stop ≤ taf.span.start :=
          spansordered_cross hord tb0 (getLast?_mem hl0) taf
            (List.mem_cons_of_mem _ (List.mem_append_right _
              (List.mem_cons_of_mem _ htaf5)))
        have hsef : (Expression.spanOf fe).start ≤ (Expression.spanOf fe).stop := by
          have h' := hord5
          rw [hdecf] at h'
          exact covers_se (spansordered_decomp_left h') ⟨taf, tbf, hhf, hlf, hspf⟩
        have hle : (Expression.spanOf e0).stop ≤ (Expression.spanOf fe).start := by
          rw [hsp0, hspf]
          exact hcross
        refine ⟨c0 ++ ((tq :: (pre_it ++ [{ token := Token.Colon, span := spc }])) ++ cf),
          by simp [hc0ne], ?_, ta0, tbf, ?_, ?_, ?_⟩
        · rw [hdecfull, hdecf, hs]
          simp
        · rw [List.head?_append_of_ne_nil c0 hc0ne]
          exact hh0
        · have hmidne : (tq :: (pre_it ++ [{ token := Token.Colon, span := spc }])) ++ cf
              ≠ [] := by simp
          rw [List.getLast?_append_of_ne_nil c0 hmidne,
              List.getLast?_append_of_ne_nil _ hcfne]
          exact hlf
        · rw [hres]
          show Span.add (Expression.spanOf e0) (Expression.spanOf fe) = _
          rw [span_add_eq hse0 hle hsef, hsp0, hspf]
    -- parse_or_expression
    · exact level_body_rt ihAnd ihOrL
    -- parse_or_loop
    · intro expr s e s1 h hnp hord hse hbound
      simp only [parse_or_loop] at h
      obtain ⟨o, s2, h1, h2⟩ := pbind_ok_elim h
      cases o with
      | none =>
        have hs2 := eat_ok_none h1
        obtain ⟨hres, hs⟩ := ppure_ok_elim h2
        exact Or.inl ⟨hres, by rw [hs, hs2]⟩
      | some st =>
        obtain ⟨hd1, -, -⟩ := eat_ok_some h1
        rw [hd1] at hnp hord hbound
        refine Or.inr ?_
        rw [hd1]
        exact loop_step_rt ihAnd ihOrL h2 hnp hord hse hbound
    -- parse_and_expression
    · exact level_body_rt ihBo ihAndL
    -- parse_and_loop
    · intro expr s e s1 h hnp hord hse hbound
      simp only [parse_and_loop] at h
      obtain ⟨o, s2, h1, h2⟩ := pbind_ok_elim h
      cases o with
      | none =>
        have hs2 := eat_ok_none h1
        obtain ⟨hres, hs⟩ := ppure_ok_elim h2
        exact Or.inl ⟨hres, by rw [hs, hs2]⟩
      | some st =>
        obtain ⟨hd1, -, -⟩ := eat_ok_some h1
        rw [hd1] at hnp hord hbound
        refine Or.inr ?_
        rw [hd1]
        exact loop_step_rt ihBo ihAndL h2 hnp hord hse hbound
    -- parse_bit_or_expression
    · exact level_body_rt ihBx ihBoL
    -- parse_bit_or_loop
    · intro expr s e s1 h hnp hord hse hbound
      simp only [parse_bit_or_loop] at h
      obtain ⟨o, s2, h1, h2⟩ := pbind_ok_elim h
      cases o with
      | none =>
        have hs2 := eat_ok_none h1
        obtain ⟨hres, hs⟩ := ppure_ok_elim h2
        exact Or.inl ⟨hres, by rw [hs, hs2]⟩
      | some st =>
        obtain ⟨hd1, -, -⟩ := eat_ok_some h1
        rw [hd1] at hnp hord hbound
        refine Or.inr ?_
        rw [hd1]
        exact loop_step_rt ihBx ihBoL h2 hnp hord hse hbound
    -- parse_bit_xor_expression
    · exact level_body_rt ihBa ihBxL
    -- parse_bit_xor_loop
    · intro expr s e s1 h hnp hord hse hbound
      simp only [parse_bit_xor_loop] at h
      obtain ⟨o, s2, h1, h2⟩ := pbind_ok_elim h
      cases o with
      | none =>
        have hs2 := eat_ok_none h1
        obtain ⟨hres, hs⟩ := ppure_ok_elim h2
        exact Or.inl ⟨hres, by rw [hs, hs2]⟩
      | some st =>
        obtain ⟨hd1, -, -⟩ := eat_ok_some h1
        rw [hd1] at hnp hord hbound
        refine Or.inr ?_
        rw [hd1]
        exact loop_step_rt ihBa ihBxL h2 hnp hord hse hbound
    -- parse_bit_and_expression
    · exact level_body_rt ihEq ihBaL
    -- parse_bit_and_loop
    · intro expr s e s1 h hnp hord hse hbound
      simp only [parse_bit_and_loop] at h
      obtain ⟨o, s2, h1, h2⟩ := pbind_ok_elim h
      cases o with
      | none =>
        have hs2 := eat_ok_none h1
        obtain ⟨hres, hs⟩ := ppure_ok_elim h2
        exact Or.inl ⟨hres, by rw [hs, hs2]⟩
      | some st =>
        obtain ⟨hd1, -, -⟩ := eat_ok_some h1
        rw [hd1] at hnp hord hbound
        refine Or.inr ?_
        rw [hd1]
        exact loop_step_rt ihEq ihBaL h2 hnp hord hse hbound
    -- parse_eq_expression
    · exact level_body_rt ihRel ihEqL
    -- parse_eq_loop
    · intro expr s e s1 h hnp hord hse hbound
      simp only [parse_eq_loop] at h
      obtain ⟨o, s2, h1, h2⟩ := pbind_ok_elim h
      cases o with
      | none =>
        have hs2 := eat_any_ok_none h1
        obtain ⟨hres, hs⟩ := ppure_ok_elim h2
        exact Or.inl ⟨hres, by rw [hs, hs2]⟩
      | some st =>
        obtain ⟨hd1, -, -⟩ := eat_any_ok_some h1
        rw [hd1] at hnp hord hbound
        refine Or.inr ?_
        rw [hd1]
        exact loop_step_rt ihRel ihEqL h2 hnp hord hse hbound
    -- parse_rel_expression
    · exact level_body_rt ihSh ihRelL
    -- parse_rel_loop
    · intro expr s e s1 h hnp hord hse hbound
      simp only [parse_rel_loop] at h
      obtain ⟨o, s2, h1, h2⟩ := pbind_ok_elim h
      cases o with
      | none =>
        have hs2 := eat_any_ok_none h1
        obtain ⟨hres, hs⟩ := ppure_ok_elim h2
        exact Or.inl ⟨hres, by rw [hs, hs2]⟩
      | some st =>
        obtain ⟨hd1, -, -⟩ := eat_any_ok_some h1
        rw [hd1] at hnp hord hbound
        refine Or.inr ?_
        rw [hd1]
        exact loop_step_rt ihSh ihRelL h2 hnp hord hse hbound
    -- parse_shift_expression
    · exact level_body_rt ihAs ihShL
    -- parse_shift_loop
    · intro expr s e s1 h hnp hord hse hbound
      simp only [parse_shift_loop] at h
      obtain ⟨o, s2, h1, h2⟩ := pbind_ok_elim h
      cases o with
      | none =>
        have hs2 := eat_any_ok_none h1
        obtain ⟨hres, hs⟩ := ppure_ok_elim h2
        exact Or.inl ⟨hres, by rw [hs, hs2]⟩
      | some st =>
        obtain ⟨hd1, -, -⟩ := eat_any_ok_some h1
        rw [hd1] at hnp hord hbound
        refine Or.inr ?_
        rw [hd1]
        exact loop_step_rt ihAs ihShL h2 hnp hord hse hbound
    -- parse_add_sub_expression
    · exact level_body_rt ihMd ihAsL
    -- parse_add_sub_loop
    · intro expr s e s1 h hnp hord hse hbound
      simp only [parse_add_sub_loop] at h
      obtain ⟨o, s2, h1, h2⟩ := pbind_ok_elim h
      cases o with
      | none =>
        have hs2 := eat_any_ok_none h1
        obtain ⟨hres, hs⟩ := ppure_ok_elim h2
        exact Or.inl ⟨hres, by rw [hs, hs2]⟩
      | some st =>
        obtain ⟨hd1, -, -⟩ := eat_any_ok_some h1
        rw [hd1] at hnp hord hbound
        refine Or.inr ?_
        rw [hd1]
        exact loop_step_rt ihMd ihAsL h2 hnp hord hse hbound
    -- parse_mul_div_mod_expression
    · exact level_body_rt ihExp ihMdL
    -- parse_mul_div_mod_loop
    · intro expr s e s1 h hnp hord hse hbound
      simp only [parse_mul_div_mod_loop] at h
      obtain ⟨o, s2, h1, h2⟩ := pbind_ok_elim h
      cases o with
      | none =>
        have hs2 := eat_any_ok_none h1
        obtain ⟨hres, hs⟩ := ppure_ok_elim h2
        exact Or.inl ⟨hres, by rw [hs, hs2]⟩
      | some st =>
        obtain ⟨hd1, -, -⟩ := eat_any_ok_some h1
        rw [hd1] at hnp hord hbound
        refine Or.inr ?_
        rw [hd1]
        exact loop_step_rt ihExp ihMdL h2 hnp hord hse hbound
    -- parse_exp_expression
    · intro s e s1 h hnp hord
      simp only [parse_exp_expression] at h
      obtain ⟨first, s2, h1, h2⟩ := pbind_ok_elim h
      obtain ⟨c0, hc0ne, hdec0, hcov0⟩ := ihCast s first s2 h1 hnp hord
      obtain ⟨ta0, tb0, hh0, hl0, hsp0⟩ := hcov0
      rw [hdec0] at hnp hord
      obtain ⟨rest, s3, h3, h4⟩ := pbind_ok_elim h2
      have hfirst_se : (Expression.spanOf first).start ≤ (Expression.spanOf first).stop :=
        covers_se (spansordered_decomp_left hord) ⟨ta0, tb0, hh0, hl0, hsp0⟩
      rcases ihExpL s2 rest s3 h3 (noparen_decomp_right hnp)
          (spansordered_decomp_right hord) with
        ⟨hrnil, hs3⟩ | ⟨cl, hclne, hdecl, hrne, hsel, hpwl, hBl, tb, xl, htb, hxl, hxlstop⟩
      · subst hrnil
        obtain ⟨hres, hs⟩ := ppure_ok_elim h4
        refine ⟨c0, hc0ne, ?_, ta0, tb0, hh0, hl0, ?_⟩
        · rw [hs, hs3]
          exact hdec0
        · rw [hres]
          show Expression.spanOf first = _
          exact hsp0
      · cases hrev : (first :: rest).reverse with
        | nil => exact absurd hrev (by simp)
        | cons last prev =>
          rw [hrev] at h4
          obtain ⟨hres, hs⟩ := ppure_ok_elim h4
          have hfb : ∀ t ∈ s2.tokens, (Expression.spanOf first).stop ≤ t.span.start := by
            intro t ht
            rw [hsp0]
            exact bound_transfer hord hl0 t ht
          have hfirst_bound := hBl _ hfb
          have hpw_l : List.Pairwise (fun a b =>
              (Expression.spanOf a).stop ≤ (Expression.spanOf b).start) (first :: rest) :=
            List.pairwise_cons.mpr ⟨hfirst_bound, hpwl⟩
          have hse_l : ∀ x ∈ first :: rest,
              (Expression.spanOf x).start ≤ (Expression.spanOf x).stop := by
            intro x hx
            rcases List.mem_cons.mp hx with hx | hx
            · rw [hx]; exact hfirst_se
            · exact hsel x hx
          have hse_rev : ∀ x ∈ last :: prev,
              (Expression.spanOf x).start ≤ (Expression.spanOf x).stop := by
            rw [← hrev]
            intro x hx
            exact hse_l x (List.mem_reverse.mp hx)
          have hpw_rev : List.Pairwise (fun a b =>
              (Expression.spanOf b).stop ≤ (Expression.spanOf a).start) (last :: prev) := by
            rw [← hrev]
            exact List.pairwise_reverse.mpr hpw_l
          obtain ⟨xl', hxl', hspfold⟩ := fold_exp_span prev last hse_rev hpw_rev
          have hxl'first : (last :: prev).getLast? = some first := by
            rw [← hrev, List.getLast?_reverse]
            rfl
          rw [hxl'first] at hxl'
          have hxf : first = xl' := Option.some.inj hxl'
          subst hxf
          have hlgl : (first :: rest).getLast? = some last := by
            have h' := List.head?_reverse (first :: rest)
            rw [hrev] at h'
            exact h'.symm
          have hlast_xl : xl = last := by
            cases rest with
            | nil => exact absurd rfl hrne
            | cons r0 rr =>
              rw [List.getLast?_cons_cons, hxl] at hlgl
              exact Option.some.inj hlgl
          subst hlast_xl
          refine ⟨c0 ++ cl, by simp [hc0ne], ?_, ta0, tb, ?_, ?_, ?_⟩
          · rw [hdec0, hdecl, hs]
            simp
          · rw [List.head?_append_of_ne_nil c0 hc0ne]
            exact hh0
          · rw [List.getLast?_append_of_ne_nil c0 hclne]
            exact htb
          · rw [hres, hspfold, hsp0, hxlstop]
    -- parse_exp_loop
    · intro s es s1 h hnp hord
      simp only [parse_exp_loop] at h
      obtain ⟨o, s2, h1, h2⟩ := pbind_ok_elim h
      cases o with
      | none =>
        have hs2 := eat_ok_none h1
        obtain ⟨hres, hs⟩ := ppure_ok_elim h2
        exact Or.inl ⟨hres, by rw [hs, hs2]⟩
      | some tq =>
        obtain ⟨hd1, -, -⟩ := eat_ok_some h1
        rw [hd1] at hnp hord
        obtain ⟨e1, s3, h3, h4⟩ := pbind_ok_elim h2
        obtain ⟨cr, hcrne, hdecr, hcovr⟩ := ihCast s2 e1 s3 h3 (noparen_cons hnp)
          (spansordered_decomp_right (c := [tq]) hord)
        obtain ⟨ta1, tb1, hh1, hl1, hsp1⟩ := hcovr
        rw [hdecr] at hnp hord
        have hordcr : SpansOrdered (cr ++ s3.tokens) :=
          spansordered_decomp_right (c := [tq]) hord
        have hnpcr : NoParen (cr ++ s3.tokens) := noparen_cons hnp
        have hse1 : (Expression.spanOf e1).start ≤ (Expression.spanOf e1).stop :=
          covers_se (spansordered_decomp_left hordcr) ⟨ta1, tb1, hh1, hl1, hsp1⟩
        have hb1 : ∀ t ∈ s3.tokens, (Expression.spanOf e1).stop ≤ t.span.start := by
          intro t ht
          rw [hsp1]
          exact bound_transfer hordcr hl1 t ht
        obtain ⟨es', s4, h5, h6⟩ := pbind_ok_elim h4
        obtain ⟨hres, hs⟩ := ppure_ok_elim h6
        rcases ihExpL s3 es' s4 h5 (noparen_decomp_right hnpcr)
            (spansordered_decomp_right hordcr) with
          ⟨hnil, hseq⟩ |
            ⟨cl, hclne, hdecl, hesne, hsel, hpwl, hBl, tbl, xll, htbl, hxll, hxlstop⟩
        · right
          refine ⟨tq :: cr, List.cons_ne_nil _ _, ?_, ?_, ?_, ?_, ?_, tb1, e1, ?_, ?_, ?_⟩
          · rw [hd1, hdecr, hs, hseq]
            rfl
          · rw [hres]
            exact List.cons_ne_nil _ _
          · intro x hx
            rw [hres, hnil] at hx
            rcases List.mem_cons.mp hx with hx | hx
            · rw [hx]; exact hse1
            · exact absurd hx (List.not_mem_nil _)
          · rw [hres, hnil]
            exact List.pairwise_singleton _ _
          · intro B hB x hx
            rw [hres, hnil] at hx
            rcases List.mem_cons.mp hx with hx | hx
            · rw [hx, hsp1]
              exact hB ta1 (by
                rw [hd1, hdecr]
                exact List.mem_cons_of_mem _ (List.mem_append_left _ (head?_mem hh1)))
            · exact absurd hx (List.not_mem_nil _)
          · rw [show tq :: cr = [tq] ++ cr from rfl,
                List.getLast?_append_of_ne_nil [tq] hcrne]
            exact hl1
          · rw [hres, hnil]
            rfl
          · rw [hsp1]
        · right
          refine ⟨tq :: (cr ++ cl), List.cons_ne_nil _ _, ?_, ?_, ?_, ?_, ?_,
            tbl, xll, ?_, ?_, ?_⟩
          · rw [hd1, hdecr, hdecl, hs]
            simp
          · rw [hres]
            exact List.cons_ne_nil _ _
          · intro x hx
            rw [hres] at hx
            rcases List.mem_cons.mp hx with hx | hx
            · rw [hx]; exact hse1
            · exact hsel x hx
          · rw [hres]
            exact List.pairwise_cons.mpr ⟨hBl _ hb1, hpwl⟩
          · intro B hB x hx
            rw [hres] at hx
            rcases List.mem_cons.mp hx with hx | hx
            · rw [hx, hsp1]
              exact hB ta1 (by
                rw [hd1, hdecr]
                exact List.mem_cons_of_mem _ (List.mem_append_left _ (head?_mem hh1)))
            · refine hBl B ?_ x hx
              intro t ht
              exact hB t (by
                rw [hd1, hdecr]
                exact List.mem_cons_of_mem _ (List.mem_append_right _ ht))
          · rw [show tq :: (cr ++ cl) = [tq] ++ (cr ++ cl) from rfl,
                List.getLast?_append_of_ne_nil [tq] (by simp [hclne]),
                List.getLast?_append_of_ne_nil cr hclne]
            exact htbl
          · rw [hres]
            cases es' with
            | nil => exact absurd rfl hesne
            | cons a l =>
              rw [List.getLast?_cons_cons]
              exact hxll
          · exact hxlstop
    -- parse_cast_expression
    · exact level_body_rt ihUn ihCastL
    -- parse_cast_loop
    · intro expr s e s1 h hnp hord hse hbound
      simp only [parse_cast_loop] at h
      obtain ⟨o, s2, h1, h2⟩ := pbind_ok_elim h
      cases o with
      | none =>
        have hs2 := eat_ok_none h1
        obtain ⟨hres, hs⟩ := ppure_ok_elim h2
        exact Or.inl ⟨hres, by rw [hs, hs2]⟩
      | some ast =>
        obtain ⟨hd1, -, -⟩ := eat_ok_some h1
        obtain ⟨tt, s3, h3, h4⟩ := pbind_ok_elim h2
        obtain ⟨tyt, hd3, hsp3⟩ := parse_type_ok_elim h3
        rw [hd1, hd3] at hnp hord hbound
        have htymem : tyt ∈ ast :: tyt :: s3.tokens :=
          List.mem_cons_of_mem _ (List.mem_cons_self _ _)
        have htyse : tyt.span.start ≤ tyt.span.stop := hord.2 tyt htymem
        have hexpr_le : (Expression.spanOf expr).stop ≤ tyt.span.start := hbound tyt htymem
        have hspan' : Expression.spanOf (Expression.Cast
            (Span.add (Expression.spanOf expr) tt.2) expr tt.1)
            = { start := (Expression.spanOf expr).start, stop := tyt.span.stop } := by
          show Span.add (Expression.spanOf expr) tt.2 = _
          rw [← hsp3]
          exact span_add_eq hse hexpr_le htyse
        have hlast0 : ([ast, tyt] : List SpannedToken).getLast? = some tyt := rfl
        have hbound3 : ∀ t ∈ s3.tokens, tyt.span.stop ≤ t.span.start :=
          bound_transfer (c := [ast, tyt]) hord hlast0
        have hseA : (Expression.spanOf expr).start ≤ tyt.span.stop :=
          (hse.trans hexpr_le).trans htyse
        obtain ⟨c, hcne, hdec, tb', hlast', hspan''⟩ :=
          loop_tail_merge ihCastL h4 (noparen_decomp_right (c := [ast, tyt]) hnp)
            (spansordered_decomp_right (c := [ast, tyt]) hord)
            (List.cons_ne_nil _ _) hlast0 hspan' hbound3 hseA
        refine Or.inr ⟨c, hcne, ?_, tb', hlast', hspan''⟩
        rw [hd1, hd3]
        exact hdec
    -- parse_unary_expression
    · intro s e s1 h hnp hord
      simp only [parse_unary_expression] at h
      obtain ⟨ops, s2, h1, h2⟩ := pbind_ok_elim h
      obtain ⟨hd1, hops_tok⟩ := collect_unary_ops_elim h1
      rw [hd1] at hnp hord
      obtain ⟨inner, s3, h3, h4⟩ := pbind_ok_elim h2
      obtain ⟨ci, hcine, hdeci, hcovi⟩ := ihAcc s2 inner s3 h3
        (noparen_decomp_right hnp) (spansordered_decomp_right hord)
      obtain ⟨ta, tb, hh, hl, hsp⟩ := hcovi
      obtain ⟨hres, hs⟩ := ppure_ok_elim h4
      rw [hdeci] at hnp hord
      have hord_ci : SpansOrdered (ci ++ s3.tokens) := spansordered_decomp_right hord
      have hin_se : (Expression.spanOf inner).start ≤ (Expression.spanOf inner).stop :=
        covers_se (spansordered_decomp_left hord_ci) ⟨ta, tb, hh, hl, hsp⟩
      have hops_se : ∀ o ∈ ops.reverse, o.span.start ≤ o.span.stop := by
        intro o ho
        exact hord.2 o (List.mem_append_left _ (List.mem_reverse.mp ho))
      have hops_pw : List.Pairwise (fun a b => b.span.stop ≤ a.span.start) ops.reverse :=
        List.pairwise_reverse.mpr (spansordered_decomp_left hord).1
      have hops_lt : ∀ o ∈ ops.reverse, o.span.stop ≤ (Expression.spanOf inner).start := by
        intro o ho
        rw [hsp]
        exact spansordered_cross hord o (List.mem_reverse.mp ho) ta
          (List.mem_append_left _ (head?_mem hh))
      rcases apply_unary_ops_span ops.reverse inner hops_se hops_pw hops_lt hin_se with
        ⟨hopsnil, heqinner⟩ | ⟨tl, htl, hspA⟩
      · have hops_nil : ops = [] := List.reverse_eq_nil_iff.mp hopsnil
        refine ⟨ci, hcine, ?_, ta, tb, hh, hl, ?_⟩
        · rw [hd1, hops_nil, hdeci, hs]
          rfl
        · rw [hres, heqinner, hsp]
      · have hopsne : ops ≠ [] := by
          intro hc
          rw [hc] at htl
          simp at htl
        have htl_head : ops.head? = some tl := by
          rw [← List.getLast?_reverse]
          exact htl
        refine ⟨ops ++ ci, by simp [hopsne], ?_, tl, tb, ?_, ?_, ?_⟩
        · rw [hd1, hdeci, hs]
          simp
        · rw [List.head?_append_of_ne_nil ops hopsne]
          exact htl_head
        · rw [List.getLast?_append_of_ne_nil ops hcine]
          exact hl
        · rw [hres, hspA, hsp]
    -- parse_access_expression
    · exact level_body_rt ihPrRT ihAccL
    -- parse_access_loop
    · intro expr s e s1 h hnp hord hse hbound
      simp only [parse_access_loop] at h
      obtain ⟨o, s2, h1, h2⟩ := pbind_ok_elim h
      cases o with
      | none =>
        have hs2 := eat_any_ok_none h1
        obtain ⟨hres, hs⟩ := ppure_ok_elim h2
        exact Or.inl ⟨hres, by rw [hs, hs2]⟩
      | some tk =>
        obtain ⟨hd1, hmem, -⟩ := eat_any_ok_some h1
        rcases tk with ⟨tok, sp⟩
        rw [hd1] at hnp hord hbound
        have hnptok : tok ≠ Token.LeftParen := hnp _ (List.mem_cons_self _ _)
        cases tok
        case LeftSquare =>
          obtain ⟨dd, s3, h3, h4⟩ := pbind_ok_elim h2
          cases dd with
          | some ddt =>
            obtain ⟨hd3, -, -⟩ := eat_ok_some h3
            obtain ⟨right, s4, h5, h6⟩ := pbind_ok_elim h4
            have hkR := kRr s3
            rw [h5] at hkR
            obtain ⟨pre_r, hd4⟩ := hkR.2
            have hd4' : pre_r ++ s4.tokens = s3.tokens := hd4
            obtain ⟨esp, s5, h7, h8⟩ := pbind_ok_elim h6
            obtain ⟨hd5, -⟩ := expect_ok_elim h7
            have heq : ({ token := Token.LeftSquare, span := sp } : SpannedToken)
                  :: s2.tokens
                = ((({ token := Token.LeftSquare, span := sp } : SpannedToken)
                      :: ddt :: pre_r)
                    ++ [{ token := Token.RightSquare, span := esp }]) ++ s5.tokens := by
              rw [hd3, ← hd4', hd5]
              simp
            rw [heq] at hnp hord hbound
            have hrsmem : ({ token := Token.RightSquare, span := esp } : SpannedToken)
                ∈ ((({ token := Token.LeftSquare, span := sp } : SpannedToken)
                      :: ddt :: pre_r)
                    ++ [{ token := Token.RightSquare, span := esp }]) ++ s5.tokens :=
              List.mem_append_left _ (List.mem_append_right _ (List.mem_cons_self _ _))
            have hrs_se : esp.start ≤ esp.stop := hord.2 _ hrsmem
            have hexpr_le : (Expression.spanOf expr).stop ≤ esp.start := hbound _ hrsmem
            have hspan' : Expression.spanOf (Expression.ArrayRangeAccess
                (Span.add (Expression.spanOf expr) esp) expr none right)
                = { start := (Expression.spanOf expr).start, stop := esp.stop } := by
              show Span.add _ _ = _
              exact span_add_eq hse hexpr_le hrs_se
            have hlast0 : (((({ token := Token.LeftSquare, span := sp } : SpannedToken)
                  :: ddt :: pre_r)
                ++ ([{ token := Token.RightSquare, span := esp }] : List SpannedToken))).getLast?
                = some ({ token := Token.RightSquare, span := esp } : SpannedToken) :=
              List.getLast?_concat _
            have hbound5 : ∀ t ∈ s5.tokens, esp.stop ≤ t.span.start :=
              bound_transfer hord hlast0
            have hseA : (Expression.spanOf expr).start ≤ esp.stop :=
              (hse.trans hexpr_le).trans hrs_se
            obtain ⟨c, hcne, hdec, tb', hlast', hspan''⟩ :=
              loop_tail_merge ihAccL h8 (noparen_decomp_right hnp)
                (spansordered_decomp_right hord)
                (by simp) hlast0 hspan' hbound5 hseA
            refine Or.inr ⟨c, hcne, ?_, tb', hlast', hspan''⟩
            rw [hd1, heq]
            exact hdec
          | none =>
            have hs3 := eat_ok_none h3
            obtain ⟨left, s4, h5, h6⟩ := pbind_ok_elim h4
            have hkE2 := kE s3
            rw [h5] at hkE2
            obtain ⟨pre_l, hd4⟩ := hkE2.2
            have hd4' : pre_l ++ s4.tokens = s3.tokens := hd4
            rw [hs3] at hd4'
            obtain ⟨dd2, s5, h7, h8⟩ := pbind_ok_elim h6
            cases dd2 with
            | some dd2t =>
              obtain ⟨hd5, -, -⟩ := eat_ok_some h7
              obtain ⟨right, s6, h9, h10⟩ := pbind_ok_elim h8
              have hkR := kRr s5
              rw [h9] at hkR
              obtain ⟨pre_r, hd6⟩ := hkR.2
              have hd6' : pre_r ++ s6.tokens = s5.tokens := hd6
              obtain ⟨esp, s7, h11, h12⟩ := pbind_ok_elim h10
              obtain ⟨hd7, -⟩ := expect_ok_elim h11
              have heq : ({ token := Token.LeftSquare, span := sp } : SpannedToken)
                    :: s2.tokens
                  = ((({ token := Token.LeftSquare, span := sp } : SpannedToken)
                        :: (pre_l ++ (dd2t :: pre_r)))
                      ++ [{ token := Token.RightSquare, span := esp }]) ++ s7.tokens := by
                rw [← hd4', hd5, ← hd6', hd7]
                simp
              rw [heq] at hnp hord hbound
              have hrsmem : ({ token := Token.RightSquare, span := esp } : SpannedToken)
                  ∈ ((({ token := Token.LeftSquare, span := sp } : SpannedToken)
                        :: (pre_l ++ (dd2t :: pre_r)))
                      ++ [{ token := Token.RightSquare, span := esp }]) ++ s7.tokens :=
                List.mem_append_left _ (List.mem_append_right _ (List.mem_cons_self _ _))
              have hrs_se : esp.start ≤ esp.stop := hord.2 _ hrsmem
              have hexpr_le : (Expression.spanOf expr).stop ≤ esp.start := hbound _ hrsmem
              have hspan' : Expression.spanOf (Expression.ArrayRangeAccess
                  (Span.add (Expression.spanOf expr) esp) expr (some left) right)
                  = { start := (Expression.spanOf expr).start, stop := esp.stop } := by
                show Span.add _ _ = _
                exact span_add_eq hse hexpr_le hrs_se
              have hlast0 : (((({ token := Token.LeftSquare, span := sp } : SpannedToken)
                    :: (pre_l ++ (dd2t :: pre_r)))
                  ++ ([{ token := Token.RightSquare, span := esp }] : List SpannedToken))).getLast?
                  = some ({ token := Token.RightSquare, span := esp } : SpannedToken) :=
                List.getLast?_concat _
              have hbound7 : ∀ t ∈ s7.tokens, esp.stop ≤ t.span.start :=
                bound_transfer hord hlast0
              have hseA : (Expression.spanOf expr).start ≤ esp.stop :=
                (hse.trans hexpr_le).trans hrs_se
              obtain ⟨c, hcne, hdec, tb', hlast', hspan''⟩ :=
                loop_tail_merge ihAccL h12 (noparen_decomp_right hnp)
                  (spansordered_decomp_right hord)
                  (by simp) hlast0 hspan' hbound7 hseA
              refine Or.inr ⟨c, hcne, ?_, tb', hlast', hspan''⟩
              rw [hd1, heq]
              exact hdec
            | none =>
              have hs5 := eat_ok_none h7
              obtain ⟨esp, s6, h9, h10⟩ := pbind_ok_elim h8
              obtain ⟨hd5, -⟩ := expect_ok_elim h9
              rw [hs5] at hd5
              have heq : ({ token := Token.LeftSquare, span := sp } : SpannedToken)
                    :: s2.tokens
                  = ((({ token := Token.LeftSquare, span := sp } : SpannedToken)
                        :: pre_l)
                      ++ [{ token := Token.RightSquare, span := esp }]) ++ s6.tokens := by
                rw [← hd4', hd5]
                simp
              rw [heq] at hnp hord hbound
              have hrsmem : ({ token := Token.RightSquare, span := esp } : SpannedToken)
                  ∈ ((({ token := Token.LeftSquare, span := sp } : SpannedToken)
                        :: pre_l)
                      ++ [{ token := Token.RightSquare, span := esp }]) ++ s6.tokens :=
                List.mem_append_left _ (List.mem_append_right _ (List.mem_cons_self _ _))
              have hrs_se : esp.start ≤ esp.stop := hord.2 _ hrsmem
              have hexpr_le : (Expression.spanOf expr).stop ≤ esp.start := hbound _ hrsmem
              have hspan' : Expression.spanOf (Expression.ArrayAccess
                  (Span.add (Expression.spanOf expr) esp) expr left)
                  = { start := (Expression.spanOf expr).start, stop := esp.stop } := by
                show Span.add _ _ = _
                exact span_add_eq hse hexpr_le hrs_se
              have hlast0 : (((({ token := Token.LeftSquare, span := sp } : SpannedToken)
                    :: pre_l)
                  ++ ([{ token := Token.RightSquare, span := esp }] : List SpannedToken))).getLast?
                  = some ({ token := Token.RightSquare, span := esp } : SpannedToken) :=
                List.getLast?_concat _
              have hbound6 : ∀ t ∈ s6.tokens, esp.stop ≤ t.span.start :=
                bound_transfer hord hlast0
              have hseA : (Expression.spanOf expr).start ≤ esp.stop :=
                (hse.trans hexpr_le).trans hrs_se
              obtain ⟨c, hcne, hdec, tb', hlast', hspan''⟩ :=
                loop_tail_merge ihAccL h10 (noparen_decomp_right hnp)
                  (spansordered_decomp_right hord)
                  (by simp) hlast0 hspan' hbound6 hseA
              refine Or.inr ⟨c, hcne, ?_, tb', hlast', hspan''⟩
              rw [hd1, heq]
              exact hdec
        case Dot =>
          obtain ⟨ido, s3, h3, h4⟩ := pbind_ok_elim h2
          cases ido with
          | some ident =>
            have hd3 := eat_identifier_ok_some h3
            rw [hd3] at hnp hord hbound
            have hspan' : Expression.spanOf (Expression.CircuitMemberAccess
                (Span.add (Expression.spanOf expr) ident.span) expr ident)
                = { start := (Expression.spanOf expr).start, stop := ident.span.stop } := by
              show Span.add _ _ = _
              exact span_add_eq hse
                (hbound _ (List.mem_cons_of_mem _ (List.mem_cons_self _ _)))
                (hord.2 _ (List.mem_cons_of_mem _ (List.mem_cons_self _ _)))
            obtain ⟨c, hcne, hdec, tb', hlast', hspan''⟩ :=
              access_two_token_step ihAccL h4 hnp hord hse hbound hspan'
            refine Or.inr ⟨c, hcne, ?_, tb', hlast', hspan''⟩
            rw [hd1, hd3]
            exact hdec
          | none =>
            have hs3 := eat_identifier_ok_none h3
            obtain ⟨into, s4, h5, h6⟩ := pbind_ok_elim h4
            cases into with
            | some ns =>
              have hd4 := eat_int_ok_some h5
              rw [hs3] at hd4
              rw [hd4] at hnp hord hbound
              have hspan' : Expression.spanOf (Expression.TupleAccess
                  (Span.add (Expression.spanOf expr) ns.2) expr ns.1)
                  = { start := (Expression.spanOf expr).start, stop := ns.2.stop } := by
                show Span.add _ _ = _
                exact span_add_eq hse
                  (hbound _ (List.mem_cons_of_mem _ (List.mem_cons_self _ _)))
                  (hord.2 _ (List.mem_cons_of_mem _ (List.mem_cons_self _ _)))
              obtain ⟨c, hcne, hdec, tb', hlast', hspan''⟩ :=
                access_two_token_step ihAccL h6 hnp hord hse hbound hspan'
              refine Or.inr ⟨c, hcne, ?_, tb', hlast', hspan''⟩
              rw [hd1, hd4]
              exact hdec
            | none =>
              obtain ⟨nx, s5, h7, h8⟩ := pbind_ok_elim h6
              exact (pthrow_not_ok h8).elim
        case DoubleColon =>
          obtain ⟨ident, s3, h3, h4⟩ := pbind_ok_elim h2
          obtain ⟨hd3, -⟩ := expect_ident_ok_elim h3
          rw [hd3] at hnp hord hbound
          have hspan' : Expression.spanOf (Expression.CircuitStaticFunctionAccess
              (Span.add (Expression.spanOf expr) ident.span) expr ident)
              = { start := (Expression.spanOf expr).start, stop := ident.span.stop } := by
            show Span.add _ _ = _
            exact span_add_eq hse
              (hbound _ (List.mem_cons_of_mem _ (List.mem_cons_self _ _)))
              (hord.2 _ (List.mem_cons_of_mem _ (List.mem_cons_self _ _)))
          obtain ⟨c, hcne, hdec, tb', hlast', hspan''⟩ :=
            access_two_token_step ihAccL h4 hnp hord hse hbound hspan'
          refine Or.inr ⟨c, hcne, ?_, tb', hlast', hspan''⟩
          rw [hd1, hd3]
          exact hdec
        case LeftParen => exact absurd rfl hnptok
        all_goals exact ((pthrow_not_ok h2).elim)

/-- C7 (amended): span round-trip at the public entry point. For every token
stream that contains no `(` token and whose token spans are ordered and
well-formed, whenever `parse_expression` succeeds it consumes a nonempty
prefix of the stream, and the returned node's span start equals the span
start of the first consumed token while its span end equals the span end of
the last consumed token (including delimiting tokens such as brackets and
braces). The parenthesis-free hypothesis is what the correction removes from
the original claim: a parenthesized single expression is returned unwrapped
with the inner expression's span, so streams containing `(` can violate the
round-trip (see the counterexample). -/
theorem span_round_trip_amended :
    ∀ (fuel : Nat) (s : PState) (e : Expression) (s1 : PState),
    parse_expression fuel s = (Except.ok e, s1) →
    NoParen s.tokens → SpansOrdered s.tokens →
    ∃ c : List SpannedToken, c ≠ [] ∧ s.tokens = c ++ s1.tokens ∧
      ∃ ta tb, c.head? = some ta ∧ c.getLast? = some tb ∧
        Expression.spanOf e = ⟨ta.span.start, tb.span.stop⟩ := by
  intro fuel s e s1 h hnp hord
  obtain ⟨c, hcne, hdec, hcov⟩ := (roundtrip_parsers fuel).1 s e s1 h hnp hord
  exact ⟨c, hcne, hdec, hcov⟩

/-- Check of `span_round_trip_amended` on the bracketed stream `x [ 1 ]`:
the returned array-access node spans from the identifier to the closing
bracket. -/
theorem span_round_trip_amended_witness :
    NoParen [({ token := Token.Ident "x", span := ⟨0,1⟩ } : SpannedToken),
             { token := Token.LeftSquare, span := ⟨1,2⟩ },
             { token := Token.Int "1", span := ⟨2,3⟩ },
             { token := Token.RightSquare, span := ⟨3,4⟩ }] ∧
    ∃ c : List SpannedToken, c ≠ [] ∧
      [({ token := Token.Ident "x", span := ⟨0,1⟩ } : SpannedToken),
       { token := Token.LeftSquare, span := ⟨1,2⟩ },
       { token := Token.Int "1", span := ⟨2,3⟩ },
       { token := Token.RightSquare, span := ⟨3,4⟩ }] = c ++ ([] : List SpannedToken) ∧
      ∃ ta tb, c.head? = some ta ∧ c.getLast? = some tb ∧
        Expression.spanOf (Expression.ArrayAccess ⟨0,4⟩
            (Expression.Identifier ⟨"x", ⟨0,1⟩⟩)
            (Expression.Value (ValueExpression.Implicit "1" ⟨2,3⟩)))
          = ⟨ta.span.start, tb.span.stop⟩ :=
  ⟨by intro t ht; fin_cases ht <;> decide,
    span_round_trip_amended 60
      ⟨false, [⟨Token.Ident "x", ⟨0,1⟩⟩, ⟨Token.LeftSquare, ⟨1,2⟩⟩,
               ⟨Token.Int "1", ⟨2,3⟩⟩, ⟨Token.RightSquare, ⟨3,4⟩⟩]⟩
      (Expression.ArrayAccess ⟨0,4⟩
        (Expression.Identifier ⟨"x", ⟨0,1⟩⟩)
        (Expression.Value (ValueExpression.Implicit "1" ⟨2,3⟩)))
      ⟨false, []⟩ rfl
      (by intro t ht; fin_cases ht <;> decide)
      (by
        refine ⟨?_, ?_⟩
        · decide
        · intro t ht
          fin_cases ht <;> decide)⟩
